import Mathlib

/-!
# fuseenc_fh.c: the plaintext/ciphertext shadowing engine

A shallow embedding of `src/fuseenc_fh.c` (an encrypting FUSE mirror
filesystem) together with the properties of its callbacks.

## Shape of the embedding

* C strings and byte buffers are `List Char` (the C type is `char[]`).
* The operating system is an explicit state, `World`: a name table (path to
  inode number), an inode table, a table of open file descriptions (which
  carry the file offset, shared by `dup`), a descriptor table, `errno`, a log
  of the system calls made, and an oracle `faults` that lets any call fail
  with any errno.  Every modelled call first consults the oracle; an empty
  oracle means that no call fails for a reason outside the model.
* Every C function `f` becomes a Lean function `f` taking the world and
  returning the C return value together with the new world.
* The cipher (`crypt_encrypt`, `crypt_decrypt` of `aes-crypt.h`) is a
  parameter, `Cipher`.
* `int` results are wrapped to 32 bits by `int32` where the source stores an
  `off_t` or a `ssize_t` in an `int`.

What is not modelled: permission checks, resolution of a path through
directories and symbolic links (the name table is flat), timestamps being
advanced, `O_APPEND`, short writes.  A failure from one of these enters
through the oracle.  Descriptor numbers come from a counter; which free
number the kernel picks is not observable by the callbacks.
-/

namespace FuseEnc

/-! ## Constants of the source and of the C library -/

abbrev Bytes := List Char
abbrev Path := List Char

def EPERM : Int := 1

def ENOENT : Int := 2

def EBADF : Int := 9

def ENOMEM : Int := 12

def EACCES : Int := 13

def EEXIST : Int := 17

def ENOTDIR : Int := 20

def EISDIR : Int := 21

def EINVAL : Int := 22

def EMFILE : Int := 24

def ENAMETOOLONG : Int := 36

def ENOTEMPTY : Int := 39

def ENXIO : Int := 6

def RETURN_FAILURE : Int := -1

def RETURN_SUCCESS : Int := 0

def FHS_DIRTY : Int := 1

def FHS_CLEAN : Int := 0

def PATHBUFSIZE : Nat := 1024

def PATHDELIMINATOR : Char := '/'

def NULLTERM : Char := Char.ofNat 0

def TEMPNAME_PRE : Path := ['.', '_']

def TEMPNAME_POST : Path := ['.', 'd', 'e', 'c', 'r', 'y', 'p', 't']

def TESTKEY : Bytes :=
  ['M', 'y', 'S', 'u', 'p', 'e', 'r', 'S', 'e', 'c', 'r', 'e', 't', 'K', 'e', 'y']

def O_RDONLY : Nat := 0

def O_WRONLY : Nat := 1

def O_RDWR : Nat := 2

def O_ACCMODE : Nat := 3

def O_CREAT : Nat := 64

def O_EXCL : Nat := 128

def O_TRUNC : Nat := 512

def SEEK_SET : Nat := 0

def SEEK_CUR : Nat := 1

def SEEK_END : Nat := 2

def S_IFMT : Nat := 61440

def S_IFDIR : Nat := 16384

def S_IFREG : Nat := 32768

def S_IFLNK : Nat := 40960

def S_IFIFO : Nat := 4096

def S_IRUSR : Nat := 256

def S_IWUSR : Nat := 128

def S_ISREG (m : Nat) : Bool := m &&& S_IFMT == S_IFREG

def S_ISDIR (m : Nat) : Bool := m &&& S_IFMT == S_IFDIR

def S_ISLNK (m : Nat) : Bool := m &&& S_IFMT == S_IFLNK

def S_ISFIFO (m : Nat) : Bool := m &&& S_IFMT == S_IFIFO

/-- The value an `int` holds after it is assigned a wider integer. -/
def int32 (x : Int) : Int := (x + 2147483648) % 4294967296 - 2147483648

/-- The C expression `n - 1` on a `size_t`. -/
def sizePred (n : Nat) : Nat := (n + 18446744073709551616 - 1) % 18446744073709551616

/-- The bitwise complement of a non-negative `int`, as an unsigned 32-bit pattern. -/
def compl32 (x : Nat) : Nat := 4294967295 - x % 4294967296

/-! ## Data model -/

/-- The struct `enc_fhs_t`: the file pair of a session. -/
structure enc_fhs_t where
  encFH : Int
  clearFH : Int
  clearPath : Path
  dirty : Int
deriving DecidableEq

/-- The struct `fsState_t`: the process-wide state, the backing root. -/
structure fsState_t where
  basePath : Path
deriving DecidableEq

/-- The part of `struct fuse_file_info` that the callbacks use. -/
structure fuse_file_info where
  flags : Nat
  fh : enc_fhs_t
deriving DecidableEq

/-- The fields of `struct stat` that the model carries. -/
structure stat_t where
  st_ino : Nat
  st_mode : Nat
  st_nlink : Nat
  st_uid : Nat
  st_gid : Nat
  st_size : Int
  st_blksize : Int
  st_blocks : Int
  st_atime : Nat
  st_mtime : Nat
deriving DecidableEq

/-- An errno a failing call may report: a positive number. -/
structure Errno where
  code : Nat
  pos : 0 < code
deriving DecidableEq

/-- The fields of `struct dirent` that the callbacks use. -/
structure dirent where
  d_ino : Nat
  d_type : Nat
  d_name : Path
deriving DecidableEq

/-- The fields of `struct statvfs` that the model carries. -/
structure statvfs_t where
  f_bsize : Nat
  f_namemax : Nat
deriving DecidableEq

/-- An inode of the backing store. `data` is the file's bytes (for a symbolic
link, its target); `entries` is what a directory stream opened on the inode
yields (the model does not derive it from the name table). -/
structure Inode where
  mode : Nat
  nlink : Nat
  uid : Nat
  gid : Nat
  atime : Nat
  mtime : Nat
  blksize : Nat
  data : Bytes
  entries : List dirent
deriving DecidableEq

/-- An open file description: the inode, the file offset and the access mode. -/
structure OpenFile where
  ino : Nat
  pos : Nat
  rd : Bool
  wr : Bool
deriving DecidableEq

/-- The system calls the callbacks make, as logged in `World.trace`. -/
inductive Sys
  | sOpen (path : Path) (flags : Nat)
  | sClose (fd : Int)
  | sDup (fd : Int)
  | sLseek (fd : Int) (off : Int) (whence : Nat)
  | sFtruncate (fd : Int) (len : Int)
  | sPread (fd : Int) (size : Nat) (off : Int)
  | sPwrite (fd : Int) (size : Nat) (off : Int)
  | sFstat (fd : Int)
  | sFsync (fd : Int)
  | sFdopen (fd : Int)
  | sFclose (fd : Int)
  | sCrypt (src : Int) (dst : Int)
  | sLstat (path : Path)
  | sUnlink (path : Path)
  | sAccess (path : Path)
  | sReadlink (path : Path)
  | sMknod (path : Path)
  | sMkdir (path : Path)
  | sRmdir (path : Path)
  | sSymlink (target : Path) (path : Path)
  | sLink (old : Path) (new : Path)
  | sRename (old : Path) (new : Path)
  | sChmod (path : Path)
  | sChown (path : Path)
  | sUtimens (path : Path)
  | sStatfs (path : Path)
  | sFlock (fd : Int) (op : Int)
  | sLock (fd : Int) (cmd : Int)
  | sOpendir (path : Path)
  | sClosedir
deriving DecidableEq

/-- The state of the operating system as the callbacks see it. -/
structure World where
  private_data : Option fsState_t
  names : Path → Option Nat
  inodes : Nat → Option Inode
  ofiles : Nat → Option OpenFile
  fds : Nat → Option Nat
  next : Nat
  errno : Int
  faults : List (Option Errno)
  trace : List Sys

/-- The cipher of `aes-crypt.h`: given the key and the bytes read from the
source stream, the return code and the bytes written to the destination. -/
structure Cipher where
  crypt_encrypt : Bytes → Bytes → Int × Bytes
  crypt_decrypt : Bytes → Bytes → Int × Bytes

/-- Point update of a table. -/
def upd {α β : Type} [DecidableEq α] (f : α → β) (k : α) (v : β) : α → β :=
  fun x => if x = k then v else f x

/-- Entering a system call: log it and ask the oracle whether it fails. -/
def World.enter (w : World) (ev : Sys) : Option Errno × World :=
  match w.faults with
  | [] => (none, { w with trace := ev :: w.trace })
  | f :: fs => (f, { w with faults := fs, trace := ev :: w.trace })

/-- A failing call: `-1` with `errno` set. -/
def World.fail (w : World) (e : Int) : Int × World :=
  (-1, { w with errno := e })

/-- The open file description behind a descriptor, with its number. -/
def World.file (w : World) (fd : Int) : Option (Nat × OpenFile) :=
  if fd < 0 then none
  else
    match w.fds fd.toNat with
    | none => none
    | some k =>
      match w.ofiles k with
      | none => none
      | some f => some (k, f)

/-- The bytes of an inode (empty when the inode is absent). -/
def World.dataOf (w : World) (ino : Nat) : Bytes :=
  match w.inodes ino with
  | none => []
  | some f => f.data

/-- Replace the bytes of an inode. -/
def World.setData (w : World) (ino : Nat) (d : Bytes) : World :=
  match w.inodes ino with
  | none => w
  | some f => { w with inodes := upd w.inodes ino (some { f with data := d }) }

/-- The bytes of a file resized to `n` bytes: cut, or padded with NUL. -/
def resize (d : Bytes) (n : Nat) : Bytes :=
  d.take n ++ List.replicate (n - d.length) NULLTERM

/-- The bytes of a file after `b` is written at offset `off`. -/
def writeAt (d : Bytes) (off : Nat) (b : Bytes) : Bytes :=
  match b with
  | [] => d
  | _ => resize d off ++ b ++ d.drop (off + b.length)

/-- What `stat` reports for an inode. The count `st_blocks` is in units of 512
bytes; the file system allocates whole blocks of `blksize` bytes and leaves no
hole, so a file of 11 bytes on blocks of 4096 bytes reports 8. No theorem of
this file rests on that count: where it is compared, it is with the count of
another `stat`. -/
def Inode.stat (f : Inode) (ino : Nat) : stat_t :=
  { st_ino := ino, st_mode := f.mode, st_nlink := f.nlink, st_uid := f.uid,
    st_gid := f.gid, st_size := f.data.length, st_blksize := f.blksize,
    st_blocks := ((f.data.length + f.blksize - 1) / f.blksize) * (f.blksize / 512),
    st_atime := f.atime, st_mtime := f.mtime }

/-! ## System calls -/

/-- A fresh inode of the given mode and content. -/
def newInode (mode : Nat) (data : Bytes) : Inode :=
  { mode := mode, nlink := 1, uid := 0, gid := 0, atime := 0, mtime := 0, blksize := 4096,
    data := data, entries := [] }

/-- Add a name for a fresh inode. -/
def World.create (w : World) (path : Path) (f : Inode) : World :=
  { w with names := upd w.names path (some w.next), inodes := upd w.inodes w.next (some f),
           next := w.next + 1 }

/-- Install a fresh open file description on inode `ino` and a descriptor for it. -/
def World.install (w : World) (ino : Nat) (flags : Nat) : Int × World :=
  let acc := flags &&& O_ACCMODE
  let f : OpenFile :=
    { ino := ino, pos := 0, rd := (acc == O_RDONLY || acc == O_RDWR),
      wr := (acc == O_WRONLY || acc == O_RDWR) }
  ((w.next : Int),
   { w with ofiles := upd w.ofiles w.next (some f), fds := upd w.fds w.next (some w.next),
            next := w.next + 1 })

/-- The call `open(path, flags, mode)`, on regular files. -/
def sys_open (w : World) (path : Path) (flags : Nat) (mode : Nat) : Int × World :=
  match w.enter (.sOpen path flags) with
  | (some e, w1) => w1.fail e.code
  | (none, w1) =>
    match w1.names path with
    | none =>
      if flags &&& O_CREAT = 0 then w1.fail ENOENT
      else
        (w1.create path (newInode (S_IFREG ||| (mode &&& 4095)) [])).install w1.next flags
    | some ino =>
      if flags &&& O_CREAT ≠ 0 ∧ flags &&& O_EXCL ≠ 0 then w1.fail EEXIST
      else
        match w1.inodes ino with
        | none => w1.fail ENOENT
        | some f =>
          if S_ISDIR f.mode then w1.fail EISDIR
          else if !S_ISREG f.mode then w1.fail ENXIO
          else
            let w2 := if flags &&& O_TRUNC ≠ 0 then w1.setData ino [] else w1
            w2.install ino flags

/-- The call `close(fd)`. As on Linux, a failing close still releases the
descriptor unless the descriptor is bad. -/
def sys_close (w : World) (fd : Int) : Int × World :=
  match w.enter (.sClose fd) with
  | (fault, w1) =>
    match w1.file fd with
    | none => w1.fail EBADF
    | some _ =>
      let w2 : World := { w1 with fds := upd w1.fds fd.toNat none }
      match fault with
      | some e => w2.fail e.code
      | none => (0, w2)

/-- The call `dup(fd)`: a new descriptor on the same open file description. -/
def sys_dup (w : World) (fd : Int) : Int × World :=
  match w.enter (.sDup fd) with
  | (some e, w1) => w1.fail e.code
  | (none, w1) =>
    match w1.file fd with
    | none => w1.fail EBADF
    | some (k, _) =>
      ((w1.next : Int), { w1 with fds := upd w1.fds w1.next (some k), next := w1.next + 1 })

/-- The call `lseek(fd, off, whence)`. -/
def sys_lseek (w : World) (fd : Int) (off : Int) (whence : Nat) : Int × World :=
  match w.enter (.sLseek fd off whence) with
  | (some e, w1) => w1.fail e.code
  | (none, w1) =>
    match w1.file fd with
    | none => w1.fail EBADF
    | some (k, f) =>
      let base : Int :=
        if whence = SEEK_SET then 0
        else if whence = SEEK_CUR then f.pos
        else (w1.dataOf f.ino).length
      if whence > SEEK_END ∨ base + off < 0 then w1.fail EINVAL
      else
        (base + off,
         { w1 with ofiles := upd w1.ofiles k (some { f with pos := (base + off).toNat }) })

/-- The call `ftruncate(fd, len)`. -/
def sys_ftruncate (w : World) (fd : Int) (len : Int) : Int × World :=
  match w.enter (.sFtruncate fd len) with
  | (some e, w1) => w1.fail e.code
  | (none, w1) =>
    match w1.file fd with
    | none => w1.fail EBADF
    | some (_, f) =>
      if !f.wr ∨ len < 0 then w1.fail EINVAL
      else (0, w1.setData f.ino (resize (w1.dataOf f.ino) len.toNat))

/-- The call `pread(fd, buf, size, off)`: the result and the bytes stored in `buf`. -/
def sys_pread (w : World) (fd : Int) (size : Nat) (off : Int) : Int × Bytes × World :=
  match w.enter (.sPread fd size off) with
  | (some e, w1) => ((w1.fail e.code).1, [], (w1.fail e.code).2)
  | (none, w1) =>
    match w1.file fd with
    | none => ((w1.fail EBADF).1, [], (w1.fail EBADF).2)
    | some (_, f) =>
      if !f.rd then ((w1.fail EBADF).1, [], (w1.fail EBADF).2)
      else if off < 0 then ((w1.fail EINVAL).1, [], (w1.fail EINVAL).2)
      else
        let b := ((w1.dataOf f.ino).drop off.toNat).take size
        ((b.length : Int), b, w1)

/-- The call `pwrite(fd, buf, size, off)`, writing the first `size` bytes of `buf`. -/
def sys_pwrite (w : World) (fd : Int) (buf : Bytes) (size : Nat) (off : Int) : Int × World :=
  match w.enter (.sPwrite fd size off) with
  | (some e, w1) => w1.fail e.code
  | (none, w1) =>
    match w1.file fd with
    | none => w1.fail EBADF
    | some (_, f) =>
      if !f.wr then w1.fail EBADF
      else if off < 0 then w1.fail EINVAL
      else
        (((buf.take size).length : Int),
         w1.setData f.ino (writeAt (w1.dataOf f.ino) off.toNat (buf.take size)))

/-- The call `fstat(fd, &st)`: the result and the stat buffer after the call. -/
def sys_fstat (w : World) (fd : Int) (st : stat_t) : Int × stat_t × World :=
  match w.enter (.sFstat fd) with
  | (some e, w1) => ((w1.fail e.code).1, st, (w1.fail e.code).2)
  | (none, w1) =>
    match w1.file fd with
    | none => ((w1.fail EBADF).1, st, (w1.fail EBADF).2)
    | some (_, f) =>
      match w1.inodes f.ino with
      | none => ((w1.fail EBADF).1, st, (w1.fail EBADF).2)
      | some i => (0, i.stat f.ino, w1)

/-- The call `lstat(path, &st)`. -/
def sys_lstat (w : World) (path : Path) (st : stat_t) : Int × stat_t × World :=
  match w.enter (.sLstat path) with
  | (some e, w1) => ((w1.fail e.code).1, st, (w1.fail e.code).2)
  | (none, w1) =>
    match w1.names path with
    | none => ((w1.fail ENOENT).1, st, (w1.fail ENOENT).2)
    | some ino =>
      match w1.inodes ino with
      | none => ((w1.fail ENOENT).1, st, (w1.fail ENOENT).2)
      | some i => (0, i.stat ino, w1)

/-- The calls `fsync(fd)` and `fdatasync(fd)`. -/
def sys_fsync (w : World) (fd : Int) : Int × World :=
  match w.enter (.sFsync fd) with
  | (some e, w1) => w1.fail e.code
  | (none, w1) =>
    match w1.file fd with
    | none => w1.fail EBADF
    | some _ => (0, w1)

/-- The call `unlink(path)`. -/
def sys_unlink (w : World) (path : Path) : Int × World :=
  match w.enter (.sUnlink path) with
  | (some e, w1) => w1.fail e.code
  | (none, w1) =>
    match w1.names path with
    | none => w1.fail ENOENT
    | some ino =>
      match w1.inodes ino with
      | none => w1.fail ENOENT
      | some f =>
        if S_ISDIR f.mode then w1.fail EISDIR
        else
          (0, { w1 with names := upd w1.names path none,
                        inodes := upd w1.inodes ino (some { f with nlink := f.nlink - 1 }) })

/-- The call `access(path, mask)`; permissions are not modelled. -/
def sys_access (w : World) (path : Path) (_mask : Nat) : Int × World :=
  match w.enter (.sAccess path) with
  | (some e, w1) => w1.fail e.code
  | (none, w1) =>
    match w1.names path with
    | none => w1.fail ENOENT
    | some _ => (0, w1)

/-- The call `readlink(path, buf, bufsiz)`: the count and the bytes placed in `buf`. -/
def sys_readlink (w : World) (path : Path) (bufsiz : Nat) : Int × Bytes × World :=
  match w.enter (.sReadlink path) with
  | (some e, w1) => ((w1.fail e.code).1, [], (w1.fail e.code).2)
  | (none, w1) =>
    match w1.names path with
    | none => ((w1.fail ENOENT).1, [], (w1.fail ENOENT).2)
    | some ino =>
      match w1.inodes ino with
      | none => ((w1.fail ENOENT).1, [], (w1.fail ENOENT).2)
      | some f =>
        if !S_ISLNK f.mode then ((w1.fail EINVAL).1, [], (w1.fail EINVAL).2)
        else (((f.data.take bufsiz).length : Int), f.data.take bufsiz, w1)

/-- The calls `mknod(path, mode, dev)` and `mkfifo(path, mode)`: a node of the given mode. -/
def sys_mknod (w : World) (path : Path) (mode : Nat) : Int × World :=
  match w.enter (.sMknod path) with
  | (some e, w1) => w1.fail e.code
  | (none, w1) =>
    match w1.names path with
    | some _ => w1.fail EEXIST
    | none => (0, w1.create path (newInode mode []))

/-- The call `mkdir(path, mode)`. -/
def sys_mkdir (w : World) (path : Path) (mode : Nat) : Int × World :=
  match w.enter (.sMkdir path) with
  | (some e, w1) => w1.fail e.code
  | (none, w1) =>
    match w1.names path with
    | some _ => w1.fail EEXIST
    | none => (0, w1.create path (newInode (S_IFDIR ||| (mode &&& 4095)) []))

/-- The call `rmdir(path)`; emptiness is not modelled. -/
def sys_rmdir (w : World) (path : Path) : Int × World :=
  match w.enter (.sRmdir path) with
  | (some e, w1) => w1.fail e.code
  | (none, w1) =>
    match w1.names path with
    | none => w1.fail ENOENT
    | some ino =>
      match w1.inodes ino with
      | none => w1.fail ENOENT
      | some f =>
        if !S_ISDIR f.mode then w1.fail ENOTDIR
        else (0, { w1 with names := upd w1.names path none })

/-- The call `symlink(target, linkpath)`. -/
def sys_symlink (w : World) (target linkpath : Path) : Int × World :=
  match w.enter (.sSymlink target linkpath) with
  | (some e, w1) => w1.fail e.code
  | (none, w1) =>
    match w1.names linkpath with
    | some _ => w1.fail EEXIST
    | none => (0, w1.create linkpath (newInode (S_IFLNK ||| 511) target))

/-- The call `link(oldpath, newpath)`. -/
def sys_link (w : World) (oldpath newpath : Path) : Int × World :=
  match w.enter (.sLink oldpath newpath) with
  | (some e, w1) => w1.fail e.code
  | (none, w1) =>
    match w1.names oldpath with
    | none => w1.fail ENOENT
    | some ino =>
      match w1.inodes ino, w1.names newpath with
      | none, _ => w1.fail ENOENT
      | some _, some _ => w1.fail EEXIST
      | some f, none =>
        (0, { w1 with names := upd w1.names newpath (some ino),
                      inodes := upd w1.inodes ino (some { f with nlink := f.nlink + 1 }) })

/-- The call `rename(oldpath, newpath)`. -/
def sys_rename (w : World) (oldpath newpath : Path) : Int × World :=
  match w.enter (.sRename oldpath newpath) with
  | (some e, w1) => w1.fail e.code
  | (none, w1) =>
    match w1.names oldpath with
    | none => w1.fail ENOENT
    | some ino =>
      if oldpath = newpath then (0, w1)
      else (0, { w1 with names := upd (upd w1.names newpath (some ino)) oldpath none })

/-- The call `chmod(path, mode)`. -/
def sys_chmod (w : World) (path : Path) (mode : Nat) : Int × World :=
  match w.enter (.sChmod path) with
  | (some e, w1) => w1.fail e.code
  | (none, w1) =>
    match w1.names path with
    | none => w1.fail ENOENT
    | some ino =>
      match w1.inodes ino with
      | none => w1.fail ENOENT
      | some f =>
        let f1 : Inode := { f with mode := (f.mode &&& S_IFMT) ||| (mode &&& 4095) }
        (0, { w1 with inodes := upd w1.inodes ino (some f1) })

/-- The call `lchown(path, uid, gid)`. -/
def sys_lchown (w : World) (path : Path) (uid gid : Nat) : Int × World :=
  match w.enter (.sChown path) with
  | (some e, w1) => w1.fail e.code
  | (none, w1) =>
    match w1.names path with
    | none => w1.fail ENOENT
    | some ino =>
      match w1.inodes ino with
      | none => w1.fail ENOENT
      | some f =>
        (0, { w1 with inodes := upd w1.inodes ino (some { f with uid := uid, gid := gid }) })

/-- The call `utimensat(0, path, ts, AT_SYMLINK_NOFOLLOW)`, `ts` being the two times in seconds. -/
def sys_utimensat (w : World) (path : Path) (ts : Nat × Nat) : Int × World :=
  match w.enter (.sUtimens path) with
  | (some e, w1) => w1.fail e.code
  | (none, w1) =>
    match w1.names path with
    | none => w1.fail ENOENT
    | some ino =>
      match w1.inodes ino with
      | none => w1.fail ENOENT
      | some f =>
        (0, { w1 with inodes := upd w1.inodes ino (some { f with atime := ts.1, mtime := ts.2 }) })

/-- The call `statvfs(path, &st)`. -/
def sys_statvfs (w : World) (path : Path) (st : statvfs_t) : Int × statvfs_t × World :=
  match w.enter (.sStatfs path) with
  | (some e, w1) => ((w1.fail e.code).1, st, (w1.fail e.code).2)
  | (none, w1) =>
    match w1.names path with
    | none => ((w1.fail ENOENT).1, st, (w1.fail ENOENT).2)
    | some _ => (0, { f_bsize := 4096, f_namemax := 255 }, w1)

/-- The library call `malloc`: whether it returned a block. -/
def sys_malloc (w : World) : Bool × World :=
  match w.faults with
  | some e :: fs => (false, { w with faults := fs, errno := e.code })
  | none :: fs => (true, { w with faults := fs })
  | [] => (true, w)

/-- The library call `fdopen(fd, mode)`: the stream (its descriptor), or NULL. -/
def sys_fdopen (w : World) (fd : Int) (writing : Bool) : Option Int × World :=
  match w.enter (.sFdopen fd) with
  | (some e, w1) => (none, (w1.fail e.code).2)
  | (none, w1) =>
    match w1.file fd with
    | none => (none, (w1.fail EBADF).2)
    | some (_, f) =>
      if (writing && !f.wr) || (!writing && !f.rd) then (none, (w1.fail EINVAL).2)
      else (some fd, w1)

/-- The library call `fclose(fp)`: zero on success. The descriptor is closed either way. -/
def sys_fclose (w : World) (fp : Int) : Int × World :=
  match w.enter (.sFclose fp) with
  | (fault, w1) =>
    match w1.file fp with
    | none => w1.fail EBADF
    | some _ =>
      let w2 : World := { w1 with fds := upd w1.fds fp.toNat none }
      match fault with
      | some e => w2.fail e.code
      | none => (0, w2)

/-- A run of the cipher from stream `src` to stream `dst`: the source is read
from its offset to the end, the output is written at the offset of `dst`; both
offsets advance. -/
def sys_crypt (w : World) (f : Bytes → Bytes → Int × Bytes) (src dst : Int) (key : Bytes) :
    Int × World :=
  let w1 : World := { w with trace := .sCrypt src dst :: w.trace }
  let (input, w2) : Bytes × World :=
    match w1.file src with
    | none => ([], w1)
    | some (k, s) =>
      let d := w1.dataOf s.ino
      (d.drop s.pos,
       { w1 with ofiles := upd w1.ofiles k (some { s with pos := max s.pos d.length }) })
  let out := f key input
  match w2.file dst with
  | none => (out.1, w2)
  | some (k, t) =>
    let w3 := w2.setData t.ino (writeAt (w2.dataOf t.ino) t.pos out.2)
    (out.1, { w3 with ofiles := upd w3.ofiles k (some { t with pos := t.pos + out.2.length }) })

/-! ## Path translation -/

/-- The index of the last occurrence of `c` in a string, as `strrchr` finds it. -/
def strrchr : Path → Char → Option Nat
  | [], _ => none
  | x :: xs, c =>
    match strrchr xs c with
    | some i => some (i + 1)
    | none => if x = c then some 0 else none

/-- The function `buildPath`: the return value and the buffer after the call.
An absent argument is NULL. -/
def buildPath (w : World) (path : Option Path) (buf : Option Path) (bufSize : Nat) :
    Int × Option Path :=
  match path with
  | none => (-EINVAL, buf)
  | some p =>
    match buf with
    | none => (-EINVAL, buf)
    | some old =>
      match w.private_data with
      | none => (-EINVAL, buf)
      | some state =>
        let s := state.basePath ++ p
        let size := s.length
        let buf1 := if bufSize = 0 then old else s.take (bufSize - 1)
        if size > sizePred bufSize then (-ENAMETOOLONG, some buf1)
        else (RETURN_SUCCESS, some buf1)

/-- The function `buildTempPath`: the return value and `tempPath` after the call. -/
def buildTempPath (fullPath : Option Path) (tempPath : Option Path) (bufSize : Nat) :
    Int × Option Path :=
  match fullPath with
  | none => (-EINVAL, tempPath)
  | some full =>
    match tempPath with
    | none => (-EINVAL, tempPath)
    | some old =>
      let length := full.length
      if length > sizePred PATHBUFSIZE then (-ENAMETOOLONG, tempPath)
      else
        match strrchr full PATHDELIMINATOR with
        | none => (-EINVAL, tempPath)
        | some i =>
          let buf := full.take i
          let pFileName1 := full.drop (i + 1)
          let s := buf ++ [PATHDELIMINATOR] ++ TEMPNAME_PRE ++ pFileName1 ++ TEMPNAME_POST
          let length := s.length
          let out := if bufSize = 0 then old else s.take (bufSize - 1)
          if length > sizePred bufSize then (-ENAMETOOLONG, some out)
          else (RETURN_SUCCESS, some out)

/-! ## File pairs -/

/-- The function `createFilePair`: the pair, or NULL. The field `dirty` is not
written by the source; no caller reads it before writing it. -/
def createFilePair (w : World) (encPath clearPath : Path) (flags : Nat) (mode : Nat) :
    Option enc_fhs_t × World :=
  let (ok, w) := sys_malloc w
  if !ok then (none, w)
  else
    let (ret, w) := sys_open w encPath flags mode
    if ret < 0 then (none, w)
    else
      let encFH := ret
      let (ret, w) := sys_open w clearPath (O_RDWR ||| O_CREAT ||| O_TRUNC) (S_IRUSR ||| S_IWUSR)
      if ret < 0 then (none, w)
      else
        (some { encFH := encFH, clearFH := ret, clearPath := clearPath.take PATHBUFSIZE,
                dirty := FHS_CLEAN }, w)

/-- The function `openFilePair`: the pair, or NULL. -/
def openFilePair (w : World) (encPath clearPath : Path) (flags : Nat) :
    Option enc_fhs_t × World :=
  let newflags :=
    if flags &&& O_WRONLY = O_WRONLY then (flags &&& compl32 O_WRONLY) ||| O_RDWR else flags
  let (ok, w) := sys_malloc w
  if !ok then (none, w)
  else
    let (ret, w) := sys_open w encPath newflags 0
    if ret < 0 then (none, w)
    else
      let encFH := ret
      let (ret, w) := sys_open w clearPath (O_RDWR ||| O_CREAT ||| O_TRUNC) (S_IRUSR ||| S_IWUSR)
      if ret < 0 then (none, w)
      else
        (some { encFH := encFH, clearFH := ret, clearPath := clearPath.take PATHBUFSIZE,
                dirty := FHS_CLEAN }, w)

/-- The function `closeFilePair`. -/
def closeFilePair (w : World) (fhs : Option enc_fhs_t) : Int × World :=
  match fhs with
  | none => (-EINVAL, w)
  | some fhs =>
    let (r, w) := sys_close w fhs.encFH
    if r < 0 then (-w.errno, w)
    else
      let (r, w) := sys_close w fhs.clearFH
      if r < 0 then (-w.errno, w)
      else (RETURN_SUCCESS, w)

/-- The function `removeFile`. -/
def removeFile (w : World) (filePath : Path) : Int × World :=
  let (ret, w) := sys_unlink w filePath
  if ret < 0 then (-w.errno, w)
  else (RETURN_SUCCESS, w)

/-! ## The two whole-file transforms

The labels `CLEANUP_n` of the source are functions; a `goto` is a call. The
variable `ret` is threaded through them as in the source. -/

/-- Label `CLEANUP_1` of `decryptFH` (then `CLEANUP_0`): restore the input offset. -/
def decryptFH_cleanup1 (w : World) (_ret : Int) (encFH : Int) (encOffset : Int) : Int × World :=
  let (r, w) := sys_lseek w encFH encOffset SEEK_SET
  let ret := int32 r
  if ret < 0 then (-w.errno, w) else (ret, w)

/-- Labels `CLEANUP_3` and `CLEANUP_2` of `decryptFH`: restore the output offset. -/
def decryptFH_cleanup2 (w : World) (_ret : Int) (encFH clearFH : Int)
    (encOffset clearOffset : Int) : Int × World :=
  let (r, w) := sys_lseek w clearFH clearOffset SEEK_SET
  let ret := int32 r
  let ret := if ret < 0 then -w.errno else ret
  decryptFH_cleanup1 w ret encFH encOffset

/-- Label `CLEANUP_4` of `decryptFH`: close the duplicate of `encFH`. -/
def decryptFH_cleanup4 (w : World) (ret : Int) (encFH clearFH : Int)
    (encOffset clearOffset : Int) (encFD : Int) : Int × World :=
  let (r, w) := sys_close w encFD
  let ret := if r ≠ 0 then -w.errno else ret
  decryptFH_cleanup2 w ret encFH clearFH encOffset clearOffset

/-- Label `CLEANUP_5` of `decryptFH`: close the stream on `encFH`. -/
def decryptFH_cleanup5 (w : World) (ret : Int) (encFH clearFH : Int)
    (encOffset clearOffset : Int) (encFP : Int) : Int × World :=
  let (r, w) := sys_fclose w encFP
  let ret := if r ≠ 0 then -w.errno else ret
  decryptFH_cleanup2 w ret encFH clearFH encOffset clearOffset

/-- Label `CLEANUP_6` of `decryptFH`: close the duplicate of `clearFH`. -/
def decryptFH_cleanup6 (w : World) (ret : Int) (encFH clearFH : Int)
    (encOffset clearOffset : Int) (encFP clearFD : Int) : Int × World :=
  let (r, w) := sys_close w clearFD
  let ret := if r ≠ 0 then -w.errno else ret
  decryptFH_cleanup5 w ret encFH clearFH encOffset clearOffset encFP

/-- Label `CLEANUP_7` of `decryptFH`: close the stream on `clearFH`. -/
def decryptFH_cleanup7 (w : World) (ret : Int) (encFH clearFH : Int)
    (encOffset clearOffset : Int) (encFP clearFP : Int) : Int × World :=
  let (r, w) := sys_fclose w clearFP
  let ret := if r ≠ 0 then -w.errno else ret
  decryptFH_cleanup5 w ret encFH clearFH encOffset clearOffset encFP

/-- The function `decryptFH`. -/
def decryptFH (c : Cipher) (w : World) (encFH clearFH : Int) : Int × World :=
  let key := TESTKEY
  /- Save and rewind the input offset -/
  let (encOffset, w) := sys_lseek w encFH 0 SEEK_CUR
  if encOffset < 0 then (-w.errno, w)
  else
    let (r, w) := sys_lseek w encFH 0 SEEK_SET
    let ret := int32 r
    if ret < 0 then (-w.errno, w)
    else
      /- Save, rewind and truncate the output -/
      let (clearOffset, w) := sys_lseek w clearFH 0 SEEK_CUR
      if clearOffset < 0 then decryptFH_cleanup1 w (-w.errno) encFH encOffset
      else
        let (r, w) := sys_lseek w clearFH 0 SEEK_SET
        let ret := int32 r
        if ret < 0 then decryptFH_cleanup1 w (-w.errno) encFH encOffset
        else
          let (ret, w) := sys_ftruncate w clearFH 0
          if ret < 0 then decryptFH_cleanup2 w (-w.errno) encFH clearFH encOffset clearOffset
          else
            /- Dup and get a stream for encFH; the source tests ret, not encFD -/
            let (encFD, w) := sys_dup w encFH
            if ret < 0 then decryptFH_cleanup2 w (-w.errno) encFH clearFH encOffset clearOffset
            else
              let (encFP, w) := sys_fdopen w encFD false
              match encFP with
              | none => decryptFH_cleanup4 w (-w.errno) encFH clearFH encOffset clearOffset encFD
              | some encFP =>
                /- Dup and get a stream for clearFH; the source tests ret, not clearFD -/
                let (clearFD, w) := sys_dup w clearFH
                if ret < 0 then
                  decryptFH_cleanup5 w (-w.errno) encFH clearFH encOffset clearOffset encFP
                else
                  let (clearFP, w) := sys_fdopen w clearFD true
                  match clearFP with
                  | none =>
                    decryptFH_cleanup6 w (-w.errno) encFH clearFH encOffset clearOffset
                      encFP clearFD
                  | some clearFP =>
                    let (ret, w) := sys_crypt w c.crypt_decrypt encFP clearFP key
                    decryptFH_cleanup7 w ret encFH clearFH encOffset clearOffset encFP clearFP

/-- Label `CLEANUP_1` of `encryptFH` (then `CLEANUP_0`): restore the input offset. -/
def encryptFH_cleanup1 (w : World) (_ret : Int) (clearFH : Int) (clearOffset : Int) :
    Int × World :=
  let (r, w) := sys_lseek w clearFH clearOffset SEEK_SET
  let ret := int32 r
  if ret < 0 then (-w.errno, w) else (ret, w)

/-- Labels `CLEANUP_3` and `CLEANUP_2` of `encryptFH`: restore the output offset. -/
def encryptFH_cleanup2 (w : World) (_ret : Int) (clearFH encFH : Int)
    (clearOffset encOffset : Int) : Int × World :=
  let (r, w) := sys_lseek w encFH encOffset SEEK_SET
  let ret := int32 r
  let ret := if ret < 0 then -w.errno else ret
  encryptFH_cleanup1 w ret clearFH clearOffset

/-- Label `CLEANUP_4` of `encryptFH`: close the duplicate of `clearFH`. -/
def encryptFH_cleanup4 (w : World) (ret : Int) (clearFH encFH : Int)
    (clearOffset encOffset : Int) (clearFD : Int) : Int × World :=
  let (r, w) := sys_close w clearFD
  let ret := if r ≠ 0 then -w.errno else ret
  encryptFH_cleanup2 w ret clearFH encFH clearOffset encOffset

/-- Label `CLEANUP_5` of `encryptFH`: close the stream on `clearFH`. -/
def encryptFH_cleanup5 (w : World) (ret : Int) (clearFH encFH : Int)
    (clearOffset encOffset : Int) (clearFP : Int) : Int × World :=
  let (r, w) := sys_fclose w clearFP
  let ret := if r ≠ 0 then -w.errno else ret
  encryptFH_cleanup2 w ret clearFH encFH clearOffset encOffset

/-- Label `CLEANUP_6` of `encryptFH`: close the duplicate of `encFH`. -/
def encryptFH_cleanup6 (w : World) (ret : Int) (clearFH encFH : Int)
    (clearOffset encOffset : Int) (clearFP encFD : Int) : Int × World :=
  let (r, w) := sys_close w encFD
  let ret := if r ≠ 0 then -w.errno else ret
  encryptFH_cleanup5 w ret clearFH encFH clearOffset encOffset clearFP

/-- Label `CLEANUP_7` of `encryptFH`: close the stream on `encFH`. -/
def encryptFH_cleanup7 (w : World) (ret : Int) (clearFH encFH : Int)
    (clearOffset encOffset : Int) (clearFP encFP : Int) : Int × World :=
  let (r, w) := sys_fclose w encFP
  let ret := if r ≠ 0 then -w.errno else ret
  encryptFH_cleanup5 w ret clearFH encFH clearOffset encOffset clearFP

/-- The function `encryptFH`. -/
def encryptFH (c : Cipher) (w : World) (clearFH encFH : Int) : Int × World :=
  let key := TESTKEY
  /- Save and rewind the input offset -/
  let (clearOffset, w) := sys_lseek w clearFH 0 SEEK_CUR
  if clearOffset < 0 then (-w.errno, w)
  else
    let (r, w) := sys_lseek w clearFH 0 SEEK_SET
    let ret := int32 r
    if ret < 0 then (-w.errno, w)
    else
      /- Save, rewind and truncate the output -/
      let (encOffset, w) := sys_lseek w encFH 0 SEEK_CUR
      if encOffset < 0 then encryptFH_cleanup1 w (-w.errno) clearFH clearOffset
      else
        let (r, w) := sys_lseek w encFH 0 SEEK_SET
        let ret := int32 r
        if ret < 0 then encryptFH_cleanup1 w (-w.errno) clearFH clearOffset
        else
          let (ret, w) := sys_ftruncate w encFH 0
          if ret < 0 then encryptFH_cleanup2 w (-w.errno) clearFH encFH clearOffset encOffset
          else
            /- Dup and get a stream for clearFH; the source tests ret, not clearFD -/
            let (clearFD, w) := sys_dup w clearFH
            if ret < 0 then encryptFH_cleanup2 w (-w.errno) clearFH encFH clearOffset encOffset
            else
              let (clearFP, w) := sys_fdopen w clearFD false
              match clearFP with
              | none =>
                encryptFH_cleanup4 w (-w.errno) clearFH encFH clearOffset encOffset clearFD
              | some clearFP =>
                /- Dup and get a stream for encFH; the source tests ret, not encFD -/
                let (encFD, w) := sys_dup w encFH
                if ret < 0 then
                  encryptFH_cleanup5 w (-w.errno) clearFH encFH clearOffset encOffset clearFP
                else
                  let (encFP, w) := sys_fdopen w encFD true
                  match encFP with
                  | none =>
                    encryptFH_cleanup6 w (-w.errno) clearFH encFH clearOffset encOffset
                      clearFP encFD
                  | some encFP =>
                    let (ret, w) := sys_crypt w c.crypt_encrypt clearFP encFP key
                    encryptFH_cleanup7 w ret clearFH encFH clearOffset encOffset clearFP encFP

/-! ## Callbacks on regular files

A callback returns its `int` result, what it stored through its pointer
arguments, and the new world. A local path buffer starts empty. -/

/-- The callback `enc_getattr`: the result and `*stbuf` after the call. -/
def enc_getattr (c : Cipher) (w : World) (path : Option Path) (stbuf : stat_t) :
    Int × stat_t × World :=
  let (ret, fullPath) := buildPath w path (some []) PATHBUFSIZE
  if ret < 0 then (ret, stbuf, w)
  else
    let (ret, stbuf, w) := sys_lstat w (fullPath.getD []) stbuf
    if ret < 0 then (-w.errno, stbuf, w)
    else if S_ISREG stbuf.st_mode then
      let (ret, tempPath) := buildTempPath fullPath (some []) PATHBUFSIZE
      if ret < 0 then (ret, stbuf, w)
      else
        let (fhs, w) := openFilePair w (fullPath.getD []) (tempPath.getD []) O_RDONLY
        match fhs with
        | none => (RETURN_FAILURE, stbuf, w)
        | some fhs =>
          let (ret, w) := decryptFH c w fhs.encFH fhs.clearFH
          if ret < 0 then (ret, stbuf, w)
          else
            let (ret, stTemp, w) := sys_fstat w fhs.clearFH stbuf
            if ret < 0 then (-w.errno, stbuf, w)
            else
              let (ret, w) := closeFilePair w (some fhs)
              if ret < 0 then (ret, stbuf, w)
              else
                /- Copy over select fields -/
                let stbuf :=
                  { stbuf with st_size := stTemp.st_size, st_blksize := stTemp.st_blksize,
                               st_blocks := stTemp.st_blocks }
                let (ret, w) := removeFile w (tempPath.getD [])
                if ret < 0 then (ret, stbuf, w)
                else (RETURN_SUCCESS, stbuf, w)
    else (RETURN_SUCCESS, stbuf, w)

/-- The callback `enc_fgetattr`: the result and `*stbuf` after the call. -/
def enc_fgetattr (w : World) (stbuf : stat_t) (fi : fuse_file_info) : Int × stat_t × World :=
  let fhs := fi.fh
  let (ret, stbuf, w) := sys_fstat w fhs.encFH stbuf
  if ret < 0 then (-w.errno, stbuf, w)
  else if S_ISREG stbuf.st_mode then
    let (ret, stTemp, w) := sys_fstat w fhs.clearFH stbuf
    if ret < 0 then (-w.errno, stbuf, w)
    else
      (RETURN_SUCCESS,
       { stbuf with st_size := stTemp.st_size, st_blksize := stTemp.st_blksize,
                    st_blocks := stTemp.st_blocks }, w)
  else (RETURN_SUCCESS, stbuf, w)

/-- The callback `enc_truncate`. -/
def enc_truncate (c : Cipher) (w : World) (path : Option Path) (size : Int) : Int × World :=
  let (ret, fullPath) := buildPath w path (some []) PATHBUFSIZE
  if ret < 0 then (ret, w)
  else
    let (ret, tempPath) := buildTempPath fullPath (some []) PATHBUFSIZE
    if ret < 0 then (ret, w)
    else
      let (fhs, w) := openFilePair w (fullPath.getD []) (tempPath.getD []) O_RDWR
      match fhs with
      | none => (RETURN_FAILURE, w)
      | some fhs =>
        let (ret, w) := sys_ftruncate w fhs.clearFH size
        if ret < 0 then (-w.errno, w)
        else
          let (ret, w) := encryptFH c w fhs.clearFH fhs.encFH
          if ret < 0 then (ret, w)
          else
            let (ret, w) := closeFilePair w (some fhs)
            if ret < 0 then (ret, w)
            else
              let (ret, w) := removeFile w (tempPath.getD [])
              if ret < 0 then (ret, w)
              else (RETURN_SUCCESS, w)

/-- The callback `enc_ftruncate`. -/
def enc_ftruncate (w : World) (size : Int) (fi : fuse_file_info) : Int × World :=
  let fhs := fi.fh
  let (ret, w) := sys_ftruncate w fhs.clearFH size
  if ret < 0 then (-w.errno, w)
  else (RETURN_SUCCESS, w)

/-- The callback `enc_create`: the result and `*fi` after the call. -/
def enc_create (c : Cipher) (w : World) (path : Option Path) (mode : Nat)
    (fi : fuse_file_info) : Int × fuse_file_info × World :=
  let (ret, fullPath) := buildPath w path (some []) PATHBUFSIZE
  if ret < 0 then (ret, fi, w)
  else
    let (ret, tempPath) := buildTempPath fullPath (some []) PATHBUFSIZE
    if ret < 0 then (ret, fi, w)
    else
      let (fhs, w) := createFilePair w (fullPath.getD []) (tempPath.getD []) fi.flags mode
      match fhs with
      | none => (RETURN_FAILURE, fi, w)
      | some fhs =>
        let (ret, w) := encryptFH c w fhs.clearFH fhs.encFH
        if ret < 0 then (ret, fi, w)
        else
          let fhs := { fhs with dirty := FHS_CLEAN }
          (RETURN_SUCCESS, { fi with fh := fhs }, w)

/-- The callback `enc_open`: the result and `*fi` after the call. -/
def enc_open (c : Cipher) (w : World) (path : Option Path) (fi : fuse_file_info) :
    Int × fuse_file_info × World :=
  let (ret, fullPath) := buildPath w path (some []) PATHBUFSIZE
  if ret < 0 then (ret, fi, w)
  else
    let (ret, tempPath) := buildTempPath fullPath (some []) PATHBUFSIZE
    if ret < 0 then (ret, fi, w)
    else
      let (fhs, w) := openFilePair w (fullPath.getD []) (tempPath.getD []) fi.flags
      match fhs with
      | none => (RETURN_FAILURE, fi, w)
      | some fhs =>
        let (ret, w) := decryptFH c w fhs.encFH fhs.clearFH
        if ret < 0 then (ret, fi, w)
        else
          let fhs := { fhs with dirty := FHS_CLEAN }
          (RETURN_SUCCESS, { fi with fh := fhs }, w)

/-- The callback `enc_read`: the result and the bytes stored in `buf`. -/
def enc_read (w : World) (size : Nat) (offset : Int) (fi : fuse_file_info) :
    Int × Bytes × World :=
  let fhs := fi.fh
  let (r, buf, w) := sys_pread w fhs.clearFH size offset
  let ret := int32 r
  if ret < 0 then (-w.errno, buf, w)
  else (ret, buf, w)

/-- The callback `enc_write`: the result and `*fi` after the call. -/
def enc_write (w : World) (buf : Bytes) (size : Nat) (offset : Int) (fi : fuse_file_info) :
    Int × fuse_file_info × World :=
  let fhs := fi.fh
  let fhs := { fhs with dirty := FHS_DIRTY }
  let fi := { fi with fh := fhs }
  let (r, w) := sys_pwrite w fhs.clearFH buf size offset
  let ret := int32 r
  if ret < 0 then (-w.errno, fi, w)
  else (ret, fi, w)

/-- The callback `enc_flush`; an absent `fi` is NULL. -/
def enc_flush (c : Cipher) (w : World) (fi : Option fuse_file_info) :
    Int × Option fuse_file_info × World :=
  match fi with
  | none => (-EINVAL, none, w)
  | some fi =>
    let fhs := fi.fh
    let step : Int × enc_fhs_t × World :=
      if fhs.dirty = FHS_DIRTY then
        let (ret, w) := encryptFH c w fhs.clearFH fhs.encFH
        if ret < 0 then (ret, fhs, w)
        else (0, { fhs with dirty := FHS_CLEAN }, w)
      else (0, fhs, w)
    let (ret, fhs, w) := step
    let fi := { fi with fh := fhs }
    if ret < 0 then (ret, some fi, w)
    else
      let (ret, w) := sys_dup w fhs.clearFH
      if ret < 0 then (-w.errno, some fi, w)
      else
        let (ret, w) := sys_close w ret
        if ret < 0 then (-w.errno, some fi, w)
        else
          let (ret, w) := sys_dup w fhs.encFH
          if ret < 0 then (-w.errno, some fi, w)
          else
            let (ret, w) := sys_close w ret
            if ret < 0 then (-w.errno, some fi, w)
            else (RETURN_SUCCESS, some fi, w)

/-- The callback `enc_fsync`; an absent `fi` is NULL. -/
def enc_fsync (c : Cipher) (w : World) (isdatasync : Int) (fi : Option fuse_file_info) :
    Int × Option fuse_file_info × World :=
  match fi with
  | none => (-EINVAL, none, w)
  | some fi =>
    let fhs := fi.fh
    let step : Int × enc_fhs_t × World :=
      if fhs.dirty = FHS_DIRTY then
        let (ret, w) := encryptFH c w fhs.clearFH fhs.encFH
        if ret < 0 then (ret, fhs, w)
        else (0, { fhs with dirty := FHS_CLEAN }, w)
      else (0, fhs, w)
    let (ret, fhs, w) := step
    let fi := { fi with fh := fhs }
    if ret < 0 then (ret, some fi, w)
    else
      let (ret, w) := if isdatasync ≠ 0 then sys_fsync w fhs.encFH else sys_fsync w fhs.encFH
      if ret < 0 then (-w.errno, some fi, w)
      else (RETURN_SUCCESS, some fi, w)

/-- The callback `enc_release`; an absent `fi` is NULL. -/
def enc_release (c : Cipher) (w : World) (fi : Option fuse_file_info) : Int × World :=
  match fi with
  | none => (-EINVAL, w)
  | some fi =>
    let fhs := fi.fh
    let step : Int × World :=
      if fhs.dirty = FHS_DIRTY then encryptFH c w fhs.clearFH fhs.encFH
      else (0, w)
    let (ret, w) := step
    if ret < 0 then (ret, w)
    else
      let (ret, w) := removeFile w fhs.clearPath
      if ret < 0 then (ret, w)
      else
        let (ret, w) := closeFilePair w (some fhs)
        if ret < 0 then (ret, w)
        else (RETURN_SUCCESS, w)

/-! ## Pass-through callbacks -/

/-- The callback `enc_access`. -/
def enc_access (w : World) (path : Option Path) (mask : Nat) : Int × World :=
  let (ret, fullPath) := buildPath w path (some []) PATHBUFSIZE
  if ret < 0 then (ret, w)
  else
    let (ret, w) := sys_access w (fullPath.getD []) mask
    if ret < 0 then (-w.errno, w)
    else (RETURN_SUCCESS, w)

/-- The callback `enc_readlink`: the result and the bytes stored in `buf`. -/
def enc_readlink (w : World) (path : Option Path) (size : Nat) : Int × Bytes × World :=
  let (ret, fullPath) := buildPath w path (some []) PATHBUFSIZE
  if ret < 0 then (ret, [], w)
  else
    let (ret, buf, w) := sys_readlink w (fullPath.getD []) (sizePred size)
    if ret < 0 then (-w.errno, buf, w)
    else (RETURN_SUCCESS, buf ++ [NULLTERM], w)

/-- The callback `enc_mknod`. -/
def enc_mknod (w : World) (path : Option Path) (mode : Nat) (_rdev : Nat) : Int × World :=
  let (ret, fullPath) := buildPath w path (some []) PATHBUFSIZE
  if ret < 0 then (ret, w)
  else
    let (ret, w) :=
      if S_ISFIFO mode then sys_mknod w (fullPath.getD []) (S_IFIFO ||| (mode &&& 4095))
      else sys_mknod w (fullPath.getD []) mode
    if ret < 0 then (-w.errno, w)
    else (RETURN_SUCCESS, w)

/-- The callback `enc_mkdir`. -/
def enc_mkdir (w : World) (path : Option Path) (mode : Nat) : Int × World :=
  let (ret, fullPath) := buildPath w path (some []) PATHBUFSIZE
  if ret < 0 then (ret, w)
  else
    let (ret, w) := sys_mkdir w (fullPath.getD []) mode
    if ret < 0 then (-w.errno, w)
    else (RETURN_SUCCESS, w)

/-- The callback `enc_unlink`. -/
def enc_unlink (w : World) (path : Option Path) : Int × World :=
  let (ret, fullPath) := buildPath w path (some []) PATHBUFSIZE
  if ret < 0 then (ret, w)
  else
    let (ret, w) := sys_unlink w (fullPath.getD [])
    if ret < 0 then (-w.errno, w)
    else (RETURN_SUCCESS, w)

/-- The callback `enc_rmdir`. -/
def enc_rmdir (w : World) (path : Option Path) : Int × World :=
  let (ret, fullPath) := buildPath w path (some []) PATHBUFSIZE
  if ret < 0 then (ret, w)
  else
    let (ret, w) := sys_rmdir w (fullPath.getD [])
    if ret < 0 then (-w.errno, w)
    else (RETURN_SUCCESS, w)

/-- The callback `enc_symlink`. -/
def enc_symlink (w : World) (src dst : Option Path) : Int × World :=
  let (ret, fullFrom) := buildPath w src (some []) PATHBUFSIZE
  if ret < 0 then (RETURN_FAILURE, w)
  else
    let (ret, fullTo) := buildPath w dst (some []) PATHBUFSIZE
    if ret < 0 then (RETURN_FAILURE, w)
    else
      let (ret, w) := sys_symlink w (fullFrom.getD []) (fullTo.getD [])
      if ret ≠ 0 then (-w.errno, w)
      else (RETURN_SUCCESS, w)

/-- The callback `enc_link`. -/
def enc_link (w : World) (src dst : Option Path) : Int × World :=
  let (ret, fullFrom) := buildPath w src (some []) PATHBUFSIZE
  if ret < 0 then (RETURN_FAILURE, w)
  else
    let (ret, fullTo) := buildPath w dst (some []) PATHBUFSIZE
    if ret < 0 then (RETURN_FAILURE, w)
    else
      let (ret, w) := sys_link w (fullFrom.getD []) (fullTo.getD [])
      if ret < 0 then (-w.errno, w)
      else (RETURN_SUCCESS, w)

/-- The callback `enc_rename`. -/
def enc_rename (w : World) (src dst : Option Path) : Int × World :=
  let (ret, fullFrom) := buildPath w src (some []) PATHBUFSIZE
  if ret < 0 then (ret, w)
  else
    let (ret, fullTo) := buildPath w dst (some []) PATHBUFSIZE
    if ret < 0 then (ret, w)
    else
      let (ret, w) := sys_rename w (fullFrom.getD []) (fullTo.getD [])
      if ret < 0 then (-w.errno, w)
      else (RETURN_SUCCESS, w)

/-- The callback `enc_chmod`. -/
def enc_chmod (w : World) (path : Option Path) (mode : Nat) : Int × World :=
  let (ret, fullPath) := buildPath w path (some []) PATHBUFSIZE
  if ret < 0 then (ret, w)
  else
    let (ret, w) := sys_chmod w (fullPath.getD []) mode
    if ret < 0 then (-w.errno, w)
    else (RETURN_SUCCESS, w)

/-- The callback `enc_chown`. -/
def enc_chown (w : World) (path : Option Path) (uid gid : Nat) : Int × World :=
  let (ret, fullPath) := buildPath w path (some []) PATHBUFSIZE
  if ret < 0 then (ret, w)
  else
    let (ret, w) := sys_lchown w (fullPath.getD []) uid gid
    if ret < 0 then (-w.errno, w)
    else (RETURN_SUCCESS, w)

/-- The callback `enc_utimens`. -/
def enc_utimens (w : World) (path : Option Path) (ts : Nat × Nat) : Int × World :=
  let (ret, fullPath) := buildPath w path (some []) PATHBUFSIZE
  if ret < 0 then (ret, w)
  else
    let (ret, w) := sys_utimensat w (fullPath.getD []) ts
    if ret < 0 then (-w.errno, w)
    else (RETURN_SUCCESS, w)

/-- The callback `enc_statfs`: the result and `*stbuf` after the call. -/
def enc_statfs (w : World) (path : Option Path) (stbuf : statvfs_t) :
    Int × statvfs_t × World :=
  let (ret, fullPath) := buildPath w path (some []) PATHBUFSIZE
  if ret < 0 then (ret, stbuf, w)
  else
    let (ret, stbuf, w) := sys_statvfs w (fullPath.getD []) stbuf
    if ret < 0 then (-w.errno, stbuf, w)
    else (RETURN_SUCCESS, stbuf, w)

/-! ## Predicates on worlds -/

/-- The inode an open descriptor refers to. -/
def World.inoOf (w : World) (fd : Int) : Option Nat :=
  match w.file fd with
  | none => none
  | some (_, f) => some f.ino

/-- The bytes of the file a path names. -/
def World.bytesAt (w : World) (path : Path) : Option Bytes :=
  match w.names path with
  | none => none
  | some i =>
    match w.inodes i with
    | none => none
    | some f => some f.data

/-- The bytes of the file an open descriptor refers to. -/
def World.bytesOf (w : World) (fd : Int) : Option Bytes :=
  match w.inoOf fd with
  | none => none
  | some i =>
    match w.inodes i with
    | none => none
    | some f => some f.data

/-- A live file pair: both handles are open at offset 0 on two different
inodes (`fe` the ciphertext, `fc` the plaintext), and no call fails. -/
structure Live (w : World) (ne nc ie ic : Nat) (rd wr : Bool) (fe fc : Inode) : Prop where
  nofault : w.faults = []
  fd_e : w.fds ne = some ne
  fd_c : w.fds nc = some nc
  of_e : w.ofiles ne = some { ino := ie, pos := 0, rd := rd, wr := wr }
  of_c : w.ofiles nc = some { ino := ic, pos := 0, rd := true, wr := true }
  ino_e : w.inodes ie = some fe
  ino_c : w.inodes ic = some fc
  ne_fd : ne ≠ nc
  ne_ino : ie ≠ ic
  lt_e : ne < w.next
  lt_c : nc < w.next
  lt_ie : ie < w.next
  lt_ic : ic < w.next

/-! ## A concrete cipher and concrete worlds, used to evaluate the callbacks -/

/-- A toy cipher with a two-byte header: it reverses the bytes and prepends
the first two bytes of the key; decryption fails when the header is absent. -/
def demoCipher : Cipher where
  crypt_encrypt := fun key x => (0, key.take 2 ++ x.reverse)
  crypt_decrypt := fun key y =>
    if y.take 2 = key.take 2 then (0, (y.drop 2).reverse) else (-1, [])

/-- An empty backing store rooted at `/b`; descriptors 0 to 2 are taken. -/
def world0 : World :=
  { private_data := some { basePath := ['/', 'b'] }, names := fun _ => none,
    inodes := fun _ => none, ofiles := fun _ => none, fds := fun _ => none,
    next := 3, errno := 0, faults := [], trace := [] }

/-- A `fuse_file_info` as the multiplexer passes it to create and open. -/
def fi0 (flags : Nat) : fuse_file_info :=
  { flags := flags, fh := { encFH := -1, clearFH := -1, clearPath := [], dirty := 0 } }

/-- A zeroed stat buffer. -/
def st0 : stat_t :=
  { st_ino := 0, st_mode := 0, st_nlink := 0, st_uid := 0, st_gid := 0, st_size := 0,
    st_blksize := 0, st_blocks := 0, st_atime := 0, st_mtime := 0 }

/-- The virtual path `/hello.txt`. -/
def helloPath : Path := "/hello.txt".toList

/-- The backing path of `/hello.txt`. -/
def helloFull : Path := "/b/hello.txt".toList

/-- The scratch path of `/hello.txt`. -/
def helloTemp : Path := "/b/._hello.txt.decrypt".toList

/-- The bytes `hello world`. -/
def helloWorld : Bytes := "hello world".toList

/-- The byte `X`. -/
def bytesX : Bytes := ['X']

/-- The world after `create("/hello.txt", 0644)`, `write(0, b)` and `release`. -/
def stored (b : Bytes) : World :=
  let r1 := enc_create demoCipher world0 (some helloPath) 420 (fi0 (O_CREAT ||| O_WRONLY))
  let r2 := enc_write r1.2.2 b b.length 0 r1.2.1
  (enc_release demoCipher r2.2.2 (some r2.2.1)).2

/-- The callbacks `open(O_RDONLY)`, `read(0, 100)`, `release` on `/hello.txt`:
the result of the read, the bytes read, and the result of the release. -/
def readBack (w : World) : Int × Bytes × Int :=
  let r1 := enc_open demoCipher w (some helloPath) (fi0 O_RDONLY)
  let r2 := enc_read r1.2.2 100 0 r1.2.1
  let r3 := enc_release demoCipher r2.2.2 (some r1.2.1)
  (r2.1, r2.2.1, r3.1)

/-- A session in progress: `create("/hello.txt")` then `write(0, b)`, not yet
flushed. The file info of the session and the world. -/
def dirtySession (b : Bytes) : fuse_file_info × World :=
  let r1 := enc_create demoCipher world0 (some helloPath) 420 (fi0 (O_CREAT ||| O_WRONLY))
  let r2 := enc_write r1.2.2 b b.length 0 r1.2.1
  (r2.2.1, r2.2.2)

/-- A session opened read-write on the stored file `/hello.txt`. -/
def openSession (b : Bytes) : fuse_file_info × World :=
  let r1 := enc_open demoCipher (stored b) (some helloPath) (fi0 O_RDWR)
  (r1.2.1, r1.2.2)

/-- The errno `EMFILE`, as a fault. -/
def faultEMFILE : Errno := { code := 24, pos := by decide }

/-- The errno `EIO`, as a fault. -/
def faultEIO : Errno := { code := 5, pos := by decide }

/-- The errno `EACCES`, as a fault. -/
def faultEACCES : Errno := { code := 13, pos := by decide }

/-- A world in which the next calls meet the given faults. -/
def World.withFaults (w : World) (fs : List (Option Errno)) : World :=
  { w with faults := fs }

/-- A virtual path of 1031 bytes. -/
def longPath : Path := '/' :: List.replicate 1030 'a'

/-! ## Advisory locks -/

/-- The call `flock(fd, op)`; the locks themselves are not modelled. -/
def sys_flock (w : World) (fd : Int) (op : Int) : Int × World :=
  match w.enter (.sFlock fd op) with
  | (some e, w1) => w1.fail e.code
  | (none, w1) =>
    match w1.file fd with
    | none => w1.fail EBADF
    | some _ => (0, w1)

/-- The library call `ulockmgr_op(fd, cmd, lock, owner, len)` of `ulockmgr.h`:
zero, or a negated errno; the locks themselves are not modelled. -/
def sys_ulockmgr_op (w : World) (fd : Int) (cmd : Int) : Int × World :=
  match w.enter (.sLock fd cmd) with
  | (some e, w1) => (-(e.code : Int), w1)
  | (none, w1) =>
    match w1.file fd with
    | none => (-EBADF, w1)
    | some _ => (0, w1)

/-- The callback `enc_lock`. -/
def enc_lock (w : World) (fi : fuse_file_info) (cmd : Int) : Int × World :=
  let fhs := fi.fh
  let (ret, w) := sys_ulockmgr_op w fhs.clearFH cmd
  if ret < 0 then (ret, w)
  else (ret, w)

/-- The callback `enc_flock`. -/
def enc_flock (w : World) (fi : fuse_file_info) (op : Int) : Int × World :=
  let fhs := fi.fh
  let (ret, w) := sys_flock w fhs.clearFH op
  if ret < 0 then (-w.errno, w)
  else (RETURN_SUCCESS, w)

/-! ## The session entries of the operations table -/

/-- A call on an open session, as the multiplexer makes it through the table `enc_oper`. -/
inductive SessionCall
  | read (size : Nat) (offset : Int)
  | write (buf : Bytes) (size : Nat) (offset : Int)
  | ftruncate (size : Int)
  | fgetattr (stbuf : stat_t)
  | flush
  | fsync (isdatasync : Int)
  | lock (cmd : Int)
  | flock (op : Int)

/-- The session entries of the table `enc_oper`: the result of the call, the
file pair behind `fi->fh` after it, and the new world. A callback that never
writes through `fi` or `fhs` leaves the file info as it was. -/
def enc_oper (c : Cipher) (w : World) (fi : fuse_file_info) :
    SessionCall → Int × fuse_file_info × World
  | .read size offset => ((enc_read w size offset fi).1, fi, (enc_read w size offset fi).2.2)
  | .write buf size offset => enc_write w buf size offset fi
  | .ftruncate size => ((enc_ftruncate w size fi).1, fi, (enc_ftruncate w size fi).2)
  | .fgetattr stbuf => ((enc_fgetattr w stbuf fi).1, fi, (enc_fgetattr w stbuf fi).2.2)
  | .flush =>
    ((enc_flush c w (some fi)).1, (enc_flush c w (some fi)).2.1.getD fi,
     (enc_flush c w (some fi)).2.2)
  | .fsync isdatasync =>
    ((enc_fsync c w isdatasync (some fi)).1, (enc_fsync c w isdatasync (some fi)).2.1.getD fi,
     (enc_fsync c w isdatasync (some fi)).2.2)
  | .lock cmd => ((enc_lock w fi cmd).1, fi, (enc_lock w fi cmd).2)
  | .flock op => ((enc_flock w fi op).1, fi, (enc_flock w fi op).2)

/-! ## Predicates on sessions -/

/-- The predicate "clean means identical": when `dirty` is `FHS_CLEAN`, the
bytes of the scratch file are the decryption of the bytes of the ciphertext file. -/
def cleanIdentical (c : Cipher) (w : World) (fi : fuse_file_info) : Bool :=
  fi.fh.dirty != FHS_CLEAN ||
    w.bytesOf fi.fh.clearFH ==
      (w.bytesOf fi.fh.encFH).map (fun y => (c.crypt_decrypt TESTKEY y).2)

/-- The predicate "live pair": both handles of the pair are open and the
scratch path names an existing file. -/
def livePair (w : World) (fhs : enc_fhs_t) : Bool :=
  (w.file fhs.encFH).isSome && (w.file fhs.clearFH).isSome &&
    (w.bytesAt fhs.clearPath).isSome

/-! ## More concrete worlds -/

/-- A cipher that reports a fault on every input that is not empty. -/
def faultyCipher : Cipher where
  crypt_encrypt := fun key x => if x = [] then (0, key.take 2) else (-1, [])
  crypt_decrypt := fun key y => if y = key.take 2 then (0, []) else (-1, [])

/-- A backing store rooted at `/b` in which `/b/hello.txt` is a regular file
holding the bytes `hello world` as they are, not a ciphertext of either cipher. -/
def plainWorld : World :=
  world0.create helloFull (newInode (S_IFREG ||| 420) helloWorld)

/-- A session in progress under `faultyCipher`: `create("/hello.txt")` then
`write(0, b)`, not yet flushed. -/
def faultySession (b : Bytes) : fuse_file_info × World :=
  let r1 := enc_create faultyCipher world0 (some helloPath) 420 (fi0 (O_CREAT ||| O_WRONLY))
  let r2 := enc_write r1.2.2 b b.length 0 r1.2.1
  (r2.2.1, r2.2.2)

/-- The virtual path `/link`. -/
def linkPath : Path := ['/', 'l', 'i', 'n', 'k']

/-- The link target `hello.txt`, relative to the directory of the link. -/
def linkTarget : Path := ['h', 'e', 'l', 'l', 'o', '.', 't', 'x', 't']

/-- The session `openSession helloWorld` after the ciphertext handle was moved
to offset 3 and the plaintext handle to offset 7. -/
def seekedSession : fuse_file_info × World :=
  let s := openSession helloWorld
  let w1 := (sys_lseek s.2 s.1.fh.encFH 3 SEEK_SET).2
  (s.1, (sys_lseek w1 s.1.fh.clearFH 7 SEEK_SET).2)

/-! ## Invariants of a session -/

/-- From `w` to `w1` no descriptor below the counter of `w` changed, the
counter did not decrease, and no open file description or inode disappeared. -/
structure Ext0 (w w1 : World) : Prop where
  fds : ∀ n, n < w.next → w1.fds n = w.fds n
  next : w.next ≤ w1.next
  ofiles : ∀ k, (w.ofiles k).isSome = true → (w1.ofiles k).isSome = true
  inodes : ∀ i, (w.inodes i).isSome = true → (w1.inodes i).isSome = true

/-- As `Ext0`, and no name changed. -/
structure Ext (w w1 : World) : Prop where
  names : w1.names = w.names
  fds : ∀ n, n < w.next → w1.fds n = w.fds n
  next : w.next ≤ w1.next
  ofiles : ∀ k, (w.ofiles k).isSome = true → (w1.ofiles k).isSome = true
  inodes : ∀ i, (w.inodes i).isSome = true → (w1.inodes i).isSome = true

/-- Both handles `a` and `b` are open, in a world whose counter is above them. -/
structure Open2 (a b : Int) (w : World) : Prop where
  enc : (w.file a).isSome = true
  clear : (w.file b).isSome = true
  lt_a : a < (w.next : Int)
  lt_b : b < (w.next : Int)

/-- The live pair `(a, b, p)` in a world whose counter is above both handles. -/
structure Kept (a b : Int) (p : Path) (w : World) : Prop where
  enc : (w.file a).isSome = true
  clear : (w.file b).isSome = true
  scratch : (w.bytesAt p).isSome = true
  lt_a : a < (w.next : Int)
  lt_b : b < (w.next : Int)

/-- A descriptor value that is not one of the handles `a` and `b`: an error
value, or a number handed out after them. -/
def Above (a b fd : Int) : Prop := fd < 0 ∨ (a < fd ∧ b < fd)

/-- A predicate on worlds that the calls of a transform keep: calls that
change no name and no descriptor of the pair, closing a descriptor other than
the handles; and under which a fresh descriptor is not one of the handles. -/
structure Stable (a b : Int) (Q : World → Prop) : Prop where
  ext : ∀ w w1, Q w → Ext w w1 → Q w1
  close : ∀ w fd, Q w → Above a b fd → Q (sys_close w fd).2
  fclose : ∀ w fd, Q w → Above a b fd → Q (sys_fclose w fd).2
  fresh : ∀ w, Q w → a < (w.next : Int) ∧ b < (w.next : Int)

/-! ## Directory handles -/

/-- A directory stream `DIR`: what it yields, and its location. A location is
the number of entries before it, which is also what `telldir` returns. -/
structure DIR where
  entries : List dirent
  loc : Nat
deriving DecidableEq

/-- The struct `enc_dirp_t`: the stream, the entry read but not yet accepted, and the offset. -/
structure enc_dirp_t where
  dp : DIR
  entry : Option dirent
  offset : Int
deriving DecidableEq

/-- The library call `readdir(dp)`: the next entry, or NULL at the end. -/
def readdir (dp : DIR) : Option dirent × DIR :=
  match dp.entries.get? dp.loc with
  | none => (none, dp)
  | some e => (some e, { dp with loc := dp.loc + 1 })

/-- The library call `telldir(dp)`. -/
def telldir (dp : DIR) : Int := (dp.loc : Int)

/-- The library call `seekdir(dp, loc)`. -/
def seekdir (dp : DIR) (loc : Int) : DIR := { dp with loc := loc.toNat }

/-- The type `fuse_fill_dir_t` of the filler: from the buffer, a name, a stat
and an offset to its result (non-zero when the entry is refused) and the buffer. -/
abbrev fuse_fill_dir_t (β : Type) := β → Path → stat_t → Int → Int × β

/-- A stat buffer after `memset(&st, 0, sizeof(st))`. -/
def stat_zero : stat_t :=
  { st_ino := 0, st_mode := 0, st_nlink := 0, st_uid := 0, st_gid := 0, st_size := 0,
    st_blksize := 0, st_blocks := 0, st_atime := 0, st_mtime := 0 }

/-- The loop `while (1)` of `enc_readdir`, run for at most `fuel` rounds. -/
def enc_readdir_loop {β : Type} (filler : fuse_fill_dir_t β) :
    Nat → β → enc_dirp_t → β × enc_dirp_t
  | 0, buf, d => (buf, d)
  | fuel + 1, buf, d =>
    let step : Option dirent × enc_dirp_t :=
      match d.entry with
      | some e => (some e, d)
      | none =>
        let (e, dp) := readdir d.dp
        (e, { d with dp := dp, entry := e })
    match step with
    | (none, d) => (buf, d)
    | (some e, d) =>
      let st := { stat_zero with st_ino := e.d_ino, st_mode := e.d_type <<< 12 }
      let nextoff := telldir d.dp
      let (r, buf) := filler buf e.d_name st nextoff
      if r ≠ 0 then (buf, d)
      else enc_readdir_loop filler fuel buf { d with entry := none, offset := nextoff }

/-- The callback `enc_readdir`: the result, the buffer and `*d` after the call.
The loop ends within one round per entry of the stream, plus two. -/
def enc_readdir {β : Type} (filler : fuse_fill_dir_t β) (buf : β) (offset : Int)
    (d : enc_dirp_t) : Int × β × enc_dirp_t :=
  let d : enc_dirp_t :=
    if offset ≠ d.offset then { dp := seekdir d.dp offset, entry := none, offset := offset }
    else d
  let (buf, d) := enc_readdir_loop filler (d.dp.entries.length + 2) buf d
  (RETURN_SUCCESS, buf, d)

/-- The library call `opendir(path)`: the stream, or NULL. -/
def sys_opendir (w : World) (path : Path) : Option DIR × World :=
  match w.enter (.sOpendir path) with
  | (some e, w1) => (none, (w1.fail e.code).2)
  | (none, w1) =>
    match w1.names path with
    | none => (none, (w1.fail ENOENT).2)
    | some ino =>
      match w1.inodes ino with
      | none => (none, (w1.fail ENOENT).2)
      | some f =>
        if !S_ISDIR f.mode then (none, (w1.fail ENOTDIR).2)
        else (some { entries := f.entries, loc := 0 }, w1)

/-- The callback `enc_opendir`: the result and the handle stored in `fi->fh`. -/
def enc_opendir (w : World) (path : Option Path) : Int × Option enc_dirp_t × World :=
  let (ok, w) := sys_malloc w
  if !ok then (-w.errno, none, w)
  else
    let (ret, fullPath) := buildPath w path (some []) PATHBUFSIZE
    if ret < 0 then (ret, none, w)
    else
      let (dp, w) := sys_opendir w (fullPath.getD [])
      match dp with
      | none => (-w.errno, none, w)
      | some dp => (RETURN_SUCCESS, some { dp := dp, entry := none, offset := 0 }, w)

/-- The callback `enc_releasedir`. -/
def enc_releasedir (w : World) (_d : enc_dirp_t) : Int × World :=
  (RETURN_SUCCESS, { w with trace := .sClosedir :: w.trace })

/-- What a filler is given for one entry: the name, the stat and the offset. -/
structure Fill where
  name : Path
  st : stat_t
  off : Int
deriving DecidableEq

/-- What `enc_readdir` gives the filler for the entry `e` at location `i` of the stream. -/
def fillOf (e : dirent) (i : Nat) : Fill :=
  { name := e.d_name,
    st := { stat_zero with st_ino := e.d_ino, st_mode := e.d_type <<< 12 },
    off := ((i + 1 : Nat) : Int) }

/-- A filler whose buffer is the list of what it accepted, and which decides
on that list and the entry offered. -/
def listFiller (accept : List Fill → Fill → Bool) : fuse_fill_dir_t (List Fill) :=
  fun buf name st off =>
    if accept buf { name := name, st := st, off := off } then
      (0, buf ++ [{ name := name, st := st, off := off }])
    else (1, buf)

/-- The handle is in step with the stream at location `k`: the stored offset
is `k`, and either nothing is cached and the stream stands at `k`, or entry `k`
is cached and the stream stands after it. -/
def InStep (d : enc_dirp_t) (k : Nat) : Prop :=
  d.offset = (k : Int) ∧
    ((d.entry = none ∧ d.dp.loc = k) ∨
     (d.entry = d.dp.entries.get? k ∧ d.entry ≠ none ∧ d.dp.loc = k + 1))

/-- Consecutive calls of `enc_readdir`, one per acceptance rule, each with a
fresh buffer and with the offset the handle stores: the buffers and the handle. -/
def readdirCalls : List (List Fill → Fill → Bool) → enc_dirp_t → List (List Fill) × enc_dirp_t
  | [], d => ([], d)
  | a :: rest, d =>
    let r := enc_readdir (listFiller a) [] d.offset d
    let s := readdirCalls rest r.2.2
    (r.2.1 :: s.1, s.2)

/-! ## The entry point -/

/-- The value `EXIT_FAILURE`. -/
def EXIT_FAILURE : Int := 1

/-- How `main` ends: in `exit(status)` after writing to `stderr`, or in the
call `fuse_main(args.argc, args.argv, &enc_oper, &state)`. -/
inductive MainOutcome
  | exit (status : Int) (stderr : List Char)
  | fuse_main (args : List (List Char)) (basePath : Option Path)
deriving DecidableEq

/-- The loop `for (i = 0; i < argc; i++)` of `main`, from index `i` on: the
arguments added so far and `state.basePath`. -/
def main_loop (realpath : List Char → Option Path) :
    Nat → List (List Char) → List (List Char) × Option Path → List (List Char) × Option Path
  | _, [], acc => acc
  | i, a :: rest, (args, basePath) =>
    if i = 2 then main_loop realpath (i + 1) rest (args, realpath a)
    else main_loop realpath (i + 1) rest (args ++ [a], basePath)

/-- The function `main`. The library function `realpath` is a parameter
(it yields NULL when it fails); `argv[0]` of an empty vector is NULL. -/
def main (realpath : List Char → Option Path) (argv : List (List Char)) : MainOutcome :=
  if argv.length < 3 then
    .exit EXIT_FAILURE
      (['U', 's', 'a', 'g', 'e', ':', '\n', ' '] ++ argv.headD ['(', 'n', 'u', 'l', 'l', ')'] ++
        [' ', '<', 'M', 'o', 'u', 'n', 't', ' ', 'P', 'o', 'i', 'n', 't', '>', ' ', '<', 'M', 'i',
         'r', 'r', 'o', 'r', 'e', 'd', ' ', 'D', 'i', 'r', 'e', 'c', 't', 'o', 'r', 'y', '>', '\n'])
  else
    let (args, basePath) := main_loop realpath 0 argv ([], none)
    .fuse_main args basePath

/-! ## More concrete worlds: a directory and a command line -/

/-- The stream of a directory holding the regular files `a`, `b` and `c`
(`d_type` is `DT_REG`, 8). -/
def dirABC : enc_dirp_t :=
  { dp := { entries := [{ d_ino := 10, d_type := 8, d_name := ['a'] },
                        { d_ino := 11, d_type := 8, d_name := ['b'] },
                        { d_ino := 12, d_type := 8, d_name := ['c'] }], loc := 0 },
    entry := none, offset := 0 }

/-- A filler whose buffer holds two entries. -/
def twoSlots : List Fill → Fill → Bool := fun buf _ => buf.length < 2

/-- A `realpath` that resolves every name to itself below `/srv`. -/
def demoRealpath : List Char → Option Path := fun a => some (['/', 's', 'r', 'v', '/'] ++ a)

/-! ## Directory listing and scratch names: what the theorems compare with -/

/-- What `enc_readdir` gives the filler for the entries `l`, the first of
which stands at location `i` of the stream. -/
def fills : List dirent → Nat → List Fill
  | [], _ => []
  | e :: rest, i => fillOf e i :: fills rest (i + 1)

/-- Offering the entries `l` (the first at location `i`) one after the other
to a filler deciding by `accept`, until it refuses one: the buffer, and the
location of the entry refused or of the end. -/
def scanFills (accept : List Fill → Fill → Bool) : List Fill → List dirent → Nat → List Fill × Nat
  | buf, [], i => (buf, i)
  | buf, e :: rest, i =>
    if accept buf (fillOf e i) then scanFills accept (buf ++ [fillOf e i]) rest (i + 1)
    else (buf, i)

/-- The backing store of `plainWorld` with a second virtual file,
`/._hello.txt.decrypt`, whose content is the byte `X`. -/
def shadowWorld : World :=
  plainWorld.create helloTemp (newInode (S_IFREG ||| 420) bytesX)

/-! ## The whole operations table -/

/-- A call of the multiplexer through the table `enc_oper`, one constructor per
entry of the table, with the arguments of the call. -/
inductive Callback
  | access (path : Option Path) (mask : Nat)
  | lock (fi : fuse_file_info) (cmd : Int)
  | flock (fi : fuse_file_info) (op : Int)
  | chmod (path : Option Path) (mode : Nat)
  | chown (path : Option Path) (uid gid : Nat)
  | getattr (path : Option Path) (stbuf : stat_t)
  | fgetattr (stbuf : stat_t) (fi : fuse_file_info)
  | statfs (path : Option Path) (stbuf : statvfs_t)
  | utimens (path : Option Path) (ts : Nat × Nat)
  | create (path : Option Path) (mode : Nat) (fi : fuse_file_info)
  | mkdir (path : Option Path) (mode : Nat)
  | mknod (path : Option Path) (mode : Nat) (rdev : Nat)
  | link (src dst : Option Path)
  | symlink (src dst : Option Path)
  | rmdir (path : Option Path)
  | unlink (path : Option Path)
  | openFile (path : Option Path) (fi : fuse_file_info)
  | opendir (path : Option Path)
  | release (fi : Option fuse_file_info)
  | releasedir (d : enc_dirp_t)
  | read (size : Nat) (offset : Int) (fi : fuse_file_info)
  | readdir (accept : List Fill → Fill → Bool) (buf : List Fill) (offset : Int) (d : enc_dirp_t)
  | readlink (path : Option Path) (size : Nat)
  | write (buf : Bytes) (size : Nat) (offset : Int) (fi : fuse_file_info)
  | rename (src dst : Option Path)
  | truncate (path : Option Path) (size : Int)
  | ftruncate (size : Int) (fi : fuse_file_info)
  | flush (fi : Option fuse_file_info)
  | fsync (isdatasync : Int) (fi : Option fuse_file_info)

/-- The world after a call through the table `enc_oper`. The callback
`enc_readdir` works on the directory stream alone. -/
def enc_oper_any (c : Cipher) (w : World) : Callback → World
  | .access path mask => (enc_access w path mask).2
  | .lock fi cmd => (enc_lock w fi cmd).2
  | .flock fi op => (enc_flock w fi op).2
  | .chmod path mode => (enc_chmod w path mode).2
  | .chown path uid gid => (enc_chown w path uid gid).2
  | .getattr path stbuf => (enc_getattr c w path stbuf).2.2
  | .fgetattr stbuf fi => (enc_fgetattr w stbuf fi).2.2
  | .statfs path stbuf => (enc_statfs w path stbuf).2.2
  | .utimens path ts => (enc_utimens w path ts).2
  | .create path mode fi => (enc_create c w path mode fi).2.2
  | .mkdir path mode => (enc_mkdir w path mode).2
  | .mknod path mode rdev => (enc_mknod w path mode rdev).2
  | .link src dst => (enc_link w src dst).2
  | .symlink src dst => (enc_symlink w src dst).2
  | .rmdir path => (enc_rmdir w path).2
  | .unlink path => (enc_unlink w path).2
  | .openFile path fi => (enc_open c w path fi).2.2
  | .opendir path => (enc_opendir w path).2.2
  | .release fi => (enc_release c w fi).2
  | .releasedir d => (enc_releasedir w d).2
  | .read size offset fi => (enc_read w size offset fi).2.2
  | .readdir _ _ _ _ => w
  | .readlink path size => (enc_readlink w path size).2.2
  | .write buf size offset fi => (enc_write w buf size offset fi).2.2
  | .rename src dst => (enc_rename w src dst).2
  | .truncate path size => (enc_truncate c w path size).2
  | .ftruncate size fi => (enc_ftruncate w size fi).2
  | .flush fi => (enc_flush c w fi).2.2
  | .fsync isdatasync fi => (enc_fsync c w isdatasync fi).2.2

/-- The call is handed one of the descriptors `a` and `b` to close: an
`enc_release` whose file pair holds one of them. -/
def closesHandle (a b : Int) : Callback → Bool
  | .release (some fi) =>
    decide (fi.fh.encFH = a) || decide (fi.fh.encFH = b) ||
      decide (fi.fh.clearFH = a) || decide (fi.fh.clearFH = b)
  | _ => false

/-- The virtual path `/._hello.txt.decrypt`, whose backing path is the scratch
path of `/hello.txt`. -/
def helloShadow : Path := "/._hello.txt.decrypt".toList

/-- A second session on `/hello.txt`, opened read-only while the session
`dirtySession bytesX` is in progress. -/
def secondSession : fuse_file_info × World :=
  let s := dirtySession bytesX
  let r := enc_open demoCipher s.2 (some helloPath) (fi0 O_RDONLY)
  (r.2.1, r.2.2)

/-- A session on `/hello.txt` whose scratch path is another name of the backing
file: `link("/hello.txt", "/._hello.txt.decrypt")` on the stored file, then
`open("/hello.txt", O_RDWR)`. -/
def linkedSession : fuse_file_info × World :=
  let w1 := (enc_link (stored helloWorld) (some helloPath) (some helloShadow)).2
  let r := enc_open demoCipher w1 (some helloPath) (fi0 O_RDWR)
  (r.2.1, r.2.2)

/-! ## Theorems

Each system call is first run on a world written out field by field; the
callbacks are then run one call at a time. -/

section Run
variable {D : Option fsState_t} {N : Path → Option Nat} {I : Nat → Option Inode}
  {O : Nat → Option OpenFile} {F : Nat → Option Nat} {X : Nat} {E : Int} {T : List Sys}

theorem file_mk {n k : Nat} {f : OpenFile} (hfd : F n = some k) (ho : O k = some f) :
    (World.mk D N I O F X E [] T).file (n : Int) = some (k, f) := by
  have hneg : ¬ ((n : Int) < 0) := by omega
  simp [World.file, hfd, ho, hneg]

theorem sys_lseek_cur_mk {n k : Nat} {f : OpenFile}
    (hfd : F n = some k) (ho : O k = some f) :
    sys_lseek (World.mk D N I O F X E [] T) (n : Int) 0 SEEK_CUR =
      ((f.pos : Int),
       World.mk D N I (upd O k (some f)) F X E []
         (Sys.sLseek n 0 SEEK_CUR :: T)) := by
  have hneg : ¬ ((n : Int) < 0) := by omega
  simp [sys_lseek, World.enter, World.file, hfd, ho, hneg, SEEK_CUR, SEEK_SET, SEEK_END]

theorem sys_lseek_set_mk {n k : Nat} {f : OpenFile} {off : Int}
    (hfd : F n = some k) (ho : O k = some f) (hoff : 0 ≤ off) :
    sys_lseek (World.mk D N I O F X E [] T) (n : Int) off SEEK_SET =
      (off,
       World.mk D N I (upd O k (some { f with pos := off.toNat })) F X E []
         (Sys.sLseek n off SEEK_SET :: T)) := by
  have hneg : ¬ ((n : Int) < 0) := by omega
  have hoff2 : ¬ (off < 0) := by omega
  simp [sys_lseek, World.enter, World.file, hfd, ho, hneg, hoff2, SEEK_CUR, SEEK_SET, SEEK_END]

theorem sys_ftruncate_mk {n k : Nat} {f : OpenFile} {i : Inode} {len : Int}
    (hfd : F n = some k) (ho : O k = some f) (hwr : f.wr = true)
    (hi : I f.ino = some i) (hlen : 0 ≤ len) :
    sys_ftruncate (World.mk D N I O F X E [] T) (n : Int) len =
      (0, World.mk D N (upd I f.ino (some { i with data := resize i.data len.toNat })) O
            F X E [] (Sys.sFtruncate n len :: T)) := by
  have hneg : ¬ ((n : Int) < 0) := by omega
  have hoff : ¬ (len < 0) := by omega
  simp [sys_ftruncate, World.enter, World.file, hfd, ho, hneg, hoff, hwr, World.setData,
    World.dataOf, hi]

theorem sys_dup_mk {n k : Nat} {f : OpenFile}
    (hfd : F n = some k) (ho : O k = some f) :
    sys_dup (World.mk D N I O F X E [] T) (n : Int) =
      ((X : Int), World.mk D N I O (upd F X (some k)) (X + 1) E []
            (Sys.sDup n :: T)) := by
  have hneg : ¬ ((n : Int) < 0) := by omega
  simp [sys_dup, World.enter, World.file, hfd, ho, hneg]

theorem sys_fdopen_mk {n k : Nat} {f : OpenFile} (writing : Bool)
    (hfd : F n = some k) (ho : O k = some f)
    (hmode : (if writing then f.wr else f.rd) = true) :
    sys_fdopen (World.mk D N I O F X E [] T) (n : Int) writing =
      (some (n : Int), World.mk D N I O F X E [] (Sys.sFdopen n :: T)) := by
  have hneg : ¬ ((n : Int) < 0) := by omega
  cases writing <;> simp at hmode <;>
    simp [sys_fdopen, World.enter, World.file, hfd, ho, hneg, hmode]

theorem sys_fclose_mk {n k : Nat} {f : OpenFile}
    (hfd : F n = some k) (ho : O k = some f) :
    sys_fclose (World.mk D N I O F X E [] T) (n : Int) =
      (0, World.mk D N I O (upd F n none) X E [] (Sys.sFclose n :: T)) := by
  have hneg : ¬ ((n : Int) < 0) := by omega
  simp [sys_fclose, World.enter, World.file, hfd, ho, hneg]

theorem sys_close_mk {n k : Nat} {f : OpenFile}
    (hfd : F n = some k) (ho : O k = some f) :
    sys_close (World.mk D N I O F X E [] T) (n : Int) =
      (0, World.mk D N I O (upd F n none) X E [] (Sys.sClose n :: T)) := by
  have hneg : ¬ ((n : Int) < 0) := by omega
  simp [sys_close, World.enter, World.file, hfd, ho, hneg]


theorem sys_crypt_mk (g : Bytes → Bytes → Int × Bytes) {J K U V : Nat} {S G : OpenFile}
    {Q i : Inode} (key : Bytes)
    (hs : F J = some K) (hso : O K = some S)
    (hd : F U = some V) (hdo : O V = some G) (hk : V ≠ K)
    (hsrc : I S.ino = some Q) (hi : I G.ino = some i) :
    sys_crypt (World.mk D N I O F X E [] T) g (J : Int) (U : Int) key =
      ((g key (Q.data.drop S.pos)).1,
       World.mk D N
         (upd I G.ino
           (some { i with data := writeAt i.data G.pos (g key (Q.data.drop S.pos)).2 }))
         (upd (upd O K (some { S with pos := max S.pos Q.data.length })) V
           (some { G with pos := G.pos + (g key (Q.data.drop S.pos)).2.length }))
         F X E [] (Sys.sCrypt J U :: T)) := by
  have hneg : ¬ ((J : Int) < 0) := by omega
  have hneg2 : ¬ ((U : Int) < 0) := by omega
  simp [sys_crypt, World.file, hs, hso, hd, hdo, hneg, hneg2, upd, hk, World.setData,
    World.dataOf, hi, hsrc]


theorem sys_malloc_mk :
    sys_malloc (World.mk D N I O F X E [] T) =
      (true, World.mk D N I O F X E [] T) := by
  simp [sys_malloc]

theorem sys_open_new_mk {path : Path} {L : Nat} (mode : Nat)
    (hn : N path = none) (hc : L &&& O_CREAT ≠ 0) :
    sys_open (World.mk D N I O F X E [] T) path L mode =
      (((X + 1 : Nat) : Int),
       World.mk D (upd N path (some X))
         (upd I X (some (newInode (S_IFREG ||| (mode &&& 4095)) [])))
         (upd O (X + 1)
           (some { ino := X, pos := 0,
                   rd := (L &&& O_ACCMODE == O_RDONLY || L &&& O_ACCMODE == O_RDWR),
                   wr := (L &&& O_ACCMODE == O_WRONLY || L &&& O_ACCMODE == O_RDWR) }))
         (upd F (X + 1) (some (X + 1))) (X + 1 + 1) E [] (Sys.sOpen path L :: T)) := by
  simp [sys_open, World.enter, hn, hc, World.create, World.install]

theorem sys_open_old_mk {path : Path} {L : Nat} {i : Nat} {f : Inode} (mode : Nat)
    (hn : N path = some i) (hi : I i = some f) (hreg : S_ISREG f.mode = true)
    (hx : L &&& O_EXCL = 0) (ht : L &&& O_TRUNC = 0) :
    sys_open (World.mk D N I O F X E [] T) path L mode =
      ((X : Int),
       World.mk D N I
         (upd O X
           (some { ino := i, pos := 0,
                   rd := (L &&& O_ACCMODE == O_RDONLY || L &&& O_ACCMODE == O_RDWR),
                   wr := (L &&& O_ACCMODE == O_WRONLY || L &&& O_ACCMODE == O_RDWR) }))
         (upd F X (some X)) (X + 1) E [] (Sys.sOpen path L :: T)) := by
  have hd : S_ISDIR f.mode = false := by
    simp only [S_ISREG, S_ISDIR, beq_iff_eq] at hreg ⊢
    rw [hreg]
    decide
  simp [sys_open, World.enter, hn, hi, hx, ht, hreg, hd, World.install]

theorem sys_open_trunc_mk {path : Path} {L : Nat} {i : Nat} {f : Inode} (mode : Nat)
    (hn : N path = some i) (hi : I i = some f) (hreg : S_ISREG f.mode = true)
    (hx : L &&& O_EXCL = 0) (ht : L &&& O_TRUNC ≠ 0) :
    sys_open (World.mk D N I O F X E [] T) path L mode =
      ((X : Int),
       World.mk D N (upd I i (some { f with data := [] }))
         (upd O X
           (some { ino := i, pos := 0,
                   rd := (L &&& O_ACCMODE == O_RDONLY || L &&& O_ACCMODE == O_RDWR),
                   wr := (L &&& O_ACCMODE == O_WRONLY || L &&& O_ACCMODE == O_RDWR) }))
         (upd F X (some X)) (X + 1) E [] (Sys.sOpen path L :: T)) := by
  have hd : S_ISDIR f.mode = false := by
    simp only [S_ISREG, S_ISDIR, beq_iff_eq] at hreg ⊢
    rw [hreg]
    decide
  simp [sys_open, World.enter, hn, hi, hx, ht, hreg, hd, World.install, World.setData]

theorem sys_unlink_mk {path : Path} {i : Nat} {f : Inode}
    (hn : N path = some i) (hi : I i = some f) (hreg : S_ISREG f.mode = true) :
    sys_unlink (World.mk D N I O F X E [] T) path =
      (0, World.mk D (upd N path none) (upd I i (some { f with nlink := f.nlink - 1 }))
            O F X E [] (Sys.sUnlink path :: T)) := by
  have hd : S_ISDIR f.mode = false := by
    simp only [S_ISREG, S_ISDIR, beq_iff_eq] at hreg ⊢
    rw [hreg]
    decide
  simp [sys_unlink, World.enter, hn, hi, hd]

theorem sys_pread_mk {n k : Nat} {f : OpenFile} {i : Inode} (size : Nat) {off : Int}
    (hfd : F n = some k) (ho : O k = some f) (hrd : f.rd = true)
    (hi : I f.ino = some i) (hoff : 0 ≤ off) :
    sys_pread (World.mk D N I O F X E [] T) (n : Int) size off =
      ((((i.data.drop off.toNat).take size).length : Int), (i.data.drop off.toNat).take size,
       World.mk D N I O F X E [] (Sys.sPread n size off :: T)) := by
  have hneg : ¬ ((n : Int) < 0) := by omega
  have hoff2 : ¬ (off < 0) := by omega
  simp [sys_pread, World.enter, World.file, hfd, ho, hneg, hoff2, hrd, World.dataOf, hi]

theorem sys_pwrite_mk {n k : Nat} {f : OpenFile} {i : Inode} (buf : Bytes) (size : Nat)
    {off : Int}
    (hfd : F n = some k) (ho : O k = some f) (hwr : f.wr = true)
    (hi : I f.ino = some i) (hoff : 0 ≤ off) :
    sys_pwrite (World.mk D N I O F X E [] T) (n : Int) buf size off =
      (((buf.take size).length : Int),
       World.mk D N
         (upd I f.ino (some { i with data := writeAt i.data off.toNat (buf.take size) }))
         O F X E [] (Sys.sPwrite n size off :: T)) := by
  have hneg : ¬ ((n : Int) < 0) := by omega
  have hoff2 : ¬ (off < 0) := by omega
  simp [sys_pwrite, World.enter, World.file, hfd, ho, hneg, hoff2, hwr, World.dataOf, hi,
    World.setData]

theorem sys_fstat_mk {n k : Nat} {f : OpenFile} {i : Inode} (st : stat_t)
    (hfd : F n = some k) (ho : O k = some f) (hi : I f.ino = some i) :
    sys_fstat (World.mk D N I O F X E [] T) (n : Int) st =
      (0, i.stat f.ino, World.mk D N I O F X E [] (Sys.sFstat n :: T)) := by
  have hneg : ¬ ((n : Int) < 0) := by omega
  simp [sys_fstat, World.enter, World.file, hfd, ho, hneg, hi]

theorem sys_lstat_mk {path : Path} {i : Nat} {f : Inode} (st : stat_t)
    (hn : N path = some i) (hi : I i = some f) :
    sys_lstat (World.mk D N I O F X E [] T) path st =
      (0, f.stat i, World.mk D N I O F X E [] (Sys.sLstat path :: T)) := by
  simp [sys_lstat, World.enter, hn, hi]

theorem int32_small {x : Int} (h0 : 0 ≤ x) (h1 : x < 2147483648) : int32 x = x := by
  unfold int32
  omega

theorem upd_idem {α β : Type} [DecidableEq α] (f : α → β) (k : α) (a b : β) :
    upd (upd f k a) k b = upd f k b := by
  funext x
  simp only [upd]
  split_ifs <;> rfl

theorem upd_same {α β : Type} [DecidableEq α] (f : α → β) (k : α) (v : β) :
    upd f k v k = v := by
  simp [upd]

theorem upd_other {α β : Type} [DecidableEq α] (f : α → β) {k x : α} (v : β) (h : x ≠ k) :
    upd f k v x = f x := by
  simp [upd, h]

theorem upd_self {α β : Type} [DecidableEq α] (f : α → β) {k : α} {v : β} (h : f k = v) :
    upd f k v = f := by
  funext x
  simp only [upd]
  split_ifs with hx
  · rw [hx, h]
  · rfl

theorem writeAt_resize_zero (d b : Bytes) : writeAt (resize d 0) 0 b = b := by
  cases b with
  | nil => simp [writeAt, resize]
  | cons x xs => simp [writeAt, resize]

theorem encryptFH_cleanup2_mk {J K U V : Nat} {S G : OpenFile} (ret : Int)
    (ps pd1 : Nat)
    (hs : F J = some K) (hso : O K = some S)
    (hd : F U = some V) (hdo : O V = some G) (hk : V ≠ K)
    (hps : ps < 2147483648) (hpd : pd1 < 2147483648) :
    encryptFH_cleanup2 (World.mk D N I O F X E [] T) ret (J : Int) (U : Int)
        (ps : Int) (pd1 : Int) =
      ((ps : Int),
       World.mk D N I
         (upd (upd O V (some { G with pos := pd1 })) K (some { S with pos := ps }))
         F X E []
         (Sys.sLseek J ps SEEK_SET :: Sys.sLseek U pd1 SEEK_SET :: T)) := by
  have q0 : int32 (ps : Int) = ps := int32_small (by omega) (by omega)
  have q1 : int32 (pd1 : Int) = pd1 := int32_small (by omega) (by omega)
  have p0 : ¬ ((ps : Int) < 0) := by omega
  have p1 : ¬ ((pd1 : Int) < 0) := by omega
  unfold encryptFH_cleanup2
  rw [sys_lseek_set_mk (k := V) (f := G) hd hdo (by omega)]
  dsimp only
  unfold encryptFH_cleanup1
  rw [sys_lseek_set_mk (k := K) (f := S) hs ?_ (by omega)]
  rotate_left
  · simp [upd, hk.symm, hso]
  dsimp only
  simp only [q0, p0, if_false, Int.toNat_ofNat]

theorem encryptFH_cleanup7_mk {J K U V n1 n2 : Nat} {S G : OpenFile} (ret : Int)
    (ps pd1 : Nat)
    (hs : F J = some K) (hso : O K = some S)
    (hd : F U = some V) (hdo : O V = some G) (hk : V ≠ K)
    (h1 : F n1 = some K) (h2 : F n2 = some V)
    (hn1 : n1 ≠ J) (hn2 : n1 ≠ U) (hn3 : n2 ≠ J) (hn4 : n2 ≠ U) (hn5 : n1 ≠ n2)
    (hps : ps < 2147483648) (hpd : pd1 < 2147483648) :
    encryptFH_cleanup7 (World.mk D N I O F X E [] T) ret (J : Int) (U : Int)
        (ps : Int) (pd1 : Int) (n1 : Int) (n2 : Int) =
      ((ps : Int),
       World.mk D N I
         (upd (upd O V (some { G with pos := pd1 })) K (some { S with pos := ps }))
         (upd (upd F n2 none) n1 none) X E []
         (Sys.sLseek J ps SEEK_SET :: Sys.sLseek U pd1 SEEK_SET :: Sys.sFclose n1 ::
           Sys.sFclose n2 :: T)) := by
  unfold encryptFH_cleanup7
  rw [sys_fclose_mk (k := V) (f := G) h2 hdo]
  dsimp only
  unfold encryptFH_cleanup5
  rw [sys_fclose_mk (k := K) (f := S) ?_ hso]
  rotate_left
  · simp [upd, hn5, h1]
  dsimp only
  rw [encryptFH_cleanup2_mk (K := K) (V := V) (S := S) (G := G) _ ps pd1 ?_ hso ?_ hdo
    hk hps hpd]
  · simp [upd, hn3.symm, hn1.symm, hs]
  · simp [upd, hn4.symm, hn2.symm, hd]

theorem encryptFH_mk (c : Cipher) {J K U V : Nat} {S G : OpenFile} {Q R : Inode}
    (hs : F J = some K) (hso : O K = some S) (hrd : S.rd = true)
    (hd : F U = some V) (hdo : O V = some G) (hwr : G.wr = true)
    (hk : V ≠ K) (hino : S.ino ≠ G.ino)
    (hsrc : I S.ino = some Q) (hdst : I G.ino = some R)
    (hns : J < X) (hnd : U < X)
    (hps : S.pos < 2147483648) (hpd : G.pos < 2147483648) :
    ∃ tr1, encryptFH c (World.mk D N I O F X E [] T) (J : Int) (U : Int) =
      ((S.pos : Int),
       World.mk D N
         (upd I G.ino (some { R with data := (c.crypt_encrypt TESTKEY Q.data).2 }))
         O (upd (upd F X none) (X + 1) none) (X + 2) E [] tr1) := by
  have p0 : ¬ ((S.pos : Int) < 0) := by omega
  have p1 : ¬ ((G.pos : Int) < 0) := by omega
  have z0 : int32 0 = 0 := by decide
  have hnx1 : X ≠ J := by omega
  have hnx2 : X ≠ U := by omega
  have hnx3 : X + 1 ≠ J := by omega
  have hnx4 : X + 1 ≠ U := by omega
  have hks : K ≠ V := fun h => hk h.symm
  have hino2 : G.ino ≠ S.ino := fun h => hino h.symm
  unfold encryptFH
  rw [sys_lseek_cur_mk hs hso]
  dsimp only
  rw [sys_lseek_set_mk (k := K) (f := S) hs ?_ (le_refl 0)]
  rotate_left
  · simp [upd]
  dsimp only
  rw [sys_lseek_cur_mk (k := V) (f := G) hd ?_]
  rotate_left
  · simp [upd, hk, hdo]
  dsimp only
  rw [sys_lseek_set_mk (k := V) (f := G) hd ?_ (le_refl 0)]
  rotate_left
  · simp [upd]
  dsimp only
  simp only [p0, p1, z0, lt_self_iff_false, if_false]
  rw [sys_ftruncate_mk (k := V) (f := { G with pos := 0 }) (i := R) hd ?_ hwr
    hdst (le_refl 0)]
  rotate_left
  · simp [upd]
  dsimp only
  rw [sys_dup_mk (k := K) (f := { S with pos := 0 }) hs ?_]
  rotate_left
  · simp [upd, hks]
  dsimp only
  rw [sys_fdopen_mk (k := K) (f := { S with pos := 0 }) false ?_ ?_ ?_]
  rotate_left
  · simp [upd]
  · simp [upd, hks]
  · simp [hrd]
  dsimp only
  rw [sys_dup_mk (k := V) (f := { G with pos := 0 }) ?_ ?_]
  rotate_left
  · simp [upd, hnx2.symm, hd]
  · simp [upd]
  dsimp only
  rw [sys_fdopen_mk (k := V) (f := { G with pos := 0 }) true ?_ ?_ ?_]
  rotate_left
  · simp [upd]
  · simp [upd]
  · simp [hwr]
  dsimp only
  simp only [lt_self_iff_false, if_false]
  rw [sys_crypt_mk c.crypt_encrypt (K := K) (V := V) (S := { S with pos := 0 })
    (G := { G with pos := 0 }) (Q := Q) (i := { R with data := resize R.data 0 })
    TESTKEY ?_ ?_ ?_ ?_ hk ?_ ?_]
  rotate_left
  · simp [upd]
  · simp [upd, hks]
  · simp [upd]
  · simp [upd]
  · simp [upd, hino, hsrc]
  · simp [upd]
  dsimp only
  rw [encryptFH_cleanup7_mk (K := K) (V := V) (S := { S with pos := 0 ⊔ Q.data.length })
    (G := { G with pos := 0 + (c.crypt_encrypt TESTKEY (List.drop 0 Q.data)).2.length })
    _ S.pos G.pos ?_ ?_ ?_ ?_ hk ?_ ?_ hnx1 hnx2 hnx3 hnx4 (by omega) hps hpd]
  rotate_left
  · simp [upd, hnx1.symm, hnx3.symm, hs]
  · simp [upd, hks]
  · simp [upd, hnx2.symm, hnx4.symm, hd]
  · simp [upd]
  · simp [upd]
  · simp [upd]
  apply Exists.intro
  refine Prod.ext rfl ?_
  dsimp only
  congr 1
  · rw [upd_idem]
    simp [writeAt_resize_zero]
  · funext x
    simp only [upd]
    cases S
    cases G
    split_ifs with h1 h2 <;> simp_all
  · funext x
    simp only [upd]
    split_ifs with h1 h2 <;> simp_all


theorem decryptFH_eq_encryptFH (c : Cipher) (w : World) (a b : Int) :
    decryptFH c w a b =
      encryptFH { crypt_encrypt := c.crypt_decrypt, crypt_decrypt := c.crypt_decrypt } w a b :=
  rfl

theorem decryptFH_mk (c : Cipher) {J K U V : Nat} {S G : OpenFile} {Q R : Inode}
    (hs : F J = some K) (hso : O K = some S) (hrd : S.rd = true)
    (hd : F U = some V) (hdo : O V = some G) (hwr : G.wr = true)
    (hk : V ≠ K) (hino : S.ino ≠ G.ino)
    (hsrc : I S.ino = some Q) (hdst : I G.ino = some R)
    (hns : J < X) (hnd : U < X)
    (hps : S.pos < 2147483648) (hpd : G.pos < 2147483648) :
    ∃ tr1, decryptFH c (World.mk D N I O F X E [] T) (J : Int) (U : Int) =
      ((S.pos : Int),
       World.mk D N
         (upd I G.ino (some { R with data := (c.crypt_decrypt TESTKEY Q.data).2 }))
         O (upd (upd F X none) (X + 1) none) (X + 2) E [] tr1) := by
  rw [decryptFH_eq_encryptFH]
  exact encryptFH_mk _ hs hso hrd hd hdo hwr hk hino hsrc hdst hns hnd hps hpd

theorem closeFilePair_mk {ne K nc V : Nat} {S G : OpenFile} (p : Path) (d : Int)
    (he : F ne = some K) (heo : O K = some S)
    (hc : F nc = some V) (hco : O V = some G) (hne : ne ≠ nc) :
    closeFilePair (World.mk D N I O F X E [] T)
        (some { encFH := ne, clearFH := nc, clearPath := p, dirty := d }) =
      (0, World.mk D N I O (upd (upd F ne none) nc none) X E []
            (Sys.sClose nc :: Sys.sClose ne :: T)) := by
  unfold closeFilePair
  dsimp only
  rw [sys_close_mk he heo]
  dsimp only
  rw [sys_close_mk (k := V) (f := G) ?_ hco]
  rotate_left
  · simp [upd, hne.symm, hc]
  simp [RETURN_SUCCESS]

theorem removeFile_mk {path : Path} {i : Nat} {f : Inode}
    (hn : N path = some i) (hi : I i = some f) (hreg : S_ISREG f.mode = true) :
    removeFile (World.mk D N I O F X E [] T) path =
      (0, World.mk D (upd N path none) (upd I i (some { f with nlink := f.nlink - 1 }))
            O F X E [] (Sys.sUnlink path :: T)) := by
  unfold removeFile
  rw [sys_unlink_mk hn hi hreg]
  simp [RETURN_SUCCESS]

end Run

theorem strrchr_lt {l : Path} {c : Char} {i : Nat} (h : strrchr l c = some i) : i < l.length := by
  induction l generalizing i with
  | nil => simp [strrchr] at h
  | cons x xs ih =>
    simp only [strrchr] at h
    cases hx : strrchr xs c with
    | some j =>
      rw [hx] at h
      simp only [Option.some.injEq] at h
      have := ih hx
      simp only [List.length_cons]
      omega
    | none =>
      rw [hx] at h
      simp only at h
      split_ifs at h
      simp only [Option.some.injEq] at h
      simp only [List.length_cons]
      omega

theorem buildTempPath_ok {full tmp : Path}
    (h : buildTempPath (some full) (some []) PATHBUFSIZE = (0, some tmp)) :
    tmp ≠ full ∧ tmp.length ≤ 1023 := by
  unfold buildTempPath at h
  simp only [PATHBUFSIZE, sizePred] at h
  norm_num at h
  split_ifs at h with h1
  · simp [ENAMETOOLONG] at h
  · cases hs : strrchr full PATHDELIMINATOR with
    | none =>
      rw [hs] at h
      simp [EINVAL] at h
    | some i =>
      rw [hs] at h
      simp only at h
      have hi := strrchr_lt hs
      split_ifs at h with h2
      · simp [ENAMETOOLONG] at h
      · simp only [Prod.mk.injEq, Option.some.injEq] at h
        obtain ⟨-, h⟩ := h
        have hlen : tmp.length = full.length + 10 := by
          rw [← h]
          simp [TEMPNAME_PRE, TEMPNAME_POST] at h2 ⊢
          omega
        constructor
        · intro he
          rw [he] at hlen
          omega
        · rw [← h]
          simp [TEMPNAME_PRE, TEMPNAME_POST] at h2 ⊢

theorem buildPath_congr {w w1 : World} (h : w1.private_data = w.private_data)
    (path buf : Option Path) (n : Nat) : buildPath w1 path buf n = buildPath w path buf n := by
  simp [buildPath, h]

theorem createFilePair_mk {D : Option fsState_t} {N : Path → Option Nat}
    {I : Nat → Option Inode} {O : Nat → Option OpenFile} {F : Nat → Option Nat}
    {X : Nat} {E : Int} {T : List Sys} {full tmp : Path} {L : Nat} (mode : Nat)
    (hn1 : N full = none) (hn2 : N tmp = none) (hne : tmp ≠ full)
    (hlen : tmp.length ≤ 1023) (hc : L &&& O_CREAT ≠ 0) :
    ∃ tr1, createFilePair (World.mk D N I O F X E [] T) full tmp L mode =
      (some { encFH := ((X + 1 : Nat) : Int), clearFH := ((X + 3 : Nat) : Int),
              clearPath := tmp, dirty := FHS_CLEAN },
       World.mk D (upd (upd N full (some X)) tmp (some (X + 2)))
         (upd (upd I X (some (newInode (S_IFREG ||| (mode &&& 4095)) []))) (X + 2)
           (some (newInode (S_IFREG ||| ((S_IRUSR ||| S_IWUSR) &&& 4095)) [])))
         (upd (upd O (X + 1)
           (some { ino := X, pos := 0,
                   rd := (L &&& O_ACCMODE == O_RDONLY || L &&& O_ACCMODE == O_RDWR),
                   wr := (L &&& O_ACCMODE == O_WRONLY || L &&& O_ACCMODE == O_RDWR) }))
           (X + 3) (some { ino := X + 2, pos := 0, rd := true, wr := true }))
         (upd (upd F (X + 1) (some (X + 1))) (X + 3) (some (X + 3))) (X + 4) E [] tr1) := by
  have h1 : ¬ (((X + 1 : Nat) : Int) < 0) := by omega
  have h2 : ¬ (((X + 1 + 1 + 1 : Nat) : Int) < 0) := by omega
  have htake : List.take PATHBUFSIZE tmp = tmp := by
    apply List.take_of_length_le
    simp only [PATHBUFSIZE]
    omega
  unfold createFilePair
  rw [sys_malloc_mk]
  dsimp only
  rw [sys_open_new_mk mode hn1 hc]
  dsimp only
  rw [sys_open_new_mk (L := O_RDWR ||| O_CREAT ||| O_TRUNC) _ ?_ (by decide)]
  rotate_left
  · simp [upd, hne, hn2]
  simp only [h1, h2, Bool.not_true, Bool.false_eq_true, if_false, htake]
  exact ⟨_, rfl⟩

theorem openFilePair_new_mk {D : Option fsState_t} {N : Path → Option Nat}
    {I : Nat → Option Inode} {O : Nat → Option OpenFile} {F : Nat → Option Nat}
    {X : Nat} {E : Int} {T : List Sys} {full tmp : Path} {L ie : Nat} {fe : Inode}
    (hn1 : N full = some ie) (hi : I ie = some fe) (hreg : S_ISREG fe.mode = true)
    (hn2 : N tmp = none) (hlen : tmp.length ≤ 1023)
    (hfl : L = O_RDONLY ∨ L = O_WRONLY ∨ L = O_RDWR) :
    ∃ tr1, openFilePair (World.mk D N I O F X E [] T) full tmp L =
      (some { encFH := (X : Int), clearFH := ((X + 2 : Nat) : Int),
              clearPath := tmp, dirty := FHS_CLEAN },
       World.mk D (upd N tmp (some (X + 1)))
         (upd I (X + 1) (some (newInode (S_IFREG ||| ((S_IRUSR ||| S_IWUSR) &&& 4095)) [])))
         (upd (upd O X (some { ino := ie, pos := 0, rd := true, wr := (L != O_RDONLY) }))
           (X + 2) (some { ino := X + 1, pos := 0, rd := true, wr := true }))
         (upd (upd F X (some X)) (X + 2) (some (X + 2))) (X + 3) E [] tr1) := by
  have h1 : ¬ ((X : Int) < 0) := by omega
  have h2 : ¬ (((X + 1 + 1 : Nat) : Int) < 0) := by omega
  have htake : List.take PATHBUFSIZE tmp = tmp := by
    apply List.take_of_length_le
    simp only [PATHBUFSIZE]
    omega
  unfold openFilePair
  rw [sys_malloc_mk]
  dsimp only
  rcases hfl with rfl | rfl | rfl
  all_goals
    rw [sys_open_old_mk 0 hn1 hi hreg (by decide) (by decide)]
    dsimp only
    rw [sys_open_new_mk (L := O_RDWR ||| O_CREAT ||| O_TRUNC) _ hn2 (by decide)]
    simp only [h1, h2, Bool.not_true, Bool.false_eq_true, if_false, htake]
    exact ⟨_, rfl⟩

theorem openFilePair_old_mk {D : Option fsState_t} {N : Path → Option Nat}
    {I : Nat → Option Inode} {O : Nat → Option OpenFile} {F : Nat → Option Nat}
    {X : Nat} {E : Int} {T : List Sys} {full tmp : Path} {L ie ic : Nat} {fe fc : Inode}
    (hn1 : N full = some ie) (hi : I ie = some fe) (hreg : S_ISREG fe.mode = true)
    (hn2 : N tmp = some ic) (hic : I ic = some fc) (hregc : S_ISREG fc.mode = true)
    (hlen : tmp.length ≤ 1023)
    (hfl : L = O_RDONLY ∨ L = O_WRONLY ∨ L = O_RDWR) :
    ∃ tr1, openFilePair (World.mk D N I O F X E [] T) full tmp L =
      (some { encFH := (X : Int), clearFH := ((X + 1 : Nat) : Int),
              clearPath := tmp, dirty := FHS_CLEAN },
       World.mk D N (upd I ic (some { fc with data := [] }))
         (upd (upd O X (some { ino := ie, pos := 0, rd := true, wr := (L != O_RDONLY) }))
           (X + 1) (some { ino := ic, pos := 0, rd := true, wr := true }))
         (upd (upd F X (some X)) (X + 1) (some (X + 1))) (X + 2) E [] tr1) := by
  have h1 : ¬ ((X : Int) < 0) := by omega
  have h2 : ¬ (((X + 1 : Nat) : Int) < 0) := by omega
  have htake : List.take PATHBUFSIZE tmp = tmp := by
    apply List.take_of_length_le
    simp only [PATHBUFSIZE]
    omega
  unfold openFilePair
  rw [sys_malloc_mk]
  dsimp only
  rcases hfl with rfl | rfl | rfl
  all_goals
    rw [sys_open_old_mk 0 hn1 hi hreg (by decide) (by decide)]
    dsimp only
    rw [sys_open_trunc_mk (L := O_RDWR ||| O_CREAT ||| O_TRUNC) _ hn2 hic hregc (by decide)
      (by decide)]
    simp only [h1, h2, Bool.not_true, Bool.false_eq_true, if_false, htake]
    exact ⟨_, rfl⟩

theorem S_ISREG_create (mode : Nat) : S_ISREG (S_IFREG ||| (mode &&& 4095)) = true := by
  simp only [S_ISREG, S_IFREG, S_IFMT, beq_iff_eq]
  rw [Nat.and_comm, Nat.and_or_distrib_left, Nat.and_comm mode 4095, ← Nat.and_assoc]
  have h1 : (61440 : Nat) &&& 4095 = 0 := by decide
  have h2 : (61440 : Nat) &&& 32768 = 32768 := by decide
  rw [h1, h2, Nat.zero_and]
  rfl

theorem enc_create_ok (c : Cipher) (w : World) (P full tmp : Path) (mode : Nat)
    (fi : fuse_file_info)
    (hf : w.faults = [])
    (hfull : buildPath w (some P) (some []) PATHBUFSIZE = (0, some full))
    (htmp : buildTempPath (some full) (some []) PATHBUFSIZE = (0, some tmp))
    (hn1 : w.names full = none) (hn2 : w.names tmp = none)
    (hc : fi.flags &&& O_CREAT ≠ 0)
    (hwr : (fi.flags &&& O_ACCMODE == O_WRONLY || fi.flags &&& O_ACCMODE == O_RDWR) = true) :
    ∃ w1 rd fe,
      enc_create c w (some P) mode fi =
        (0, { fi with fh := { encFH := ((w.next + 1 : Nat) : Int),
                              clearFH := ((w.next + 3 : Nat) : Int),
                              clearPath := tmp, dirty := FHS_CLEAN } }, w1) ∧
      Live w1 (w.next + 1) (w.next + 3) w.next (w.next + 2) rd true fe
        (newInode (S_IFREG ||| ((S_IRUSR ||| S_IWUSR) &&& 4095)) []) ∧
      fe.data = (c.crypt_encrypt TESTKEY []).2 ∧ S_ISREG fe.mode = true ∧
      w1.names full = some w.next ∧ w1.names tmp = some (w.next + 2) ∧
      w1.private_data = w.private_data := by
  obtain ⟨hne, hlen⟩ := buildTempPath_ok htmp
  obtain ⟨pd, nm, ino, ofl, fds, nx, er, fl, tr⟩ := w
  simp only at hf hn1 hn2 ⊢
  subst hf
  unfold enc_create
  rw [hfull]
  dsimp only
  rw [htmp]
  dsimp only
  obtain ⟨tr1, h1⟩ := createFilePair_mk (D := pd) (I := ino) (O := ofl) (F := fds)
    (X := nx) (E := er) (T := tr) (L := fi.flags) mode hn1 hn2 hne hlen hc
  simp only [lt_self_iff_false, if_false, Option.getD_some]
  rw [h1]
  dsimp only
  obtain ⟨tr2, h2⟩ := encryptFH_mk c (D := pd)
    (N := upd (upd nm full (some nx)) tmp (some (nx + 2)))
    (I := upd (upd ino nx (some (newInode (S_IFREG ||| (mode &&& 4095)) []))) (nx + 2)
           (some (newInode (S_IFREG ||| ((S_IRUSR ||| S_IWUSR) &&& 4095)) [])))
    (O := upd (upd ofl (nx + 1)
           (some { ino := nx, pos := 0,
                   rd := (fi.flags &&& O_ACCMODE == O_RDONLY || fi.flags &&& O_ACCMODE == O_RDWR),
                   wr := (fi.flags &&& O_ACCMODE == O_WRONLY ||
                     fi.flags &&& O_ACCMODE == O_RDWR) }))
           (nx + 3) (some { ino := nx + 2, pos := 0, rd := true, wr := true }))
    (F := upd (upd fds (nx + 1) (some (nx + 1))) (nx + 3) (some (nx + 3)))
    (X := nx + 4) (E := er) (T := tr1)
    (J := nx + 3) (K := nx + 3) (U := nx + 1) (V := nx + 1)
    (S := { ino := nx + 2, pos := 0, rd := true, wr := true })
    (G := { ino := nx, pos := 0,
                   rd := (fi.flags &&& O_ACCMODE == O_RDONLY || fi.flags &&& O_ACCMODE == O_RDWR),
                   wr := (fi.flags &&& O_ACCMODE == O_WRONLY ||
                     fi.flags &&& O_ACCMODE == O_RDWR) })
    (Q := newInode (S_IFREG ||| ((S_IRUSR ||| S_IWUSR) &&& 4095)) [])
    (R := newInode (S_IFREG ||| (mode &&& 4095)) [])
    (by simp [upd]) (by simp [upd]) rfl (by simp [upd]) (by simp [upd]) hwr (by omega)
    (by simp) (by simp [upd]) (by simp [upd]) (by omega) (by omega) (by simp) (by simp)
  rw [h2]
  dsimp only
  simp only [Nat.cast_ofNat, Int.Nat.cast_ofNat_Int, lt_self_iff_false, if_false, CharP.cast_eq_zero]
  refine ⟨_, (fi.flags &&& O_ACCMODE == O_RDONLY || fi.flags &&& O_ACCMODE == O_RDWR),
    { newInode (S_IFREG ||| (mode &&& 4095)) [] with data := (c.crypt_encrypt TESTKEY []).2 },
    rfl, ?_, rfl, ?_, ?_, ?_, rfl⟩
  · constructor
    all_goals try dsimp only
    all_goals first
      | omega
      | simp [upd, newInode, hwr]
  · exact S_ISREG_create mode
  · simp [upd, hne.symm]
  · simp [upd]

theorem enc_write_ok (w : World) (B : Bytes) (fi : fuse_file_info)
    {ne nc ie ic : Nat} {rd wr : Bool} {fe fc : Inode}
    (hL : Live w ne nc ie ic rd wr fe fc) (hfh : fi.fh.clearFH = (nc : Int))
    (hB : B.length < 2147483648) :
    ∃ w1,
      enc_write w B B.length 0 fi =
        ((B.length : Int), { fi with fh := { fi.fh with dirty := FHS_DIRTY } }, w1) ∧
      Live w1 ne nc ie ic rd wr fe { fc with data := writeAt fc.data 0 B } ∧
      w1.names = w.names ∧ w1.private_data = w.private_data := by
  obtain ⟨hf, hfe, hfc, hoe, hoc, hie, hic, hnfd, hnino, hle, hlc, hlie, hlic⟩ := hL
  obtain ⟨pd, nm, ino, ofl, fds, nx, er, fl, tr⟩ := w
  simp only at hf hfe hfc hoe hoc hie hic hle hlc hlie hlic ⊢
  subst hf
  unfold enc_write
  dsimp only
  rw [hfh, sys_pwrite_mk (k := nc) (f := { ino := ic, pos := 0, rd := true, wr := true })
    (i := fc) B B.length hfc hoc rfl hic (le_refl 0)]
  dsimp only
  have hlen : (B.take B.length).length = B.length := by simp
  have h32 : int32 (B.length : Int) = B.length := int32_small (by omega) (by omega)
  have hnn : ¬ ((B.length : Int) < 0) := by omega
  simp only [hlen, h32, hnn, if_false, List.take_length, Int.toNat_zero]
  refine ⟨_, rfl, ?_, rfl, rfl⟩
  constructor
  all_goals try dsimp only
  all_goals first
    | omega
    | simp [upd, *]

theorem enc_read_ok (w : World) (size off : Nat) (fi : fuse_file_info)
    {ne nc ie ic : Nat} {rd wr : Bool} {fe fc : Inode}
    (hL : Live w ne nc ie ic rd wr fe fc) (hfh : fi.fh.clearFH = (nc : Int))
    (hB : fc.data.length < 2147483648) :
    ∃ w1,
      enc_read w size (off : Int) fi =
        ((((fc.data.drop off).take size).length : Int), (fc.data.drop off).take size, w1) ∧
      Live w1 ne nc ie ic rd wr fe fc ∧
      w1.names = w.names ∧ w1.private_data = w.private_data := by
  obtain ⟨hf, hfe, hfc, hoe, hoc, hie, hic, hnfd, hnino, hle, hlc, hlie, hlic⟩ := hL
  obtain ⟨pd, nm, ino, ofl, fds, nx, er, fl, tr⟩ := w
  simp only at hf hfe hfc hoe hoc hie hic hle hlc hlie hlic ⊢
  subst hf
  unfold enc_read
  dsimp only
  rw [hfh, sys_pread_mk (k := nc) (f := { ino := ic, pos := 0, rd := true, wr := true })
    (i := fc) size hfc hoc rfl hic (by omega)]
  dsimp only
  have hlen : ((fc.data.drop off).take size).length < 2147483648 := by
    rw [List.length_take, List.length_drop]
    omega
  have h32 : int32 (((fc.data.drop off).take size).length : Int) =
      ((fc.data.drop off).take size).length := int32_small (by omega) (by omega)
  have hnn : ¬ ((((fc.data.drop off).take size).length : Int) < 0) := by omega
  simp only [Int.toNat_ofNat] at h32 hnn ⊢
  simp only [h32, hnn, if_false]
  refine ⟨_, rfl, ?_, rfl, rfl⟩
  constructor
  all_goals try dsimp only
  all_goals first
    | omega
    | simp [upd, *]

theorem enc_flush_dirty_ok (c : Cipher) (w : World) (fi : fuse_file_info)
    {ne nc ie ic : Nat} {rd : Bool} {fe fc : Inode}
    (hL : Live w ne nc ie ic rd true fe fc)
    (he : fi.fh.encFH = (ne : Int)) (hc : fi.fh.clearFH = (nc : Int))
    (hd : fi.fh.dirty = FHS_DIRTY) :
    ∃ w1,
      enc_flush c w (some fi) =
        (0, some { fi with fh := { fi.fh with dirty := FHS_CLEAN } }, w1) ∧
      Live w1 ne nc ie ic rd true { fe with data := (c.crypt_encrypt TESTKEY fc.data).2 } fc ∧
      w1.names = w.names ∧ w1.private_data = w.private_data := by
  obtain ⟨hf, hfe, hfc, hoe, hoc, hie, hic, hnfd, hnino, hle, hlc, hlie, hlic⟩ := hL
  obtain ⟨pd, nm, ino, ofl, fds, nx, er, fl, tr⟩ := w
  simp only at hf hfe hfc hoe hoc hie hic hle hlc hlie hlic ⊢
  subst hf
  have hnino2 : ic ≠ ie := fun h => hnino h.symm
  have hnfd2 : nc ≠ ne := fun h => hnfd h.symm
  obtain ⟨tr1, h1⟩ := encryptFH_mk c (D := pd) (N := nm) (I := ino) (O := ofl) (F := fds)
    (X := nx) (E := er) (T := tr) (J := nc) (K := nc) (U := ne) (V := ne)
    (S := { ino := ic, pos := 0, rd := true, wr := true })
    (G := { ino := ie, pos := 0, rd := rd, wr := true }) (Q := fc) (R := fe)
    hfc hoc rfl hfe hoe rfl hnfd (fun h => hnino h.symm) hic hie hlc hle (by simp) (by simp)
  unfold enc_flush
  dsimp only
  rw [hd, he, hc]
  simp only [if_true]
  rw [h1]
  dsimp only
  simp only [Nat.cast_ofNat, Int.Nat.cast_ofNat_Int, lt_self_iff_false, if_false,
    CharP.cast_eq_zero]
  rw [sys_dup_mk (k := nc) (f := { ino := ic, pos := 0, rd := true, wr := true }) ?_ hoc]
  rotate_left
  · simp only [upd, hfc]
    split_ifs <;> first | rfl | omega
  dsimp only
  have hn2 : ¬ (((nx + 2 : Nat) : Int) < 0) := by omega
  have hn3 : ¬ (((nx + 2 + 1 : Nat) : Int) < 0) := by omega
  simp only [hn2, if_false]
  rw [sys_close_mk (k := nc) (f := { ino := ic, pos := 0, rd := true, wr := true }) ?_ hoc]
  rotate_left
  · simp [upd]
  dsimp only
  simp only [lt_self_iff_false, if_false]
  rw [sys_dup_mk (k := ne) (f := { ino := ie, pos := 0, rd := rd, wr := true }) ?_ hoe]
  rotate_left
  · simp only [upd, hfe]
    split_ifs <;> first | rfl | omega
  dsimp only
  simp only [hn3, if_false]
  rw [sys_close_mk (k := ne) (f := { ino := ie, pos := 0, rd := rd, wr := true }) ?_ hoe]
  rotate_left
  · simp [upd]
  dsimp only
  simp only [lt_self_iff_false, if_false]
  refine ⟨_, rfl, ?_, rfl, rfl⟩
  constructor
  all_goals try dsimp only
  all_goals first
    | omega
    | (simp only [upd, hfe, hfc]
       split_ifs <;> first | rfl | omega)
    | simp [upd, *]

theorem enc_release_ok (c : Cipher) (w : World) (fi : fuse_file_info)
    {ne nc ie ic : Nat} {rd wr : Bool} {fe fc : Inode}
    (hL : Live w ne nc ie ic rd wr fe fc)
    (he : fi.fh.encFH = (ne : Int)) (hc : fi.fh.clearFH = (nc : Int))
    (hn : w.names fi.fh.clearPath = some ic) (hreg : S_ISREG fc.mode = true)
    (hwr : fi.fh.dirty = FHS_DIRTY → wr = true) :
    ∃ w1,
      enc_release c w (some fi) = (0, w1) ∧
      w1.faults = [] ∧
      w1.names = upd w.names fi.fh.clearPath none ∧
      w1.inodes ie =
        some (if fi.fh.dirty = FHS_DIRTY then
                { fe with data := (c.crypt_encrypt TESTKEY fc.data).2 }
              else fe) ∧
      ie < w1.next ∧ w1.private_data = w.private_data ∧
      w1.file fi.fh.encFH = none ∧ w1.file fi.fh.clearFH = none := by
  obtain ⟨hf, hfe, hfc, hoe, hoc, hie, hic, hnfd, hnino, hle, hlc, hlie, hlic⟩ := hL
  obtain ⟨pd, nm, ino, ofl, fds, nx, er, fl, tr⟩ := w
  obtain ⟨flags, ⟨efh, cfh, cpath, dirty⟩⟩ := fi
  simp only at hf hfe hfc hoe hoc hie hic hle hlc hlie hlic hn he hc hwr ⊢
  subst hf he hc
  have hnino2 : ic ≠ ie := fun h => hnino h.symm
  have hnfd2 : nc ≠ ne := fun h => hnfd h.symm
  have hneg1 : ¬ ((ne : Int) < 0) := by omega
  have hneg2 : ¬ ((nc : Int) < 0) := by omega
  unfold enc_release
  dsimp only
  by_cases hd : dirty = FHS_DIRTY
  · have hw := hwr hd
    subst hw
    obtain ⟨tr1, h1⟩ := encryptFH_mk c (D := pd) (N := nm) (I := ino) (O := ofl)
      (F := fds) (X := nx) (E := er) (T := tr) (J := nc) (K := nc) (U := ne) (V := ne)
      (S := { ino := ic, pos := 0, rd := true, wr := true })
      (G := { ino := ie, pos := 0, rd := rd, wr := true }) (Q := fc) (R := fe)
      hfc hoc rfl hfe hoe rfl hnfd (fun h => hnino h.symm) hic hie hlc hle (by simp) (by simp)
    simp only [hd, if_true]
    rw [h1]
    dsimp only
    simp only [Nat.cast_ofNat, Int.Nat.cast_ofNat_Int, lt_self_iff_false, if_false,
      CharP.cast_eq_zero]
    rw [removeFile_mk (i := ic) (f := fc) hn ?_ hreg]
    rotate_left
    · simp [upd, hnino2, hic]
    dsimp only
    simp only [lt_self_iff_false, if_false]
    rw [closeFilePair_mk (K := ne) (V := nc)
      (S := { ino := ie, pos := 0, rd := rd, wr := true })
      (G := { ino := ic, pos := 0, rd := true, wr := true }) _ _ ?_ hoe ?_ hoc hnfd]
    rotate_left
    · simp only [upd, hfe]
      split_ifs <;> first | rfl | omega
    · simp only [upd, hfc]
      split_ifs <;> first | rfl | omega
    dsimp only
    simp only [lt_self_iff_false, if_false]
    refine ⟨_, rfl, rfl, rfl, ?_, ?_, rfl, ?_, ?_⟩
    · simp [upd, hnino]
    · dsimp only
      omega
    · simp [World.file, hneg1, upd, hnfd]
    · simp [World.file, hneg2, upd]
  · simp only [hd, if_false, lt_self_iff_false]
    rw [removeFile_mk (i := ic) (f := fc) hn hic hreg]
    dsimp only
    simp only [lt_self_iff_false, if_false]
    rw [closeFilePair_mk (K := ne) (V := nc)
      (S := { ino := ie, pos := 0, rd := rd, wr := wr })
      (G := { ino := ic, pos := 0, rd := true, wr := true }) _ _ hfe hoe hfc hoc hnfd]
    dsimp only
    simp only [lt_self_iff_false, if_false]
    refine ⟨_, rfl, rfl, rfl, ?_, ?_, rfl, ?_, ?_⟩
    · simp [upd, hnino, hie]
    · dsimp only
      omega
    · simp [World.file, hneg1, upd, hnfd]
    · simp [World.file, hneg2, upd]

theorem enc_open_ok (c : Cipher) (w : World) (P full tmp : Path) (fi : fuse_file_info)
    {ie : Nat} {fe : Inode}
    (hf : w.faults = [])
    (hfull : buildPath w (some P) (some []) PATHBUFSIZE = (0, some full))
    (htmp : buildTempPath (some full) (some []) PATHBUFSIZE = (0, some tmp))
    (hn1 : w.names full = some ie) (hi : w.inodes ie = some fe)
    (hreg : S_ISREG fe.mode = true) (hlt : ie < w.next)
    (hn2 : w.names tmp = none)
    (hfl : fi.flags = O_RDONLY ∨ fi.flags = O_WRONLY ∨ fi.flags = O_RDWR) :
    ∃ w1,
      enc_open c w (some P) fi =
        (0, { fi with fh := { encFH := (w.next : Int), clearFH := ((w.next + 2 : Nat) : Int),
                              clearPath := tmp, dirty := FHS_CLEAN } }, w1) ∧
      Live w1 w.next (w.next + 2) ie (w.next + 1) true (fi.flags != O_RDONLY) fe
        { newInode (S_IFREG ||| ((S_IRUSR ||| S_IWUSR) &&& 4095)) [] with
          data := (c.crypt_decrypt TESTKEY fe.data).2 } ∧
      w1.names full = some ie ∧ w1.names tmp = some (w.next + 1) ∧
      w1.private_data = w.private_data := by
  obtain ⟨hne, hlen⟩ := buildTempPath_ok htmp
  obtain ⟨pd, nm, ino, ofl, fds, nx, er, fl, tr⟩ := w
  simp only at hf hn1 hn2 hi hlt ⊢
  subst hf
  have hie1 : ie ≠ nx + 1 := by omega
  unfold enc_open
  rw [hfull]
  dsimp only
  rw [htmp]
  dsimp only
  obtain ⟨tr1, h1⟩ := openFilePair_new_mk (D := pd) (O := ofl) (F := fds)
    (X := nx) (E := er) (T := tr) hn1 hi hreg hn2 hlen hfl
  simp only [lt_self_iff_false, if_false, Option.getD_some]
  rw [h1]
  dsimp only
  obtain ⟨tr2, h2⟩ := decryptFH_mk c (D := pd)
    (N := upd nm tmp (some (nx + 1)))
    (I := upd ino (nx + 1)
      (some (newInode (S_IFREG ||| ((S_IRUSR ||| S_IWUSR) &&& 4095)) [])))
    (O := upd (upd ofl nx
      (some { ino := ie, pos := 0, rd := true, wr := (fi.flags != O_RDONLY) }))
        (nx + 2) (some { ino := nx + 1, pos := 0, rd := true, wr := true }))
    (F := upd (upd fds nx (some nx)) (nx + 2) (some (nx + 2)))
    (X := nx + 3) (E := er) (T := tr1)
    (J := nx) (K := nx) (U := nx + 2) (V := nx + 2)
    (S := { ino := ie, pos := 0, rd := true, wr := (fi.flags != O_RDONLY) })
    (G := { ino := nx + 1, pos := 0, rd := true, wr := true })
    (Q := fe)
    (R := newInode (S_IFREG ||| ((S_IRUSR ||| S_IWUSR) &&& 4095)) [])
    (by simp [upd]) (by simp [upd]) rfl (by simp [upd]) (by simp [upd]) rfl (by omega)
    hie1 (by simp [upd, hie1, hi]) (by simp [upd]) (by omega) (by omega) (by simp) (by simp)
  rw [h2]
  dsimp only
  simp only [Nat.cast_ofNat, Int.Nat.cast_ofNat_Int, lt_self_iff_false, if_false,
    CharP.cast_eq_zero]
  refine ⟨_, rfl, ?_, ?_, ?_, rfl⟩
  · constructor
    all_goals try dsimp only
    all_goals first
      | omega
      | (simp [upd, newInode, hie1, hi]; done)
      | (simp [upd, newInode, hie1, hi]; omega)
  · simp [upd, hne.symm, hn1]
  · simp [upd]

theorem enc_fgetattr_ok (w : World) (st : stat_t) (fi : fuse_file_info)
    {ne nc ie ic : Nat} {rd wr : Bool} {fe fc : Inode}
    (hL : Live w ne nc ie ic rd wr fe fc)
    (he : fi.fh.encFH = (ne : Int)) (hc : fi.fh.clearFH = (nc : Int))
    (hreg : S_ISREG fe.mode = true) :
    ∃ w1 st1,
      enc_fgetattr w st fi = (0, st1, w1) ∧ st1.st_size = fc.data.length ∧
      st1.st_mode = fe.mode ∧ st1.st_ino = ie ∧
      Live w1 ne nc ie ic rd wr fe fc ∧
      w1.names = w.names ∧ w1.private_data = w.private_data := by
  obtain ⟨hf, hfe, hfc, hoe, hoc, hie, hic, hnfd, hnino, hle, hlc, hlie, hlic⟩ := hL
  obtain ⟨pd, nm, ino, ofl, fds, nx, er, fl, tr⟩ := w
  simp only at hf hfe hfc hoe hoc hie hic hle hlc hlie hlic ⊢
  subst hf
  unfold enc_fgetattr
  dsimp only
  rw [he, hc, sys_fstat_mk (k := ne) (f := { ino := ie, pos := 0, rd := rd, wr := wr }) (i := fe)
    st hfe hoe hie]
  dsimp only
  have hm : (fe.stat ie).st_mode = fe.mode := rfl
  simp only [lt_self_iff_false, if_false, hm, hreg, if_true]
  rw [sys_fstat_mk (k := nc) (f := { ino := ic, pos := 0, rd := true, wr := true }) (i := fc)
    _ hfc hoc hic]
  dsimp only
  simp only [lt_self_iff_false, if_false]
  refine ⟨_, _, rfl, rfl, rfl, rfl, ?_, rfl, rfl⟩
  constructor
  all_goals try dsimp only
  all_goals first
    | omega
    | simp [upd, *]

theorem enc_getattr_live_ok (c : Cipher) (w : World) (P full tmp : Path) (st : stat_t)
    {ne nc ie ic : Nat} {rd wr : Bool} {fe fc : Inode}
    (hL : Live w ne nc ie ic rd wr fe fc)
    (hfull : buildPath w (some P) (some []) PATHBUFSIZE = (0, some full))
    (htmp : buildTempPath (some full) (some []) PATHBUFSIZE = (0, some tmp))
    (hn1 : w.names full = some ie) (hn2 : w.names tmp = some ic)
    (hreg : S_ISREG fe.mode = true) (hregc : S_ISREG fc.mode = true) :
    ∃ w1 st1,
      enc_getattr c w (some P) st = (0, st1, w1) ∧
      st1.st_size = ((c.crypt_decrypt TESTKEY fe.data).2.length : Int) ∧
      st1.st_mode = fe.mode ∧
      Live w1 ne nc ie ic rd wr fe
        { fc with data := (c.crypt_decrypt TESTKEY fe.data).2, nlink := fc.nlink - 1 } ∧
      w1.names = upd w.names tmp none ∧ w1.private_data = w.private_data := by
  obtain ⟨hne, hlen⟩ := buildTempPath_ok htmp
  obtain ⟨hf, hfe, hfc, hoe, hoc, hie, hic, hnfd, hnino, hle, hlc, hlie, hlic⟩ := hL
  obtain ⟨pd, nm, ino, ofl, fds, nx, er, fl, tr⟩ := w
  simp only at hf hfe hfc hoe hoc hie hic hle hlc hlie hlic hn1 hn2 ⊢
  subst hf
  have hnino2 : ic ≠ ie := fun h => hnino h.symm
  have hnfd2 : nc ≠ ne := fun h => hnfd h.symm
  unfold enc_getattr
  rw [hfull]
  dsimp only
  simp only [lt_self_iff_false, if_false, Option.getD_some]
  rw [sys_lstat_mk st hn1 hie]
  dsimp only
  have hm : (fe.stat ie).st_mode = fe.mode := rfl
  simp only [lt_self_iff_false, if_false, hm, hreg, if_true]
  rw [htmp]
  dsimp only
  obtain ⟨tr1, h1⟩ := openFilePair_old_mk (D := pd) (O := ofl) (F := fds)
    (X := nx) (E := er) (T := Sys.sLstat full :: tr) (L := O_RDONLY)
    hn1 hie hreg hn2 hic hregc hlen (Or.inl rfl)
  simp only [lt_self_iff_false, if_false, Option.getD_some]
  rw [h1]
  dsimp only
  obtain ⟨tr2, h2⟩ := decryptFH_mk c (D := pd) (N := nm)
    (I := upd ino ic (some { fc with data := [] }))
    (O := upd (upd ofl nx
      (some { ino := ie, pos := 0, rd := true, wr := (O_RDONLY != O_RDONLY) }))
        (nx + 1) (some { ino := ic, pos := 0, rd := true, wr := true }))
    (F := upd (upd fds nx (some nx)) (nx + 1) (some (nx + 1)))
    (X := nx + 2) (E := er) (T := tr1)
    (J := nx) (K := nx) (U := nx + 1) (V := nx + 1)
    (S := { ino := ie, pos := 0, rd := true, wr := (O_RDONLY != O_RDONLY) })
    (G := { ino := ic, pos := 0, rd := true, wr := true })
    (Q := fe) (R := { fc with data := [] })
    (by simp [upd]) (by simp [upd]) rfl (by simp [upd]) (by simp [upd]) rfl (by omega)
    hnino (by simp [upd, hnino, hie]) (by simp [upd]) (by omega) (by omega) (by simp) (by simp)
  rw [h2]
  dsimp only
  simp only [Nat.cast_ofNat, Int.Nat.cast_ofNat_Int, lt_self_iff_false, if_false,
    CharP.cast_eq_zero]
  rw [sys_fstat_mk (k := nx + 1) (f := { ino := ic, pos := 0, rd := true, wr := true })
    (i := { fc with data := (c.crypt_decrypt TESTKEY fe.data).2 }) _ ?_ ?_ ?_]
  rotate_left
  · simp only [upd]
    split_ifs <;> first | rfl | omega
  · simp [upd]
  · simp [upd]
  dsimp only
  simp only [lt_self_iff_false, if_false]
  rw [closeFilePair_mk (K := nx) (V := nx + 1)
    (S := { ino := ie, pos := 0, rd := true, wr := (O_RDONLY != O_RDONLY) })
    (G := { ino := ic, pos := 0, rd := true, wr := true }) _ _ ?_ ?_ ?_ ?_ (by omega)]
  rotate_left
  · simp only [upd]
    split_ifs <;> first | rfl | omega
  · simp [upd]
  · simp only [upd]
    split_ifs <;> first | rfl | omega
  · simp [upd]
  dsimp only
  simp only [lt_self_iff_false, if_false]
  rw [removeFile_mk (i := ic)
    (f := { fc with data := (c.crypt_decrypt TESTKEY fe.data).2 }) hn2 ?_ hregc]
  rotate_left
  · simp [upd]
  dsimp only
  simp only [lt_self_iff_false, if_false]
  refine ⟨_, _, rfl, rfl, rfl, ?_, rfl, rfl⟩
  constructor
  all_goals try dsimp only
  all_goals first
    | omega
    | (simp [upd, *]; done)
    | (simp [upd, *]; omega)
    | (simp only [upd]
       split_ifs <;> first | rfl | assumption | omega)

theorem writeAt_nil_zero (b : Bytes) : writeAt [] 0 b = b := by
  cases b with
  | nil => simp [writeAt]
  | cons x xs => simp [writeAt, resize]

/-- Claim C1 (round trip): when the cipher decrypts what it encrypts, no call
fails, the backing path `full` and the scratch path `tmp` of `P` fit the path
buffer, and neither exists yet, the callbacks `enc_create(P)`, `enc_write(B, 0)`,
`enc_release`, then `enc_open(P)`, `enc_read(size, 0)` with `size ≥ |B|`,
`enc_release` all succeed and the read returns exactly the `|B|` bytes of `B`. -/
theorem round_trip (c : Cipher) (w : World) (P full tmp B : Bytes) (mode size : Nat)
    (fi fi2 : fuse_file_info)
    (hcipher : ∀ x, (c.crypt_decrypt TESTKEY (c.crypt_encrypt TESTKEY x).2).2 = x)
    (hf : w.faults = [])
    (hfull : buildPath w (some P) (some []) PATHBUFSIZE = (0, some full))
    (htmp : buildTempPath (some full) (some []) PATHBUFSIZE = (0, some tmp))
    (hn1 : w.names full = none) (hn2 : w.names tmp = none)
    (hc : fi.flags &&& O_CREAT ≠ 0)
    (hwr : fi.flags &&& O_ACCMODE = O_WRONLY ∨ fi.flags &&& O_ACCMODE = O_RDWR)
    (hfl : fi2.flags = O_RDONLY ∨ fi2.flags = O_WRONLY ∨ fi2.flags = O_RDWR)
    (hB : B.length < 2147483648) (hsize : B.length ≤ size) :
    let r1 := enc_create c w (some P) mode fi
    let r2 := enc_write r1.2.2 B B.length 0 r1.2.1
    let r3 := enc_release c r2.2.2 (some r2.2.1)
    let r4 := enc_open c r3.2 (some P) fi2
    let r5 := enc_read r4.2.2 size 0 r4.2.1
    let r6 := enc_release c r5.2.2 (some r4.2.1)
    r1.1 = 0 ∧ r2.1 = B.length ∧ r3.1 = 0 ∧ r4.1 = 0 ∧ r5.1 = B.length ∧ r5.2.1 = B ∧
      r6.1 = 0 := by
  obtain ⟨hne, hlen⟩ := buildTempPath_ok htmp
  have hwr2 : (fi.flags &&& O_ACCMODE == O_WRONLY || fi.flags &&& O_ACCMODE == O_RDWR) = true := by
    rcases hwr with h | h <;> simp [h]
  obtain ⟨w1, rd, fe, e1, L1, hfe, hreg1, hnm1, hnm2, hpd1⟩ :=
    enc_create_ok c w P full tmp mode fi hf hfull htmp hn1 hn2 hc hwr2
  obtain ⟨w2, e2, L2, hnm, hpd2⟩ := enc_write_ok w1 B
    { fi with fh := { encFH := ((w.next + 1 : Nat) : Int), clearFH := ((w.next + 3 : Nat) : Int),
                      clearPath := tmp, dirty := FHS_CLEAN } } L1 rfl hB
  obtain ⟨w3, e3, hf3, hnm3, hi3, hlt3, hpd3, -, -⟩ :=
    enc_release_ok c w2
      { fi with fh := { encFH := ((w.next + 1 : Nat) : Int),
                        clearFH := ((w.next + 3 : Nat) : Int),
                        clearPath := tmp, dirty := FHS_DIRTY } } L2 rfl rfl
      (by rw [hnm]; exact hnm2) (S_ISREG_create _) (fun _ => rfl)
  have hfull3 : buildPath w3 (some P) (some []) PATHBUFSIZE = (0, some full) := by
    rw [buildPath_congr (w := w) (by rw [hpd3, hpd2, hpd1])]
    exact hfull
  have hn13 : w3.names full = some w.next := by
    rw [hnm3, hnm]
    simp [upd, hne.symm, hnm1]
  have hn23 : w3.names tmp = none := by
    rw [hnm3]
    simp [upd]
  simp only [if_true] at hi3
  obtain ⟨w4, e4, L4, hnm41, hnm42, hpd4⟩ :=
    enc_open_ok c w3 P full tmp fi2 hf3 hfull3 htmp hn13 hi3 hreg1 hlt3 hn23 hfl
  have hdata : (c.crypt_decrypt TESTKEY
      (c.crypt_encrypt TESTKEY
        (writeAt (newInode (S_IFREG ||| ((S_IRUSR ||| S_IWUSR) &&& 4095)) []).data 0 B)).2).2
      = B := by
    rw [hcipher]
    exact writeAt_nil_zero B
  obtain ⟨w5, e5, L5, hnm5, hpd5⟩ := enc_read_ok w4 size 0
    { fi2 with fh := { encFH := (w3.next : Int), clearFH := ((w3.next + 2 : Nat) : Int),
                       clearPath := tmp, dirty := FHS_CLEAN } } L4 rfl (by
    dsimp only
    rw [hdata]
    exact hB)
  obtain ⟨w6, e6, -⟩ :=
    enc_release_ok c w5
      { fi2 with fh := { encFH := (w3.next : Int), clearFH := ((w3.next + 2 : Nat) : Int),
                         clearPath := tmp, dirty := FHS_CLEAN } } L5 rfl rfl
      (by rw [hnm5]; exact hnm42) (S_ISREG_create _)
      (fun h => by simp [FHS_CLEAN, FHS_DIRTY] at h)
  dsimp only
  rw [e1]
  dsimp only
  rw [e2]
  dsimp only
  rw [e3]
  dsimp only
  rw [e4]
  dsimp only
  have e5' := e5
  simp only [Nat.cast_zero] at e5'
  rw [e5']
  dsimp only
  rw [e6]
  dsimp only
  rw [hdata]
  simp [List.take_of_length_le hsize]

/-- Size overlay when no call fails: after a session writes the `N = |B|` bytes
of `B` at offset 0 to a newly created file and `enc_flush` returns 0,
`enc_fgetattr` on the session and `enc_getattr` on the path both return 0 with
`st_size = N`, for every cipher that decrypts what it encrypts, whatever the
length of its ciphertext; `enc_fgetattr` still does so after the `enc_getattr`. -/
theorem size_overlay (c : Cipher) (w : World) (P full tmp B : Bytes) (mode : Nat)
    (fi : fuse_file_info) (st : stat_t)
    (hcipher : ∀ x, (c.crypt_decrypt TESTKEY (c.crypt_encrypt TESTKEY x).2).2 = x)
    (hf : w.faults = [])
    (hfull : buildPath w (some P) (some []) PATHBUFSIZE = (0, some full))
    (htmp : buildTempPath (some full) (some []) PATHBUFSIZE = (0, some tmp))
    (hn1 : w.names full = none) (hn2 : w.names tmp = none)
    (hc : fi.flags &&& O_CREAT ≠ 0)
    (hwr : fi.flags &&& O_ACCMODE = O_WRONLY ∨ fi.flags &&& O_ACCMODE = O_RDWR)
    (hB : B.length < 2147483648) :
    let r1 := enc_create c w (some P) mode fi
    let r2 := enc_write r1.2.2 B B.length 0 r1.2.1
    let r3 := enc_flush c r2.2.2 (some r2.2.1)
    let fi3 := r3.2.1.getD r2.2.1
    let f := enc_fgetattr r3.2.2 st fi3
    let g := enc_getattr c r3.2.2 (some P) st
    let f2 := enc_fgetattr g.2.2 st fi3
    r1.1 = 0 ∧ r2.1 = B.length ∧ r3.1 = 0 ∧
      f.1 = 0 ∧ f.2.1.st_size = B.length ∧
      g.1 = 0 ∧ g.2.1.st_size = B.length ∧
      f2.1 = 0 ∧ f2.2.1.st_size = B.length := by
  obtain ⟨hne, hlen⟩ := buildTempPath_ok htmp
  have hwr2 : (fi.flags &&& O_ACCMODE == O_WRONLY || fi.flags &&& O_ACCMODE == O_RDWR) = true := by
    rcases hwr with h | h <;> simp [h]
  obtain ⟨w1, rd, fe, e1, L1, hfe, hreg1, hnm1, hnm2, hpd1⟩ :=
    enc_create_ok c w P full tmp mode fi hf hfull htmp hn1 hn2 hc hwr2
  obtain ⟨w2, e2, L2, hnm, hpd2⟩ := enc_write_ok w1 B
    { fi with fh := { encFH := ((w.next + 1 : Nat) : Int), clearFH := ((w.next + 3 : Nat) : Int),
                      clearPath := tmp, dirty := FHS_CLEAN } } L1 rfl hB
  obtain ⟨w3, e3, L3, hnm3, hpd3⟩ := enc_flush_dirty_ok c w2
    { fi with fh := { encFH := ((w.next + 1 : Nat) : Int), clearFH := ((w.next + 3 : Nat) : Int),
                      clearPath := tmp, dirty := FHS_DIRTY } } L2 rfl rfl rfl
  have hfull3 : buildPath w3 (some P) (some []) PATHBUFSIZE = (0, some full) := by
    rw [buildPath_congr (w := w) (by rw [hpd3, hpd2, hpd1])]
    exact hfull
  have hdata : (writeAt (newInode (S_IFREG ||| ((S_IRUSR ||| S_IWUSR) &&& 4095)) []).data 0 B)
      = B := writeAt_nil_zero B
  obtain ⟨w4, st4, e4, hs4, -, -, L4, -, -⟩ := enc_fgetattr_ok w3 st
    { fi with fh := { encFH := ((w.next + 1 : Nat) : Int), clearFH := ((w.next + 3 : Nat) : Int),
                      clearPath := tmp, dirty := FHS_CLEAN } } L3 rfl rfl hreg1
  obtain ⟨w5, st5, e5, hs5, -, L5, -, -⟩ := enc_getattr_live_ok c w3 P full tmp st L3 hfull3
    htmp (by rw [hnm3, hnm]; exact hnm1) (by rw [hnm3, hnm]; exact hnm2) hreg1
    (S_ISREG_create _)
  obtain ⟨w6, st6, e6, hs6, -, -, L6, -, -⟩ := enc_fgetattr_ok w5 st
    { fi with fh := { encFH := ((w.next + 1 : Nat) : Int), clearFH := ((w.next + 3 : Nat) : Int),
                      clearPath := tmp, dirty := FHS_CLEAN } } L5 rfl rfl hreg1
  dsimp only at hs4 hs5 hs6
  rw [hdata] at hs4 hs5 hs6
  rw [hcipher] at hs5 hs6
  dsimp only
  rw [e1]
  dsimp only
  rw [e2]
  dsimp only
  rw [e3]
  dsimp only
  simp only [Option.getD_some]
  rw [e4, e5]
  dsimp only
  rw [e6]
  dsimp only
  refine ⟨?_, ?_, ?_, ?_, ?_, ?_, ?_, ?_, ?_⟩
  all_goals trivial

theorem enter_fields (w : World) (ev : Sys) :
    (w.enter ev).2.names = w.names ∧ (w.enter ev).2.inodes = w.inodes ∧
    (w.enter ev).2.ofiles = w.ofiles ∧ (w.enter ev).2.fds = w.fds ∧
    (w.enter ev).2.next = w.next ∧ (w.enter ev).2.private_data = w.private_data := by
  unfold World.enter
  cases w.faults <;> simp

theorem enter_file (w : World) (ev : Sys) (fd : Int) : (w.enter ev).2.file fd = w.file fd := by
  obtain ⟨-, -, h3, h4, -, -⟩ := enter_fields w ev
  simp only [World.file, h3, h4]

theorem setData_frame (w : World) (j : Nat) (d : Bytes) (i : Nat) (h : j ≠ i) :
    (w.setData j d).inodes i = w.inodes i ∧ (w.setData j d).names = w.names := by
  unfold World.setData
  cases w.inodes j with
  | none => simp
  | some f => simp [upd, h.symm]

theorem sys_pwrite_frame (w : World) (fd : Int) (buf : Bytes) (size : Nat) (off : Int) (i : Nat)
    (h : w.inoOf fd ≠ some i) :
    (sys_pwrite w fd buf size off).2.inodes i = w.inodes i ∧
    (sys_pwrite w fd buf size off).2.names = w.names := by
  obtain ⟨h1, h2, -, -, -, -⟩ := enter_fields w (.sPwrite fd size off)
  have h3 := enter_file w (.sPwrite fd size off) fd
  unfold sys_pwrite
  generalize w.enter (.sPwrite fd size off) = r at h1 h2 h3
  obtain ⟨fault, w1⟩ := r
  simp only at h1 h2 h3
  cases fault with
  | some e => simp [World.fail, h1, h2]
  | none =>
    simp only
    rw [h3]
    cases hfile : w.file fd with
    | none => simp [World.fail, h1, h2]
    | some kf =>
      obtain ⟨k, f⟩ := kf
      have hino : f.ino ≠ i := by
        intro he
        apply h
        simp [World.inoOf, hfile, he]
      simp only
      split_ifs
      · simp [World.fail, h1, h2]
      · simp [World.fail, h1, h2]
      · have := setData_frame w1 f.ino (writeAt (w1.dataOf f.ino) off.toNat (buf.take size)) i hino
        simp [this, h1, h2]

theorem sys_ftruncate_frame (w : World) (fd : Int) (len : Int) (i : Nat)
    (h : w.inoOf fd ≠ some i) :
    (sys_ftruncate w fd len).2.inodes i = w.inodes i ∧
    (sys_ftruncate w fd len).2.names = w.names := by
  obtain ⟨h1, h2, -, -, -, -⟩ := enter_fields w (.sFtruncate fd len)
  have h3 := enter_file w (.sFtruncate fd len) fd
  unfold sys_ftruncate
  generalize w.enter (.sFtruncate fd len) = r at h1 h2 h3
  obtain ⟨fault, w1⟩ := r
  simp only at h1 h2 h3
  cases fault with
  | some e => simp [World.fail, h1, h2]
  | none =>
    simp only
    rw [h3]
    cases hfile : w.file fd with
    | none => simp [World.fail, h1, h2]
    | some kf =>
      obtain ⟨k, f⟩ := kf
      have hino : f.ino ≠ i := by
        intro he
        apply h
        simp [World.inoOf, hfile, he]
      simp only
      split_ifs
      · simp [World.fail, h1, h2]
      · have := setData_frame w1 f.ino (resize (w1.dataOf f.ino) len.toNat) i hino
        simp [this, h1, h2]

theorem sys_pread_frame (w : World) (fd : Int) (size : Nat) (off : Int) :
    (sys_pread w fd size off).2.2.inodes = w.inodes ∧
    (sys_pread w fd size off).2.2.names = w.names := by
  obtain ⟨h1, h2, -, -, -, -⟩ := enter_fields w (.sPread fd size off)
  unfold sys_pread
  generalize w.enter (.sPread fd size off) = r at h1 h2
  obtain ⟨fault, w1⟩ := r
  simp only at h1 h2
  cases fault with
  | some e => simp [World.fail, h1, h2]
  | none =>
    simp only
    cases w1.file fd with
    | none => simp [World.fail, h1, h2]
    | some kf =>
      obtain ⟨k, f⟩ := kf
      simp only
      split_ifs <;> simp [World.fail, h1, h2]

theorem sys_fstat_frame (w : World) (fd : Int) (st : stat_t) :
    (sys_fstat w fd st).2.2.inodes = w.inodes ∧
    (sys_fstat w fd st).2.2.names = w.names ∧
    (sys_fstat w fd st).2.2.fds = w.fds ∧
    (sys_fstat w fd st).2.2.ofiles = w.ofiles := by
  obtain ⟨h1, h2, h3, h4, -, -⟩ := enter_fields w (.sFstat fd)
  unfold sys_fstat
  generalize w.enter (.sFstat fd) = r at h1 h2 h3 h4
  obtain ⟨fault, w1⟩ := r
  simp only at h1 h2 h3 h4
  cases fault with
  | some e => simp [World.fail, h1, h2, h3, h4]
  | none =>
    simp only
    cases w1.file fd with
    | none => simp [World.fail, h1, h2, h3, h4]
    | some kf =>
      obtain ⟨k, f⟩ := kf
      simp only
      cases w1.inodes f.ino <;> simp [World.fail, h1, h2, h3, h4]

/-- Claim C4, as amended (persistence boundary, first half): in a world where
the ciphertext handle of the session is open on inode `i`, `enc_read` and
`enc_fgetattr` leave inode `i` (its bytes included) and the name table as they
were; so do `enc_write` and `enc_ftruncate` when the plaintext handle is not
open on that same inode. This holds for every argument and every schedule of
failing calls. -/
theorem ciphertext_untouched (w : World) (fi : fuse_file_info) (i : Nat)
    (buf : Bytes) (size : Nat) (offset : Int) (len : Int) (st : stat_t)
    (henc : w.inoOf fi.fh.encFH = some i) :
    ((enc_read w size offset fi).2.2.inodes i = w.inodes i ∧
      (enc_read w size offset fi).2.2.names = w.names) ∧
    ((enc_fgetattr w st fi).2.2.inodes i = w.inodes i ∧
      (enc_fgetattr w st fi).2.2.names = w.names) ∧
    (w.inoOf fi.fh.clearFH ≠ w.inoOf fi.fh.encFH →
      ((enc_write w buf size offset fi).2.2.inodes i = w.inodes i ∧
        (enc_write w buf size offset fi).2.2.names = w.names) ∧
      ((enc_ftruncate w len fi).2.inodes i = w.inodes i ∧
        (enc_ftruncate w len fi).2.names = w.names)) := by
  refine ⟨?_, ?_, fun hne => ?_⟩
  · have h := sys_pread_frame w fi.fh.clearFH size offset
    unfold enc_read
    dsimp only
    split_ifs <;> simp [h.1, h.2]
  · have h1 := sys_fstat_frame w fi.fh.encFH st
    have h2 := sys_fstat_frame (sys_fstat w fi.fh.encFH st).2.2 fi.fh.clearFH
      (sys_fstat w fi.fh.encFH st).2.1
    unfold enc_fgetattr
    dsimp only
    split_ifs <;> simp [h1.1, h1.2.1, h2.1, h2.2.1]
  · rw [henc] at hne
    refine ⟨?_, ?_⟩
    · have h := sys_pwrite_frame w fi.fh.clearFH buf size offset i hne
      unfold enc_write
      dsimp only
      split_ifs <;> exact h
    · have h := sys_ftruncate_frame w fi.fh.clearFH len i hne
      unfold enc_ftruncate
      dsimp only
      split_ifs <;> exact h

theorem sys_unlink_spec (w : World) (path : Path) :
    ((sys_unlink w path).1 < 0 ∧ 0 < (sys_unlink w path).2.errno) ∨
    ((sys_unlink w path).1 = 0 ∧ (sys_unlink w path).2.names path = none ∧
      (sys_unlink w path).2.fds = w.fds ∧ (sys_unlink w path).2.ofiles = w.ofiles) := by
  obtain ⟨-, -, h3, h4, -, -⟩ := enter_fields w (.sUnlink path)
  unfold sys_unlink
  generalize w.enter (.sUnlink path) = r at h3 h4
  obtain ⟨fault, w1⟩ := r
  simp only at h3 h4
  cases fault with
  | some e =>
    left
    have := e.pos
    simp only [World.fail]
    constructor
    · decide
    · omega
  | none =>
    simp only
    cases w1.names path with
    | none => left; simp [World.fail, ENOENT]
    | some ino =>
      simp only
      cases w1.inodes ino with
      | none => left; simp [World.fail, ENOENT]
      | some f =>
        simp only
        split_ifs
        · left; simp [World.fail, EISDIR]
        · right; simp [upd, h3, h4]

theorem removeFile_spec (w : World) (path : Path) :
    (removeFile w path).1 < 0 ∨
    ((removeFile w path).1 = 0 ∧ (removeFile w path).2.names path = none ∧
      (removeFile w path).2.fds = w.fds ∧ (removeFile w path).2.ofiles = w.ofiles) := by
  unfold removeFile
  dsimp only
  rcases sys_unlink_spec w path with ⟨h1, h2⟩ | ⟨h1, h2⟩
  · left
    simp only [h1, if_true]
    omega
  · right
    have : ¬ ((sys_unlink w path).1 < 0) := by omega
    simp only [this, if_false]
    exact ⟨rfl, h2⟩

theorem sys_close_spec (w : World) (fd : Int) :
    ((sys_close w fd).1 < 0 ∧ 0 < (sys_close w fd).2.errno) ∨
    ((sys_close w fd).1 = 0 ∧ (sys_close w fd).2.names = w.names ∧
      (sys_close w fd).2.file fd = none ∧
      ∀ fd1, w.file fd1 = none → (sys_close w fd).2.file fd1 = none) := by
  obtain ⟨h1, -, h3, h4, -, -⟩ := enter_fields w (.sClose fd)
  have h5 := enter_file w (.sClose fd)
  unfold sys_close
  generalize w.enter (.sClose fd) = r at h1 h3 h4 h5
  obtain ⟨fault, w1⟩ := r
  simp only at h1 h3 h4 h5
  simp only
  cases hfile : w1.file fd with
  | none => left; simp [World.fail, EBADF]
  | some kf =>
    simp only
    cases fault with
    | some e =>
      left
      have := e.pos
      simp only [World.fail]
      constructor
      · decide
      · omega
    | none =>
      right
      simp only
      refine ⟨trivial, h1, ?_, ?_⟩
      · have hnn : ¬ fd < 0 := by
          intro hlt
          simp [World.file, hlt] at hfile
        simp [World.file, hnn, upd]
      · intro fd1 hfd1
        rw [← h5] at hfd1
        simp only [World.file] at hfd1 ⊢
        split_ifs at hfd1 ⊢ with hlt
        · rfl
        · simp only [upd]
          split_ifs with heq
          · rfl
          · exact hfd1

theorem closeFilePair_spec (w : World) (fhs : enc_fhs_t) :
    (closeFilePair w (some fhs)).1 < 0 ∨
    ((closeFilePair w (some fhs)).1 = 0 ∧ (closeFilePair w (some fhs)).2.names = w.names ∧
      (closeFilePair w (some fhs)).2.file fhs.encFH = none ∧
      (closeFilePair w (some fhs)).2.file fhs.clearFH = none) := by
  unfold closeFilePair
  dsimp only
  rcases sys_close_spec w fhs.encFH with ⟨h1, h2⟩ | ⟨h1, h2, h3, h4⟩
  · left
    simp only [h1, if_true]
    omega
  · have hn : ¬ ((sys_close w fhs.encFH).1 < 0) := by omega
    simp only [hn, if_false]
    rcases sys_close_spec (sys_close w fhs.encFH).2 fhs.clearFH with ⟨g1, g2⟩ | ⟨g1, g2, g3, g4⟩
    · left
      simp only [g1, if_true]
      omega
    · right
      have hn2 : ¬ ((sys_close (sys_close w fhs.encFH).2 fhs.clearFH).1 < 0) := by omega
      simp only [hn2, if_false]
      exact ⟨rfl, by rw [g2, h2], g4 _ h3, g3⟩

/-- Claim C7 (scratch hygiene): whenever `enc_release` returns a non-negative
result it returns 0, no file is left at the scratch path `clearPath` of the
pair, and both handles of the pair are closed; this holds in every world and
for every schedule of failing calls. -/
theorem release_success_cleans (c : Cipher) (w : World) (fi : fuse_file_info)
    (h : 0 ≤ (enc_release c w (some fi)).1) :
    (enc_release c w (some fi)).1 = 0 ∧
    (enc_release c w (some fi)).2.names fi.fh.clearPath = none ∧
    (enc_release c w (some fi)).2.file fi.fh.encFH = none ∧
    (enc_release c w (some fi)).2.file fi.fh.clearFH = none := by
  unfold enc_release at h ⊢
  dsimp only at h ⊢
  generalize (if fi.fh.dirty = FHS_DIRTY then encryptFH c w fi.fh.clearFH fi.fh.encFH
    else (0, w)) = s at h ⊢
  obtain ⟨r0, w0⟩ := s
  dsimp only at h ⊢
  by_cases h0 : r0 < 0
  · simp only [h0, if_true] at h
    omega
  · simp only [h0, if_false] at h ⊢
    rcases removeFile_spec w0 fi.fh.clearPath with h1 | ⟨h1, h2, -, -⟩
    · simp only [h1, if_true] at h
      omega
    · have hn1 : ¬ ((removeFile w0 fi.fh.clearPath).1 < 0) := by omega
      simp only [hn1, if_false] at h ⊢
      rcases closeFilePair_spec (removeFile w0 fi.fh.clearPath).2 fi.fh with g1 | ⟨g1, g2, g3, g4⟩
      · simp only [g1, if_true] at h
        omega
      · have hn2 : ¬ ((closeFilePair (removeFile w0 fi.fh.clearPath).2 (some fi.fh)).1 < 0) := by
          omega
        simp only [hn2, if_false]
        exact ⟨rfl, by rw [g2]; exact h2, g3, g4⟩

/-! ## Paths that do not fit the buffer -/

theorem buildPath_too_long (w : World) (R P buf : Path)
    (hR : w.private_data = some { basePath := R }) (hl : 1023 < R.length + P.length) :
    (buildPath w (some P) (some buf) PATHBUFSIZE).1 = -ENAMETOOLONG := by
  unfold buildPath
  simp only [hR, PATHBUFSIZE, sizePred, List.length_append]
  norm_num
  rw [if_pos hl]

theorem path_too_long_no_syscall (c : Cipher) (w : World) (R P : Path) (other : Option Path)
    (hR : w.private_data = some { basePath := R }) (hl : 1023 < R.length + P.length)
    (st : stat_t) (sv : statvfs_t) (fi : fuse_file_info) (m u g size : Nat) (len : Int)
    (ts : Nat × Nat) (hfit : 0 ≤ (buildPath w other (some []) PATHBUFSIZE).1) :
    enc_getattr c w (some P) st = (-ENAMETOOLONG, st, w) ∧
    enc_access w (some P) m = (-ENAMETOOLONG, w) ∧
    enc_readlink w (some P) size = (-ENAMETOOLONG, [], w) ∧
    enc_mknod w (some P) m u = (-ENAMETOOLONG, w) ∧
    enc_mkdir w (some P) m = (-ENAMETOOLONG, w) ∧
    enc_unlink w (some P) = (-ENAMETOOLONG, w) ∧
    enc_rmdir w (some P) = (-ENAMETOOLONG, w) ∧
    enc_rename w (some P) other = (-ENAMETOOLONG, w) ∧
    enc_rename w other (some P) = (-ENAMETOOLONG, w) ∧
    enc_chmod w (some P) m = (-ENAMETOOLONG, w) ∧
    enc_chown w (some P) u g = (-ENAMETOOLONG, w) ∧
    enc_truncate c w (some P) len = (-ENAMETOOLONG, w) ∧
    enc_utimens w (some P) ts = (-ENAMETOOLONG, w) ∧
    enc_create c w (some P) m fi = (-ENAMETOOLONG, fi, w) ∧
    enc_open c w (some P) fi = (-ENAMETOOLONG, fi, w) ∧
    enc_statfs w (some P) sv = (-ENAMETOOLONG, sv, w) ∧
    enc_symlink w other (some P) = (RETURN_FAILURE, w) ∧
    enc_symlink w (some P) other = (RETURN_FAILURE, w) ∧
    enc_link w other (some P) = (RETURN_FAILURE, w) ∧
    enc_link w (some P) other = (RETURN_FAILURE, w) := by
  have h := buildPath_too_long w R P [] hR hl
  have hnn : ¬ (buildPath w other (some []) PATHBUFSIZE).1 < 0 := by omega
  generalize hb : buildPath w (some P) (some []) PATHBUFSIZE = r at h
  generalize hb2 : buildPath w other (some []) PATHBUFSIZE = r2 at hnn
  obtain ⟨ret, fp⟩ := r
  obtain ⟨ret2, fp2⟩ := r2
  simp only at h hnn
  subst h
  have hneg : -ENAMETOOLONG < 0 := by decide
  refine ⟨?_, ?_, ?_, ?_, ?_, ?_, ?_, ?_, ?_, ?_, ?_, ?_, ?_, ?_, ?_, ?_, ?_, ?_, ?_, ?_⟩
  · unfold enc_getattr
    rw [hb]
    exact if_pos hneg
  · unfold enc_access
    rw [hb]
    exact if_pos hneg
  · unfold enc_readlink
    rw [hb]
    exact if_pos hneg
  · unfold enc_mknod
    rw [hb]
    exact if_pos hneg
  · unfold enc_mkdir
    rw [hb]
    exact if_pos hneg
  · unfold enc_unlink
    rw [hb]
    exact if_pos hneg
  · unfold enc_rmdir
    rw [hb]
    exact if_pos hneg
  · unfold enc_rename
    rw [hb]
    exact if_pos hneg
  · unfold enc_rename
    rw [hb, hb2]
    exact (if_neg hnn).trans (if_pos hneg)
  · unfold enc_chmod
    rw [hb]
    exact if_pos hneg
  · unfold enc_chown
    rw [hb]
    exact if_pos hneg
  · unfold enc_truncate
    rw [hb]
    exact if_pos hneg
  · unfold enc_utimens
    rw [hb]
    exact if_pos hneg
  · unfold enc_create
    rw [hb]
    exact if_pos hneg
  · unfold enc_open
    rw [hb]
    exact if_pos hneg
  · unfold enc_statfs
    rw [hb]
    exact if_pos hneg
  · unfold enc_symlink
    rw [hb, hb2]
    exact (if_neg hnn).trans (if_pos hneg)
  · unfold enc_symlink
    rw [hb]
    exact if_pos hneg
  · unfold enc_link
    rw [hb, hb2]
    exact (if_neg hnn).trans (if_pos hneg)
  · unfold enc_link
    rw [hb]
    exact if_pos hneg

/-! ## Evaluations of the callbacks on concrete worlds -/

/-- The toy cipher decrypts what it encrypted. -/
theorem demoCipher_inverse (x : Bytes) :
    (demoCipher.crypt_decrypt TESTKEY (demoCipher.crypt_encrypt TESTKEY x).2).2 = x := by
  simp [demoCipher, TESTKEY]

/-- Witness of C1: scenario S1, `hello world` written to `/hello.txt` and read back. -/
theorem round_trip_witness :
    (∀ x, (demoCipher.crypt_decrypt TESTKEY (demoCipher.crypt_encrypt TESTKEY x).2).2 = x) ∧
    world0.faults = [] ∧
    buildPath world0 (some helloPath) (some []) PATHBUFSIZE = (0, some helloFull) ∧
    buildTempPath (some helloFull) (some []) PATHBUFSIZE = (0, some helloTemp) ∧
    world0.names helloFull = none ∧ world0.names helloTemp = none ∧
    (let r1 := enc_create demoCipher world0 (some helloPath) 420 (fi0 (O_CREAT ||| O_WRONLY))
     let r2 := enc_write r1.2.2 helloWorld helloWorld.length 0 r1.2.1
     let r3 := enc_release demoCipher r2.2.2 (some r2.2.1)
     let r4 := enc_open demoCipher r3.2 (some helloPath) (fi0 O_RDONLY)
     let r5 := enc_read r4.2.2 11 0 r4.2.1
     let r6 := enc_release demoCipher r5.2.2 (some r4.2.1)
     r1.1 = 0 ∧ r2.1 = helloWorld.length ∧ r3.1 = 0 ∧ r4.1 = 0 ∧
       r5.1 = helloWorld.length ∧ r5.2.1 = helloWorld ∧ r6.1 = 0) :=
  ⟨demoCipher_inverse, rfl, by decide, by decide, rfl, rfl,
   round_trip demoCipher world0 helloPath helloFull helloTemp helloWorld 420 11
     (fi0 (O_CREAT ||| O_WRONLY)) (fi0 O_RDONLY) demoCipher_inverse rfl (by decide) (by decide)
     rfl rfl (by decide) (by decide) (by decide) (by decide) (by decide)⟩

/-- Claim C2, evaluated (scenario S3): `enc_truncate("/hello.txt", 5)` on the
stored file `hello world` returns 0 and leaves no scratch file, but the file
then reads back as five NUL bytes, not as `hello`: `enc_truncate` never
decrypts the ciphertext into the scratch file it truncates. -/
theorem truncate_reads_back_as_zeros :
    readBack (stored helloWorld) = (11, helloWorld, 0) ∧
    (enc_truncate demoCipher (stored helloWorld) (some helloPath) 5).1 = 0 ∧
    (enc_truncate demoCipher (stored helloWorld) (some helloPath) 5).2.names helloTemp
      = none ∧
    readBack (enc_truncate demoCipher (stored helloWorld) (some helloPath) 5).2 =
      (5, List.replicate 5 NULLTERM, 0) ∧
    List.replicate 5 NULLTERM ≠ helloWorld.take 5 := by
  decide

/-- Claim C3, evaluated: in a session opened on the stored file `hello world`,
`enc_ftruncate(5)` succeeds and shortens the plaintext, `enc_flush` succeeds, and
the ciphertext still decrypts to `hello world`; after the release the file
reads back unshortened. `enc_ftruncate` does not set `dirty`. -/
theorem ftruncate_alone_is_not_persisted :
    (let s := openSession helloWorld
     let r1 := enc_ftruncate s.2 5 s.1
     let r2 := enc_flush demoCipher r1.2 (some s.1)
     let r3 := enc_release demoCipher r2.2.2 r2.2.1
     s.1.fh.dirty = FHS_CLEAN ∧ r1.1 = 0 ∧ r2.1 = 0 ∧
     r2.2.2.bytesOf s.1.fh.clearFH = some (resize helloWorld 5) ∧
     (r2.2.2.bytesAt helloFull).map (demoCipher.crypt_decrypt TESTKEY) =
       some (0, helloWorld) ∧
     r3.1 = 0 ∧ readBack r3.2 = (11, helloWorld, 0)) ∧
    resize helloWorld 5 ≠ helloWorld := by
  decide

/-- Witness of C4: a write in a live session leaves the ciphertext inode as it was. -/
theorem ciphertext_untouched_witness :
    (dirtySession bytesX).2.inoOf (dirtySession bytesX).1.fh.encFH = some 3 ∧
    (dirtySession bytesX).2.inoOf (dirtySession bytesX).1.fh.clearFH ≠
      (dirtySession bytesX).2.inoOf (dirtySession bytesX).1.fh.encFH ∧
    (enc_write (dirtySession bytesX).2 helloWorld 11 0 (dirtySession bytesX).1).2.2.inodes 3
      = (dirtySession bytesX).2.inodes 3 :=
  ⟨by decide, by decide,
   ((ciphertext_untouched (dirtySession bytesX).2 (dirtySession bytesX).1 3
     helloWorld 11 0 0 st0 (by decide)).2.2 (by decide)).1.1⟩

/-- Claim C4, as stated, fails: on the stored file `/hello.txt`, after
`enc_link("/hello.txt", "/._hello.txt.decrypt")` the scratch path of the file is
another name of its backing file, `enc_open` puts both handles of the pair on
that one inode, and `enc_write` of the byte `J` then changes the bytes of the
backing ciphertext file, as `enc_ftruncate` does. -/
theorem write_reaches_linked_ciphertext :
    (enc_link (stored helloWorld) (some helloPath) (some helloShadow)).1 = 0 ∧
    (enc_open demoCipher (enc_link (stored helloWorld) (some helloPath) (some helloShadow)).2
      (some helloPath) (fi0 O_RDWR)).1 = 0 ∧
    linkedSession.2.inoOf linkedSession.1.fh.clearFH =
      linkedSession.2.inoOf linkedSession.1.fh.encFH ∧
    linkedSession.2.bytesAt helloFull = some [] ∧
    (enc_write linkedSession.2 ['J'] 1 0 linkedSession.1).1 = 1 ∧
    (enc_write linkedSession.2 ['J'] 1 0 linkedSession.1).2.2.bytesAt helloFull = some ['J'] ∧
    (enc_write linkedSession.2 ['J'] 1 0 linkedSession.1).2.2.bytesAt helloFull ≠
      linkedSession.2.bytesAt helloFull ∧
    (enc_ftruncate linkedSession.2 3 linkedSession.1).1 = 0 ∧
    (enc_ftruncate linkedSession.2 3 linkedSession.1).2.bytesAt helloFull ≠
      linkedSession.2.bytesAt helloFull := by
  decide

/-- Claim C5, evaluated: a dirty session holds the plaintext `X`; the `dup` of
the plaintext handle inside `encryptFH` fails with `EMFILE`. Then `enc_fsync`,
`enc_flush` and `enc_release` all return 0, while the ciphertext file has been
truncated to nothing and does not decrypt to `X`: the failure is overwritten
by the result of the offset-restoring `lseek`. -/
theorem failed_encrypt_reported_as_success :
    (demoCipher.crypt_decrypt TESTKEY []).2 ≠ bytesX ∧
    (let s := dirtySession bytesX
     let w := s.2.withFaults [none, none, none, none, none, some faultEMFILE]
     let r1 := enc_fsync demoCipher w 0 (some s.1)
     let r2 := enc_flush demoCipher w (some s.1)
     let r3 := enc_release demoCipher w (some s.1)
     s.1.fh.dirty = FHS_DIRTY ∧
     (∀ x, x ∈ [bytesX, []] →
       (demoCipher.crypt_decrypt TESTKEY (demoCipher.crypt_encrypt TESTKEY x).2).2 = x) ∧
     (r1.1 = 0 ∧ r1.2.2.bytesOf s.1.fh.clearFH = some bytesX ∧
       r1.2.2.bytesAt helloFull = some []) ∧
     (r2.1 = 0 ∧ r2.2.2.bytesOf s.1.fh.clearFH = some bytesX ∧
       r2.2.2.bytesAt helloFull = some []) ∧
     (r3.1 = 0 ∧ r3.2.bytesAt helloFull = some [])) := by
  decide

/-- After `hello world` is written and flushed with no failing call, both calls report size 11. -/
theorem size_overlay_witness :
    (∀ x, (demoCipher.crypt_decrypt TESTKEY (demoCipher.crypt_encrypt TESTKEY x).2).2 = x) ∧
    world0.faults = [] ∧
    buildPath world0 (some helloPath) (some []) PATHBUFSIZE = (0, some helloFull) ∧
    buildTempPath (some helloFull) (some []) PATHBUFSIZE = (0, some helloTemp) ∧
    (let r1 := enc_create demoCipher world0 (some helloPath) 420 (fi0 (O_CREAT ||| O_WRONLY))
     let r2 := enc_write r1.2.2 helloWorld helloWorld.length 0 r1.2.1
     let r3 := enc_flush demoCipher r2.2.2 (some r2.2.1)
     let fi3 := r3.2.1.getD r2.2.1
     let f := enc_fgetattr r3.2.2 st0 fi3
     let g := enc_getattr demoCipher r3.2.2 (some helloPath) st0
     let f2 := enc_fgetattr g.2.2 st0 fi3
     r1.1 = 0 ∧ r2.1 = helloWorld.length ∧ r3.1 = 0 ∧
       f.1 = 0 ∧ f.2.1.st_size = helloWorld.length ∧
       g.1 = 0 ∧ g.2.1.st_size = helloWorld.length ∧
       f2.1 = 0 ∧ f2.2.1.st_size = helloWorld.length) :=
  ⟨demoCipher_inverse, rfl, by decide, by decide,
   size_overlay demoCipher world0 helloPath helloFull helloTemp helloWorld 420
     (fi0 (O_CREAT ||| O_WRONLY)) st0 demoCipher_inverse rfl (by decide) (by decide)
     rfl rfl (by decide) (by decide) (by decide)⟩

/-- Witness of C7: the release of a dirty session succeeds and cleans up. -/
theorem release_success_cleans_witness :
    0 ≤ (enc_release demoCipher (dirtySession bytesX).2 (some (dirtySession bytesX).1)).1 ∧
    (enc_release demoCipher (dirtySession bytesX).2
        (some (dirtySession bytesX).1)).2.names helloTemp = none ∧
    (enc_release demoCipher (dirtySession bytesX).2
        (some (dirtySession bytesX).1)).2.file (dirtySession bytesX).1.fh.encFH = none ∧
    (enc_release demoCipher (dirtySession bytesX).2
        (some (dirtySession bytesX).1)).2.file (dirtySession bytesX).1.fh.clearFH = none :=
  ⟨by decide,
   (release_success_cleans demoCipher (dirtySession bytesX).2 (dirtySession bytesX).1
     (by decide)).2⟩

/-- Claim C6, evaluated: a session creates `/hello.txt` and writes the 11 bytes
`hello world`; inside the `encryptFH` of `enc_flush` the `dup` of the plaintext
handle fails with `EMFILE`. `enc_flush` returns 0 and marks the session clean,
the ciphertext file is left empty; `enc_fgetattr` then reports `st_size` 11 and
`enc_getattr` returns 0 with `st_size` 0. -/
theorem flush_fault_breaks_size_overlay :
    helloWorld.length = 11 ∧
    (let s := dirtySession helloWorld
     let w := s.2.withFaults [none, none, none, none, none, some faultEMFILE]
     let r := enc_flush demoCipher w (some s.1)
     let fi3 := r.2.1.getD s.1
     let f := enc_fgetattr r.2.2 st0 fi3
     let g := enc_getattr demoCipher r.2.2 (some helloPath) st0
     s.1.fh.dirty = FHS_DIRTY ∧ r.1 = 0 ∧ fi3.fh.dirty = FHS_CLEAN ∧
     r.2.2.bytesAt helloFull = some [] ∧
     f.1 = 0 ∧ f.2.1.st_size = 11 ∧ g.1 = 0 ∧ g.2.1.st_size = 0) := by
  decide

set_option maxRecDepth 100000 in
/-- Claim C9, evaluated: with the root `/b` and a virtual path of 1031 bytes,
`enc_symlink` and `enc_link` return `RETURN_FAILURE`, that is -1, not
`-ENAMETOOLONG`, while their sibling `enc_rename` returns `-ENAMETOOLONG`; none
of them makes a system call. -/
theorem symlink_and_link_return_minus_one :
    (['/', 'b'] ++ longPath).length > 1023 ∧
    (enc_symlink world0 (some helloPath) (some longPath)).1 = -1 ∧
    (enc_symlink world0 (some longPath) (some helloPath)).1 = -1 ∧
    (enc_link world0 (some helloPath) (some longPath)).1 = -1 ∧
    (enc_link world0 (some longPath) (some helloPath)).1 = -1 ∧
    (enc_rename world0 (some helloPath) (some longPath)).1 = -ENAMETOOLONG ∧
    (enc_symlink world0 (some helloPath) (some longPath)).2.trace = [] ∧
    (enc_link world0 (some helloPath) (some longPath)).2.trace = [] ∧
    (-1 : Int) ≠ -ENAMETOOLONG := by
  decide

/-- Claim C10, evaluated: when the open of the backing file fails, with
`ENOENT` (the file is absent) or with `EACCES`, the callbacks `enc_open`,
`enc_truncate`, `enc_create` and `enc_getattr` return -1 while `errno` holds
the cause. -/
theorem failed_open_returns_minus_one :
    ((enc_open demoCipher world0 (some helloPath) (fi0 O_RDONLY)).1 = -1 ∧
      (enc_open demoCipher world0 (some helloPath) (fi0 O_RDONLY)).2.2.errno = ENOENT) ∧
    ((enc_truncate demoCipher world0 (some helloPath) 0).1 = -1 ∧
      (enc_truncate demoCipher world0 (some helloPath) 0).2.errno = ENOENT) ∧
    ((enc_create demoCipher (world0.withFaults [none, some faultEACCES]) (some helloPath) 420
        (fi0 (O_CREAT ||| O_WRONLY))).1 = -1 ∧
      (enc_create demoCipher (world0.withFaults [none, some faultEACCES]) (some helloPath) 420
        (fi0 (O_CREAT ||| O_WRONLY))).2.2.errno = EACCES) ∧
    ((enc_getattr demoCipher ((stored helloWorld).withFaults [none, none, some faultEACCES])
        (some helloPath) st0).1 = -1 ∧
      (enc_getattr demoCipher ((stored helloWorld).withFaults [none, none, some faultEACCES])
        (some helloPath) st0).2.2.errno = EACCES) ∧
    (-1 : Int) ≠ -ENOENT ∧ (-1 : Int) ≠ -EACCES := by
  decide

/-! ## Path translation: `buildPath` and `buildTempPath` -/

theorem strrchr_none {l : Path} {c : Char} (h : c ∉ l) : strrchr l c = none := by
  induction l with
  | nil => rfl
  | cons x xs ih =>
    have hx : x ≠ c := fun e => h (by simp [e])
    have hxs : c ∉ xs := fun e => h (by simp [e])
    simp [strrchr, ih hxs, hx]

theorem strrchr_append {d n : Path} {c : Char} (h : c ∉ n) :
    strrchr (d ++ c :: n) c = some d.length := by
  induction d with
  | nil => simp [strrchr, strrchr_none h]
  | cons x xs ih => simp [strrchr, ih]

theorem sizePred_pos {n : Nat} (h0 : 0 < n) (hmax : n < 18446744073709551616) :
    sizePred n = n - 1 := by
  unfold sizePred
  omega

/-- Claim C13 (`buildPath`): with backing root `R` and a buffer of `bufSize`
bytes (`0 < bufSize`, a `size_t`), `buildPath` returns 0 and leaves exactly
`R ++ p` in the buffer when `|R| + |p| ≤ bufSize - 1`, and returns
`-ENAMETOOLONG` when `|R| + |p| > bufSize - 1`; it returns `-EINVAL` when the
path, the buffer or the filesystem state is absent. With `bufSize = 1024` a
result of 1023 bytes is accepted and one of 1024 bytes is rejected. -/
theorem buildPath_spec (w : World) (R p old : Path) (bufSize : Nat)
    (hR : w.private_data = some { basePath := R })
    (h0 : 0 < bufSize) (hmax : bufSize < 18446744073709551616) :
    (R.length + p.length ≤ bufSize - 1 →
      buildPath w (some p) (some old) bufSize = (0, some (R ++ p))) ∧
    (R.length + p.length > bufSize - 1 →
      (buildPath w (some p) (some old) bufSize).1 = -ENAMETOOLONG) ∧
    (∀ buf, (buildPath w none buf bufSize).1 = -EINVAL) ∧
    (∀ path, (buildPath w path none bufSize).1 = -EINVAL) ∧
    (∀ path buf, (buildPath { w with private_data := none } path buf bufSize).1 = -EINVAL) ∧
    (R.length + p.length = 1023 →
      buildPath w (some p) (some old) PATHBUFSIZE = (0, some (R ++ p))) ∧
    (R.length + p.length = 1024 →
      (buildPath w (some p) (some old) PATHBUFSIZE).1 = -ENAMETOOLONG) := by
  have hs := sizePred_pos h0 hmax
  have hs2 : sizePred PATHBUFSIZE = 1023 := by decide
  have hne : bufSize ≠ 0 := by omega
  refine ⟨?_, ?_, ?_, ?_, ?_, ?_, ?_⟩
  · intro h
    have h1 : ¬ ((R ++ p).length > bufSize - 1) := by
      rw [List.length_append]; omega
    have h2 : (R ++ p).take (bufSize - 1) = R ++ p := by
      apply List.take_of_length_le
      rw [List.length_append]; omega
    simp only [buildPath, hR, hs, hne, if_false, h1, h2, RETURN_SUCCESS]
  · intro h
    have h1 : (R ++ p).length > bufSize - 1 := by
      rw [List.length_append]; omega
    simp only [buildPath, hR, hs, hne, if_false, h1, if_true]
  · intro buf
    rfl
  · intro path
    cases path <;> rfl
  · intro path buf
    cases path <;> cases buf <;> rfl
  · intro h
    have h1 : ¬ ((R ++ p).length > 1023) := by
      rw [List.length_append]; omega
    have h2 : (R ++ p).take (PATHBUFSIZE - 1) = R ++ p := by
      apply List.take_of_length_le
      rw [List.length_append]
      have : PATHBUFSIZE = 1024 := rfl
      omega
    have h3 : PATHBUFSIZE ≠ 0 := by decide
    simp only [buildPath, hR, hs2, h3, if_false, h1, h2, RETURN_SUCCESS]
  · intro h
    have h1 : (R ++ p).length > 1023 := by
      rw [List.length_append]; omega
    have h3 : PATHBUFSIZE ≠ 0 := by decide
    simp only [buildPath, hR, hs2, h3, if_false, h1, if_true]

/-- Witness of C13: the root `/b` and the path `/hello.txt` in a buffer of 1024 bytes. -/
theorem buildPath_spec_witness :
    world0.private_data = some { basePath := ['/', 'b'] } ∧ 0 < 1024 ∧
    (1024 : Nat) < 18446744073709551616 ∧
    (['/', 'b'] : Path).length + helloPath.length ≤ 1024 - 1 ∧
    buildPath world0 (some helloPath) (some []) 1024 = (0, some (['/', 'b'] ++ helloPath)) :=
  ⟨rfl, by decide, by decide, by decide,
   (buildPath_spec world0 ['/', 'b'] helloPath [] 1024 rfl (by decide) (by decide)).1
     (by decide)⟩

/-- Claim C14 (`buildTempPath`): for a backing path `p = d ++ "/" ++ n` of at
most 1023 bytes in which `n` contains no `/`, and a buffer of `bufSize` bytes
(`0 < bufSize`, a `size_t`), `buildTempPath` returns 0 with
`d ++ "/._" ++ n ++ ".decrypt"`, of `|p| + 10` bytes, when `|p| + 10 ≤ bufSize - 1`,
and `-ENAMETOOLONG` when that does not fit; a path of at most 1023 bytes
without `/` gives `-EINVAL`, a path of more than 1023 bytes gives
`-ENAMETOOLONG`, and an absent argument gives `-EINVAL`. -/
theorem buildTempPath_spec (d n old : Path) (bufSize : Nat)
    (hn : PATHDELIMINATOR ∉ n) (hp : (d ++ PATHDELIMINATOR :: n).length ≤ 1023)
    (h0 : 0 < bufSize) (hmax : bufSize < 18446744073709551616) :
    ((d ++ PATHDELIMINATOR :: n).length + 10 ≤ bufSize - 1 →
      buildTempPath (some (d ++ PATHDELIMINATOR :: n)) (some old) bufSize =
        (0, some (d ++ ['/', '.', '_'] ++ n ++ ['.', 'd', 'e', 'c', 'r', 'y', 'p', 't'])) ∧
      (d ++ ['/', '.', '_'] ++ n ++ ['.', 'd', 'e', 'c', 'r', 'y', 'p', 't']).length =
        (d ++ PATHDELIMINATOR :: n).length + 10) ∧
    ((d ++ PATHDELIMINATOR :: n).length + 10 > bufSize - 1 →
      (buildTempPath (some (d ++ PATHDELIMINATOR :: n)) (some old) bufSize).1
        = -ENAMETOOLONG) ∧
    (∀ q : Path, q.length ≤ 1023 → PATHDELIMINATOR ∉ q →
      (buildTempPath (some q) (some old) bufSize).1 = -EINVAL) ∧
    (∀ q : Path, q.length > 1023 →
      (buildTempPath (some q) (some old) bufSize).1 = -ENAMETOOLONG) ∧
    (∀ t, (buildTempPath none t bufSize).1 = -EINVAL) ∧
    (∀ f, (buildTempPath f none bufSize).1 = -EINVAL) := by
  have hs := sizePred_pos h0 hmax
  have hs2 : sizePred PATHBUFSIZE = 1023 := by decide
  have hne : bufSize ≠ 0 := by omega
  have hlen : ¬ ((d ++ PATHDELIMINATOR :: n).length > 1023) := by omega
  have hstr := strrchr_append (d := d) hn
  have htake : (d ++ PATHDELIMINATOR :: n).take d.length = d := by simp
  have hdrop : (d ++ PATHDELIMINATOR :: n).drop (d.length + 1) = n := by
    rw [List.drop_append_eq_append_drop]
    simp
  have hshape : d ++ [PATHDELIMINATOR] ++ TEMPNAME_PRE ++ n ++ TEMPNAME_POST =
      d ++ ['/', '.', '_'] ++ n ++ ['.', 'd', 'e', 'c', 'r', 'y', 'p', 't'] := by
    simp [PATHDELIMINATOR, TEMPNAME_PRE, TEMPNAME_POST]
  have hl : (d ++ ['/', '.', '_'] ++ n ++ ['.', 'd', 'e', 'c', 'r', 'y', 'p', 't']).length =
      (d ++ PATHDELIMINATOR :: n).length + 10 := by
    simp only [List.length_append, List.length_cons, List.length_nil]
    omega
  refine ⟨?_, ?_, ?_, ?_, ?_, ?_⟩
  · intro h
    refine ⟨?_, hl⟩
    have h1 : ¬ ((d ++ ['/', '.', '_'] ++ n ++
        ['.', 'd', 'e', 'c', 'r', 'y', 'p', 't']).length > bufSize - 1) := by
      rw [hl]; omega
    have h2 : (d ++ ['/', '.', '_'] ++ n ++
        ['.', 'd', 'e', 'c', 'r', 'y', 'p', 't']).take (bufSize - 1) =
        d ++ ['/', '.', '_'] ++ n ++ ['.', 'd', 'e', 'c', 'r', 'y', 'p', 't'] := by
      apply List.take_of_length_le
      rw [hl]; omega
    simp only [buildTempPath, hs2, hlen, if_false, hstr, htake, hdrop, hshape, hs, hne, h1, h2,
      RETURN_SUCCESS]
  · intro h
    have h1 : (d ++ ['/', '.', '_'] ++ n ++
        ['.', 'd', 'e', 'c', 'r', 'y', 'p', 't']).length > bufSize - 1 := by
      rw [hl]; omega
    simp only [buildTempPath, hs2, hlen, if_false, hstr, htake, hdrop, hshape, hs, hne, h1,
      if_true]
  · intro q hq hnq
    have h1 : ¬ (q.length > 1023) := by omega
    simp only [buildTempPath, hs2, h1, if_false, strrchr_none hnq]
  · intro q hq
    simp only [buildTempPath, hs2, hq, if_true]
  · intro t
    rfl
  · intro f
    cases f <;> rfl

/-- Witness of C14: the scratch path of `/b/hello.txt` is `/b/._hello.txt.decrypt`. -/
theorem buildTempPath_spec_witness :
    PATHDELIMINATOR ∉ ['h', 'e', 'l', 'l', 'o', '.', 't', 'x', 't'] ∧
    (['/', 'b'] ++ PATHDELIMINATOR :: ['h', 'e', 'l', 'l', 'o', '.', 't', 'x', 't']).length
      ≤ 1023 ∧
    buildTempPath (some (['/', 'b'] ++
        PATHDELIMINATOR :: ['h', 'e', 'l', 'l', 'o', '.', 't', 'x', 't'])) (some []) 1024 =
      (0, some (['/', 'b'] ++ ['/', '.', '_'] ++ ['h', 'e', 'l', 'l', 'o', '.', 't', 'x', 't'] ++
        ['.', 'd', 'e', 'c', 'r', 'y', 'p', 't'])) :=
  ⟨by decide, by decide,
   ((buildTempPath_spec ['/', 'b'] ['h', 'e', 'l', 'l', 'o', '.', 't', 'x', 't'] [] 1024
      (by decide) (by decide) (by decide) (by decide)).1 (by decide)).1⟩

/-! ## The flag rewrite of `openFilePair` -/

theorem sys_malloc_trace (w : World) : (sys_malloc w).2.trace = w.trace := by
  unfold sys_malloc
  split <;> rfl

theorem enter_trace (w : World) (ev : Sys) : (w.enter ev).2.trace = ev :: w.trace := by
  unfold World.enter
  split <;> rfl

theorem setData_trace (w : World) (i : Nat) (d : Bytes) : (w.setData i d).trace = w.trace := by
  unfold World.setData
  split <;> rfl

theorem sys_open_trace (w : World) (path : Path) (flags mode : Nat) :
    (sys_open w path flags mode).2.trace = Sys.sOpen path flags :: w.trace := by
  have h := enter_trace w (Sys.sOpen path flags)
  unfold sys_open
  generalize w.enter (Sys.sOpen path flags) = r at h ⊢
  obtain ⟨f, w1⟩ := r
  dsimp only at h ⊢
  cases f with
  | some e => exact h
  | none =>
    dsimp only
    split
    · split
      · exact h
      · exact h
    · split
      · exact h
      · split
        · exact h
        · split
          · exact h
          · split
            · exact h
            · dsimp only [World.install]
              split
              · rw [setData_trace]; exact h
              · exact h

theorem and_one_eq_one_iff (x : Nat) : x &&& 1 = 1 ↔ x.testBit 0 = true := by
  rw [Nat.and_one_is_mod, Nat.testBit_zero]
  simp

theorem testBit_mask (i : Nat) (h1 : 1 ≤ i) (h2 : i < 32) :
    (4294967294 : Nat).testBit i = true := by
  interval_cases i <;> rfl

theorem rewrite_high_bits (flags i : Nat) (hf : flags < 4294967296) (hi : 2 ≤ i) :
    ((flags &&& compl32 O_WRONLY) ||| O_RDWR).testBit i = flags.testBit i := by
  have hc : compl32 O_WRONLY = 4294967294 := by decide
  have h2 : (2 : Nat).testBit i = false := by
    apply Nat.testBit_lt_two_pow
    calc 2 < 2 ^ 2 := by decide
      _ ≤ 2 ^ i := Nat.pow_le_pow_right (by decide) hi
  rw [hc, Nat.testBit_or, Nat.testBit_and]
  simp only [O_RDWR, h2, Bool.or_false]
  by_cases h32 : i < 32
  · rw [testBit_mask i (by omega) h32, Bool.and_true]
  · have : flags.testBit i = false := by
      apply Nat.testBit_lt_two_pow
      calc flags < 2 ^ 32 := hf
        _ ≤ 2 ^ i := Nat.pow_le_pow_right (by decide) (by omega)
    rw [this, Bool.false_and]

/-- Claim C15 (flag rewrite of `openFilePair`): once `malloc` has returned a
block, the backing file is opened with `nf`, where `nf` is
`(flags & ~O_WRONLY) | O_RDWR` if the `O_WRONLY` bit of `flags` is set and
`flags` otherwise; the only other `open` the function makes is that of the
scratch file. The access mode of `nf` is never write-only, a read-only or
read-write request is passed unchanged, and every bit of `flags` outside the
access mode is kept. -/
theorem openFilePair_flag_rewrite (w : World) (encPath clearPath : Path) (flags nf : Nat)
    (hflags : flags < 4294967296)
    (hmalloc : (sys_malloc w).1 = true)
    (hnf : nf = if flags &&& O_WRONLY = O_WRONLY then (flags &&& compl32 O_WRONLY) ||| O_RDWR
      else flags) :
    (∃ tail, (openFilePair w encPath clearPath flags).2.trace =
        tail ++ Sys.sOpen encPath nf :: w.trace ∧
      ∀ ev ∈ tail, ev = Sys.sOpen clearPath (O_RDWR ||| O_CREAT ||| O_TRUNC)) ∧
    nf &&& O_ACCMODE ≠ O_WRONLY ∧
    (flags &&& O_ACCMODE = O_RDONLY ∨ flags &&& O_ACCMODE = O_RDWR → nf = flags) ∧
    (∀ i, 2 ≤ i → nf.testBit i = flags.testBit i) := by
  have hacc : ∀ x : Nat, x &&& O_ACCMODE = x % 4 := by
    intro x
    exact Nat.and_pow_two_sub_one_eq_mod x 2
  have hw : ∀ x : Nat, x &&& O_WRONLY = x % 2 := fun x => Nat.and_one_is_mod x
  refine ⟨?_, ?_, ?_, ?_⟩
  · have hm := hmalloc
    have hmt := sys_malloc_trace w
    unfold openFilePair
    rw [← hnf]
    generalize sys_malloc w = m at hm hmt ⊢
    obtain ⟨ok, w0⟩ := m
    dsimp only at hm hmt ⊢
    subst hm
    have h1 := sys_open_trace w0 encPath nf 0
    generalize sys_open w0 encPath nf 0 = r1 at h1 ⊢
    obtain ⟨x1, w1⟩ := r1
    dsimp only at h1 ⊢
    simp only [Bool.not_true, Bool.false_eq_true, if_false]
    split
    · exact ⟨[], by rw [h1, hmt]; rfl, by simp⟩
    · have h2 := sys_open_trace w1 clearPath (O_RDWR ||| O_CREAT ||| O_TRUNC)
        (S_IRUSR ||| S_IWUSR)
      generalize sys_open w1 clearPath (O_RDWR ||| O_CREAT ||| O_TRUNC)
        (S_IRUSR ||| S_IWUSR) = r2 at h2 ⊢
      obtain ⟨x2, w2⟩ := r2
      dsimp only at h2 ⊢
      refine ⟨[Sys.sOpen clearPath (O_RDWR ||| O_CREAT ||| O_TRUNC)], ?_, by simp⟩
      split <;> (dsimp only; rw [h2, h1, hmt]; rfl)
  · by_cases hb : flags &&& O_WRONLY = O_WRONLY
    · rw [hnf, if_pos hb]
      intro h
      have h1 : (((flags &&& compl32 O_WRONLY) ||| O_RDWR) &&& O_ACCMODE).testBit 1 = true := by
        rw [Nat.testBit_and, Nat.testBit_or]
        have a : O_RDWR.testBit 1 = true := by decide
        have b : O_ACCMODE.testBit 1 = true := by decide
        rw [a, b]
        simp
      rw [h] at h1
      exact absurd h1 (by decide)
    · rw [hnf, if_neg hb, hacc]
      rw [hw] at hb
      have : O_WRONLY = 1 := rfl
      omega
  · intro h
    have hb : ¬ (flags &&& O_WRONLY = O_WRONLY) := by
      rw [hw]
      rw [hacc] at h
      have a : O_WRONLY = 1 := rfl
      have b : O_RDONLY = 0 := rfl
      have c : O_RDWR = 2 := rfl
      omega
    rw [hnf, if_neg hb]
  · intro i hi
    by_cases hb : flags &&& O_WRONLY = O_WRONLY
    · rw [hnf, if_pos hb]
      exact rewrite_high_bits flags i hflags hi
    · rw [hnf, if_neg hb]

/-- Witness of C15: a write-only open with `O_TRUNC` is made read-write, `O_TRUNC` kept. -/
theorem openFilePair_flag_rewrite_witness :
    (O_WRONLY ||| O_TRUNC) < 4294967296 ∧
    (sys_malloc (stored helloWorld)).1 = true ∧
    (O_RDWR ||| O_TRUNC) =
      (if (O_WRONLY ||| O_TRUNC) &&& O_WRONLY = O_WRONLY
        then ((O_WRONLY ||| O_TRUNC) &&& compl32 O_WRONLY) ||| O_RDWR
        else O_WRONLY ||| O_TRUNC) ∧
    (∃ tail, (openFilePair (stored helloWorld) helloFull helloTemp
        (O_WRONLY ||| O_TRUNC)).2.trace =
        tail ++ Sys.sOpen helloFull (O_RDWR ||| O_TRUNC) :: (stored helloWorld).trace ∧
      ∀ ev ∈ tail, ev = Sys.sOpen helloTemp (O_RDWR ||| O_CREAT ||| O_TRUNC)) :=
  ⟨by decide, by decide, by decide,
   (openFilePair_flag_rewrite (stored helloWorld) helloFull helloTemp (O_WRONLY ||| O_TRUNC)
     (O_RDWR ||| O_TRUNC) (by decide) (by decide) (by decide)).1⟩

/-! ## What `enc_getattr` reports -/

theorem fail_errno (w : World) (e : Int) : (w.fail e).1 = -1 ∧ (w.fail e).2.errno = e :=
  ⟨rfl, rfl⟩

theorem sys_lstat_spec (w : World) (path : Path) (st : stat_t) :
    ((sys_lstat w path st).1 < 0 → 0 < (sys_lstat w path st).2.2.errno) ∧
    (¬ (sys_lstat w path st).1 < 0 →
      (sys_lstat w path st).1 = 0 ∧
      ∃ i f, w.names path = some i ∧ w.inodes i = some f ∧
        (sys_lstat w path st).2.1 = f.stat i) := by
  have hn := (enter_fields w (Sys.sLstat path)).1
  have hi := (enter_fields w (Sys.sLstat path)).2.1
  unfold sys_lstat
  generalize w.enter (Sys.sLstat path) = r at hn hi ⊢
  obtain ⟨f, w1⟩ := r
  dsimp only at hn hi ⊢
  cases f with
  | some e =>
    dsimp only [World.fail]
    refine ⟨fun _ => ?_, fun h => absurd (by decide) h⟩
    have := e.pos
    omega
  | none =>
    dsimp only
    rw [hn]
    cases hnm : w.names path with
    | none =>
      dsimp only [World.fail]
      exact ⟨fun _ => by decide, fun h => absurd (by decide) h⟩
    | some i =>
      dsimp only
      rw [hi]
      cases hino : w.inodes i with
      | none =>
        dsimp only [World.fail]
        exact ⟨fun _ => by decide, fun h => absurd (by decide) h⟩
      | some f =>
        dsimp only
        exact ⟨fun h => absurd h (by decide), fun _ => ⟨rfl, i, f, rfl, hino, rfl⟩⟩

theorem sys_fstat_neg (w : World) (fd : Int) (st : stat_t) :
    (sys_fstat w fd st).1 < 0 → 0 < (sys_fstat w fd st).2.2.errno := by
  unfold sys_fstat
  generalize w.enter (Sys.sFstat fd) = r
  obtain ⟨f, w1⟩ := r
  cases f with
  | some e =>
    dsimp only [World.fail]
    intro _
    have := e.pos
    omega
  | none =>
    dsimp only
    cases w1.file fd with
    | none =>
      dsimp only [World.fail]
      intro _
      decide
    | some p =>
      obtain ⟨k, f⟩ := p
      dsimp only
      cases w1.inodes f.ino with
      | none =>
        dsimp only [World.fail]
        intro _
        decide
      | some i =>
        dsimp only
        intro h
        exact absurd h (by decide)

/-- What `enc_getattr` stores when it returns 0, in terms of what its `lstat` stored. -/
theorem enc_getattr_fields (c : Cipher) (w : World) (P full : Path) (st : stat_t)
    (r : Int × stat_t × World)
    (hfull : buildPath w (some P) (some []) PATHBUFSIZE = (0, some full))
    (hr : enc_getattr c w (some P) st = r) (h0 : r.1 = 0) :
    (sys_lstat w full st).1 = 0 ∧
    r.2.1.st_ino = (sys_lstat w full st).2.1.st_ino ∧
    r.2.1.st_mode = (sys_lstat w full st).2.1.st_mode ∧
    r.2.1.st_nlink = (sys_lstat w full st).2.1.st_nlink ∧
    r.2.1.st_uid = (sys_lstat w full st).2.1.st_uid ∧
    r.2.1.st_gid = (sys_lstat w full st).2.1.st_gid ∧
    r.2.1.st_atime = (sys_lstat w full st).2.1.st_atime ∧
    r.2.1.st_mtime = (sys_lstat w full st).2.1.st_mtime ∧
    (S_ISREG (sys_lstat w full st).2.1.st_mode = false →
      r.2.1 = (sys_lstat w full st).2.1 ∧ r.2.2 = (sys_lstat w full st).2.2) := by
  have hl := sys_lstat_spec w full st
  unfold enc_getattr at hr
  rw [hfull] at hr
  dsimp only at hr
  rw [if_neg (by decide)] at hr
  simp only [Option.getD_some] at hr
  generalize sys_lstat w full st = r1 at hr hl ⊢
  obtain ⟨ret1, st1, w1⟩ := r1
  dsimp only at hr hl ⊢
  split at hr
  · rename_i hneg
    have := hl.1 hneg
    subst hr; dsimp only at h0; omega
  · rename_i hneg
    have hz := (hl.2 hneg).1
    split at hr
    · rename_i hreg
      generalize buildTempPath (some full) (some []) PATHBUFSIZE = r2 at hr
      obtain ⟨ret2, tp⟩ := r2
      dsimp only at hr
      split at hr
      · subst hr; dsimp only at h0; omega
      · generalize openFilePair w1 full (tp.getD []) O_RDONLY = r3 at hr
        obtain ⟨fhs, w3⟩ := r3
        dsimp only at hr
        cases fhs with
        | none => dsimp only at hr; subst hr; dsimp only at h0; exact absurd h0 (by decide)
        | some fhs =>
          dsimp only at hr
          generalize decryptFH c w3 fhs.encFH fhs.clearFH = r4 at hr
          obtain ⟨ret4, w4⟩ := r4
          dsimp only at hr
          split at hr
          · subst hr; dsimp only at h0; omega
          · have hfs := sys_fstat_neg w4 fhs.clearFH st1
            generalize sys_fstat w4 fhs.clearFH st1 = r5 at hr hfs
            obtain ⟨ret5, st5, w5⟩ := r5
            dsimp only at hr hfs
            split at hr
            · rename_i hneg5
              have := hfs hneg5
              subst hr; dsimp only at h0; omega
            · generalize closeFilePair w5 (some fhs) = r6 at hr
              obtain ⟨ret6, w6⟩ := r6
              dsimp only at hr
              split at hr
              · subst hr; dsimp only at h0; omega
              · generalize removeFile w6 (tp.getD []) = r7 at hr
                obtain ⟨ret7, w7⟩ := r7
                dsimp only at hr
                split at hr
                · subst hr; dsimp only at h0; omega
                · subst hr
                  refine ⟨hz, rfl, rfl, rfl, rfl, rfl, rfl, rfl, ?_⟩
                  intro hnr
                  rw [hnr] at hreg
                  exact absurd hreg (by decide)
    · subst hr
      exact ⟨hz, rfl, rfl, rfl, rfl, rfl, rfl, rfl, fun _ => ⟨rfl, rfl⟩⟩

/-- A run of `enc_getattr` on a regular file whose scratch name is free, no call failing. -/
theorem enc_getattr_reg_ok (c : Cipher) (w : World) (P full tmp : Path) (st : stat_t)
    {ie : Nat} {fe : Inode}
    (hf : w.faults = [])
    (hfull : buildPath w (some P) (some []) PATHBUFSIZE = (0, some full))
    (htmp : buildTempPath (some full) (some []) PATHBUFSIZE = (0, some tmp))
    (hn1 : w.names full = some ie) (hi : w.inodes ie = some fe)
    (hreg : S_ISREG fe.mode = true) (hlt : ie < w.next)
    (hn2 : w.names tmp = none) :
    ∃ w1,
      enc_getattr c w (some P) st =
        (0, { fe.stat ie with
              st_size := ((c.crypt_decrypt TESTKEY fe.data).2.length : Int),
              st_blksize :=
                (Inode.stat { newInode (S_IFREG ||| ((S_IRUSR ||| S_IWUSR) &&& 4095)) [] with
                  data := (c.crypt_decrypt TESTKEY fe.data).2 } (w.next + 1)).st_blksize,
              st_blocks :=
                (Inode.stat { newInode (S_IFREG ||| ((S_IRUSR ||| S_IWUSR) &&& 4095)) [] with
                  data := (c.crypt_decrypt TESTKEY fe.data).2 } (w.next + 1)).st_blocks },
         w1) := by
  obtain ⟨hne, hlen⟩ := buildTempPath_ok htmp
  obtain ⟨pd, nm, ino, ofl, fds, nx, er, fl, tr⟩ := w
  simp only at hf hn1 hn2 hi hlt ⊢
  subst hf
  have hie1 : ie ≠ nx + 1 := by omega
  unfold enc_getattr
  rw [hfull]
  dsimp only
  simp only [lt_self_iff_false, if_false, Option.getD_some]
  rw [sys_lstat_mk st hn1 hi]
  dsimp only
  have hm : (fe.stat ie).st_mode = fe.mode := rfl
  simp only [lt_self_iff_false, if_false, hm, hreg, if_true]
  rw [htmp]
  dsimp only
  obtain ⟨tr1, h1⟩ := openFilePair_new_mk (D := pd) (O := ofl) (F := fds)
    (X := nx) (E := er) (T := Sys.sLstat full :: tr) (L := O_RDONLY)
    hn1 hi hreg hn2 hlen (Or.inl rfl)
  simp only [lt_self_iff_false, if_false, Option.getD_some]
  rw [h1]
  dsimp only
  obtain ⟨tr2, h2⟩ := decryptFH_mk c (D := pd)
    (N := upd nm tmp (some (nx + 1)))
    (I := upd ino (nx + 1)
      (some (newInode (S_IFREG ||| ((S_IRUSR ||| S_IWUSR) &&& 4095)) [])))
    (O := upd (upd ofl nx
      (some { ino := ie, pos := 0, rd := true, wr := (O_RDONLY != O_RDONLY) }))
        (nx + 2) (some { ino := nx + 1, pos := 0, rd := true, wr := true }))
    (F := upd (upd fds nx (some nx)) (nx + 2) (some (nx + 2)))
    (X := nx + 3) (E := er) (T := tr1)
    (J := nx) (K := nx) (U := nx + 2) (V := nx + 2)
    (S := { ino := ie, pos := 0, rd := true, wr := (O_RDONLY != O_RDONLY) })
    (G := { ino := nx + 1, pos := 0, rd := true, wr := true })
    (Q := fe)
    (R := newInode (S_IFREG ||| ((S_IRUSR ||| S_IWUSR) &&& 4095)) [])
    (by simp [upd]) (by simp [upd]) rfl (by simp [upd]) (by simp [upd]) rfl (by omega)
    hie1 (by simp [upd, hie1, hi]) (by simp [upd]) (by omega) (by omega) (by simp) (by simp)
  rw [h2]
  dsimp only
  simp only [Nat.cast_ofNat, Int.Nat.cast_ofNat_Int, lt_self_iff_false, if_false,
    CharP.cast_eq_zero]
  rw [sys_fstat_mk (k := nx + 2) (f := { ino := nx + 1, pos := 0, rd := true, wr := true })
    (i := { newInode (S_IFREG ||| ((S_IRUSR ||| S_IWUSR) &&& 4095)) [] with
            data := (c.crypt_decrypt TESTKEY fe.data).2 }) _ ?_ ?_ ?_]
  rotate_left
  · simp only [upd]
    split_ifs <;> first | rfl | omega
  · simp [upd]
  · simp [upd]
  dsimp only
  simp only [lt_self_iff_false, if_false]
  rw [closeFilePair_mk (K := nx) (V := nx + 2)
    (S := { ino := ie, pos := 0, rd := true, wr := (O_RDONLY != O_RDONLY) })
    (G := { ino := nx + 1, pos := 0, rd := true, wr := true }) _ _ ?_ ?_ ?_ ?_ (by omega)]
  rotate_left
  · simp only [upd]
    split_ifs <;> first | rfl | omega
  · simp [upd]
  · simp only [upd]
    split_ifs <;> first | rfl | omega
  · simp [upd]
  dsimp only
  simp only [lt_self_iff_false, if_false]
  rw [removeFile_mk (i := nx + 1)
    (f := { newInode (S_IFREG ||| ((S_IRUSR ||| S_IWUSR) &&& 4095)) [] with
            data := (c.crypt_decrypt TESTKEY fe.data).2 }) ?_ ?_ ?_]
  rotate_left
  · simp [upd]
  · simp [upd]
  · exact S_ISREG_create _
  dsimp only
  simp only [lt_self_iff_false, if_false]
  exact ⟨_, rfl⟩

/-- What `enc_getattr` reports when it returns 0: its `lstat` of the backing
path returned 0, and the stat it stores has the inode, mode, link count, owner,
group and timestamps which that `lstat` stored; for a node that is not a
regular file it is exactly what `lstat` stored, under every schedule of failing
calls. For a regular file holding the ciphertext `f.data`, when no call fails
and the scratch name is free, `st_size`, `st_blksize` and `st_blocks` are those
of the `stat` of the scratch file holding the decryption. -/
theorem getattr_overlay (c : Cipher) (w : World) (P full tmp : Path) (st : stat_t)
    (hfull : buildPath w (some P) (some []) PATHBUFSIZE = (0, some full))
    (h0 : (enc_getattr c w (some P) st).1 = 0) :
    (sys_lstat w full st).1 = 0 ∧
    (enc_getattr c w (some P) st).2.1.st_ino = (sys_lstat w full st).2.1.st_ino ∧
    (enc_getattr c w (some P) st).2.1.st_mode = (sys_lstat w full st).2.1.st_mode ∧
    (enc_getattr c w (some P) st).2.1.st_nlink = (sys_lstat w full st).2.1.st_nlink ∧
    (enc_getattr c w (some P) st).2.1.st_uid = (sys_lstat w full st).2.1.st_uid ∧
    (enc_getattr c w (some P) st).2.1.st_gid = (sys_lstat w full st).2.1.st_gid ∧
    (enc_getattr c w (some P) st).2.1.st_atime = (sys_lstat w full st).2.1.st_atime ∧
    (enc_getattr c w (some P) st).2.1.st_mtime = (sys_lstat w full st).2.1.st_mtime ∧
    (S_ISREG (sys_lstat w full st).2.1.st_mode = false →
      (enc_getattr c w (some P) st).2.1 = (sys_lstat w full st).2.1) ∧
    (∀ i f, w.names full = some i → w.inodes i = some f → S_ISREG f.mode = true →
      i < w.next → w.faults = [] →
      buildTempPath (some full) (some []) PATHBUFSIZE = (0, some tmp) → w.names tmp = none →
      (enc_getattr c w (some P) st).2.1.st_size =
        ((c.crypt_decrypt TESTKEY f.data).2.length : Int) ∧
      (enc_getattr c w (some P) st).2.1.st_blksize =
        (Inode.stat { newInode (S_IFREG ||| ((S_IRUSR ||| S_IWUSR) &&& 4095)) [] with
          data := (c.crypt_decrypt TESTKEY f.data).2 } (w.next + 1)).st_blksize ∧
      (enc_getattr c w (some P) st).2.1.st_blocks =
        (Inode.stat { newInode (S_IFREG ||| ((S_IRUSR ||| S_IWUSR) &&& 4095)) [] with
          data := (c.crypt_decrypt TESTKEY f.data).2 } (w.next + 1)).st_blocks) := by
  obtain ⟨a, b1, b2, b3, b4, b5, b6, b7, b8⟩ :=
    enc_getattr_fields c w P full st _ hfull rfl h0
  refine ⟨a, b1, b2, b3, b4, b5, b6, b7, fun h => (b8 h).1, ?_⟩
  intro i f hn hi hreg hlt hf htmp hn2
  obtain ⟨w1, h1⟩ := enc_getattr_reg_ok c w P full tmp st hf hfull htmp hn hi hreg hlt hn2
  rw [h1]
  exact ⟨rfl, rfl, rfl⟩

/-- The stored file `hello world` is reported with size 11 and mode 0644. -/
theorem getattr_overlay_witness :
    buildPath (stored helloWorld) (some helloPath) (some []) PATHBUFSIZE = (0, some helloFull) ∧
    (enc_getattr demoCipher (stored helloWorld) (some helloPath) st0).1 = 0 ∧
    (enc_getattr demoCipher (stored helloWorld) (some helloPath) st0).2.1.st_mode =
      (sys_lstat (stored helloWorld) helloFull st0).2.1.st_mode ∧
    (enc_getattr demoCipher (stored helloWorld) (some helloPath) st0).2.1.st_size = 11 :=
  ⟨by decide, by decide,
   (getattr_overlay demoCipher (stored helloWorld) helloPath helloFull helloTemp st0
     (by decide) (by decide)).2.2.1,
   by decide⟩

/-- Claim C16, evaluated: the stored file `/hello.txt` holds the ciphertext of
the 11 bytes `hello world`. With no failing call `enc_getattr` returns 0 with
`st_size` 11. When the `dup` of the ciphertext handle inside `decryptFH` fails
with `EMFILE`, `enc_getattr` still returns 0, with the mode of the backing file
and `st_size` 0: the size of the scratch file that was never filled. -/
theorem getattr_masks_failed_decrypt :
    (stored helloWorld).bytesAt helloFull =
      some (demoCipher.crypt_encrypt TESTKEY helloWorld).2 ∧
    (demoCipher.crypt_decrypt TESTKEY (demoCipher.crypt_encrypt TESTKEY helloWorld).2).2.length
      = 11 ∧
    (enc_getattr demoCipher (stored helloWorld) (some helloPath) st0).1 = 0 ∧
    (enc_getattr demoCipher (stored helloWorld) (some helloPath) st0).2.1.st_size = 11 ∧
    (let w := (stored helloWorld).withFaults
       [none, none, none, none, none, none, none, none, none, some faultEMFILE]
     let g := enc_getattr demoCipher w (some helloPath) st0
     g.1 = 0 ∧ S_ISREG g.2.1.st_mode = true ∧ g.2.1.st_size = 0) := by
  decide

/-! ## The dirty flag -/

theorem enc_create_clears_dirty (c : Cipher) (w : World) (P : Option Path) (mode : Nat)
    (fi : fuse_file_info) (r : Int × fuse_file_info × World)
    (hr : enc_create c w P mode fi = r) (h0 : r.1 = 0) : r.2.1.fh.dirty = FHS_CLEAN := by
  unfold enc_create at hr
  generalize buildPath w P (some []) PATHBUFSIZE = r0 at hr
  obtain ⟨ret0, fp⟩ := r0
  dsimp only at hr
  split at hr
  · subst hr; dsimp only at h0; omega
  · generalize buildTempPath fp (some []) PATHBUFSIZE = r1 at hr
    obtain ⟨ret1, tp⟩ := r1
    dsimp only at hr
    split at hr
    · subst hr; dsimp only at h0; omega
    · generalize createFilePair w (fp.getD []) (tp.getD []) fi.flags mode = r2 at hr
      obtain ⟨fhs, w2⟩ := r2
      dsimp only at hr
      cases fhs with
      | none => dsimp only at hr; subst hr; dsimp only at h0; exact absurd h0 (by decide)
      | some fhs =>
        dsimp only at hr
        generalize encryptFH c w2 fhs.clearFH fhs.encFH = r3 at hr
        obtain ⟨ret3, w3⟩ := r3
        dsimp only at hr
        split at hr
        · subst hr; dsimp only at h0; omega
        · subst hr; rfl

theorem enc_open_clears_dirty (c : Cipher) (w : World) (P : Option Path)
    (fi : fuse_file_info) (r : Int × fuse_file_info × World)
    (hr : enc_open c w P fi = r) (h0 : r.1 = 0) : r.2.1.fh.dirty = FHS_CLEAN := by
  unfold enc_open at hr
  generalize buildPath w P (some []) PATHBUFSIZE = r0 at hr
  obtain ⟨ret0, fp⟩ := r0
  dsimp only at hr
  split at hr
  · subst hr; dsimp only at h0; omega
  · generalize buildTempPath fp (some []) PATHBUFSIZE = r1 at hr
    obtain ⟨ret1, tp⟩ := r1
    dsimp only at hr
    split at hr
    · subst hr; dsimp only at h0; omega
    · generalize openFilePair w (fp.getD []) (tp.getD []) fi.flags = r2 at hr
      obtain ⟨fhs, w2⟩ := r2
      dsimp only at hr
      cases fhs with
      | none => dsimp only at hr; subst hr; dsimp only at h0; exact absurd h0 (by decide)
      | some fhs =>
        dsimp only at hr
        generalize decryptFH c w2 fhs.encFH fhs.clearFH = r3 at hr
        obtain ⟨ret3, w3⟩ := r3
        dsimp only at hr
        split at hr
        · subst hr; dsimp only at h0; omega
        · subst hr; rfl

theorem enc_write_sets_dirty (w : World) (buf : Bytes) (size : Nat) (offset : Int)
    (fi : fuse_file_info) : (enc_write w buf size offset fi).2.1.fh.dirty = FHS_DIRTY := by
  unfold enc_write
  generalize sys_pwrite w fi.fh.clearFH buf size offset = r0
  obtain ⟨x, w1⟩ := r0
  dsimp only
  split <;> rfl

theorem enc_flush_clears_dirty (c : Cipher) (w : World) (fi : fuse_file_info)
    (r : Int × Option fuse_file_info × World)
    (hd : fi.fh.dirty = FHS_CLEAN ∨ fi.fh.dirty = FHS_DIRTY)
    (hr : enc_flush c w (some fi) = r) (h0 : r.1 = 0) :
    r.2.1.map (fun f => f.fh.dirty) = some FHS_CLEAN := by
  unfold enc_flush at hr
  dsimp only at hr
  by_cases hdirty : fi.fh.dirty = FHS_DIRTY
  · rw [if_pos hdirty] at hr
    generalize encryptFH c w fi.fh.clearFH fi.fh.encFH = r3 at hr
    obtain ⟨ret3, w3⟩ := r3
    dsimp only at hr
    by_cases hneg : ret3 < 0
    · rw [if_pos hneg] at hr
      dsimp only at hr
      rw [if_pos hneg] at hr
      subst hr; dsimp only at h0; omega
    · rw [if_neg hneg] at hr
      dsimp only at hr
      rw [if_neg (by decide)] at hr
      repeat' split at hr
      all_goals subst hr
      all_goals rfl
  · have hclean : fi.fh.dirty = FHS_CLEAN := by
      rcases hd with h | h
      · exact h
      · exact absurd h hdirty
    rw [if_neg hdirty] at hr
    dsimp only at hr
    rw [if_neg (by decide)] at hr
    repeat' split at hr
    all_goals subst hr
    all_goals simp [hclean]

theorem enc_fsync_clears_dirty (c : Cipher) (w : World) (isdatasync : Int) (fi : fuse_file_info)
    (r : Int × Option fuse_file_info × World)
    (hd : fi.fh.dirty = FHS_CLEAN ∨ fi.fh.dirty = FHS_DIRTY)
    (hr : enc_fsync c w isdatasync (some fi) = r) (h0 : r.1 = 0) :
    r.2.1.map (fun f => f.fh.dirty) = some FHS_CLEAN := by
  unfold enc_fsync at hr
  dsimp only at hr
  by_cases hdirty : fi.fh.dirty = FHS_DIRTY
  · rw [if_pos hdirty] at hr
    generalize encryptFH c w fi.fh.clearFH fi.fh.encFH = r3 at hr
    obtain ⟨ret3, w3⟩ := r3
    dsimp only at hr
    by_cases hneg : ret3 < 0
    · rw [if_pos hneg] at hr
      dsimp only at hr
      rw [if_pos hneg] at hr
      subst hr; dsimp only at h0; omega
    · rw [if_neg hneg] at hr
      dsimp only at hr
      rw [if_neg (by decide)] at hr
      repeat' split at hr
      all_goals subst hr
      all_goals rfl
  · have hclean : fi.fh.dirty = FHS_CLEAN := by
      rcases hd with h | h
      · exact h
      · exact absurd h hdirty
    rw [if_neg hdirty] at hr
    dsimp only at hr
    rw [if_neg (by decide)] at hr
    repeat' split at hr
    all_goals subst hr
    all_goals simp [hclean]

/-- Claim C17 (dirty-flag protocol): in every world and for every schedule of
failing calls, `dirty` is `FHS_CLEAN` after an `enc_create` or an `enc_open`
that returns 0, `FHS_DIRTY` after an `enc_write` that does not fail, and
`FHS_CLEAN` after an `enc_flush` or `enc_fsync` that returns 0 on a session
whose flag was `FHS_CLEAN` or `FHS_DIRTY`; `enc_read`, `enc_ftruncate`,
`enc_fgetattr`, `enc_lock` and `enc_flock` leave it as it was. -/
theorem dirty_flag_protocol (c : Cipher) (w : World) (P : Option Path) (mode : Nat)
    (fi : fuse_file_info)
    (hd : fi.fh.dirty = FHS_CLEAN ∨ fi.fh.dirty = FHS_DIRTY) :
    ((enc_create c w P mode fi).1 = 0 →
      (enc_create c w P mode fi).2.1.fh.dirty = FHS_CLEAN) ∧
    ((enc_open c w P fi).1 = 0 → (enc_open c w P fi).2.1.fh.dirty = FHS_CLEAN) ∧
    (∀ buf size offset, 0 ≤ (enc_write w buf size offset fi).1 →
      (enc_write w buf size offset fi).2.1.fh.dirty = FHS_DIRTY) ∧
    ((enc_flush c w (some fi)).1 = 0 →
      (enc_flush c w (some fi)).2.1.map (fun f => f.fh.dirty) = some FHS_CLEAN) ∧
    (∀ isdatasync, (enc_fsync c w isdatasync (some fi)).1 = 0 →
      (enc_fsync c w isdatasync (some fi)).2.1.map (fun f => f.fh.dirty) = some FHS_CLEAN) ∧
    (∀ size offset, (enc_oper c w fi (.read size offset)).2.1.fh.dirty = fi.fh.dirty) ∧
    (∀ size, (enc_oper c w fi (.ftruncate size)).2.1.fh.dirty = fi.fh.dirty) ∧
    (∀ stbuf, (enc_oper c w fi (.fgetattr stbuf)).2.1.fh.dirty = fi.fh.dirty) ∧
    (∀ cmd, (enc_oper c w fi (.lock cmd)).2.1.fh.dirty = fi.fh.dirty) ∧
    (∀ op, (enc_oper c w fi (.flock op)).2.1.fh.dirty = fi.fh.dirty) :=
  ⟨enc_create_clears_dirty c w P mode fi _ rfl, enc_open_clears_dirty c w P fi _ rfl,
   fun buf size offset _ => enc_write_sets_dirty w buf size offset fi,
   enc_flush_clears_dirty c w fi _ hd rfl, fun d => enc_fsync_clears_dirty c w d fi _ hd rfl,
   fun _ _ => rfl, fun _ => rfl, fun _ => rfl, fun _ => rfl, fun _ => rfl⟩

/-- Witness of C17: the session of scenario S1, from create to flush. -/
theorem dirty_flag_protocol_witness :
    ((dirtySession bytesX).1.fh.dirty = FHS_CLEAN ∨
      (dirtySession bytesX).1.fh.dirty = FHS_DIRTY) ∧
    (enc_flush demoCipher (dirtySession bytesX).2 (some (dirtySession bytesX).1)).1 = 0 ∧
    (enc_flush demoCipher (dirtySession bytesX).2
      (some (dirtySession bytesX).1)).2.1.map (fun f => f.fh.dirty) = some FHS_CLEAN ∧
    (enc_create demoCipher world0 (some helloPath) 420 (fi0 (O_CREAT ||| O_WRONLY))).1 = 0 ∧
    (enc_create demoCipher world0 (some helloPath) 420
      (fi0 (O_CREAT ||| O_WRONLY))).2.1.fh.dirty = FHS_CLEAN :=
  ⟨by decide, by decide,
   (dirty_flag_protocol demoCipher (dirtySession bytesX).2 (some helloPath) 420
     (dirtySession bytesX).1 (by decide)).2.2.2.1 (by decide),
   by decide,
   (dirty_flag_protocol demoCipher world0 (some helloPath) 420 (fi0 (O_CREAT ||| O_WRONLY))
     (by decide)).1 (by decide)⟩

/-! ## Offsets across the transforms -/

section Run2
variable {D : Option fsState_t} {N : Path → Option Nat} {I : Nat → Option Inode}
  {O : Nat → Option OpenFile} {F : Nat → Option Nat} {X : Nat} {E : Int} {T : List Sys}

theorem sys_ftruncate_any_mk {n k : Nat} {f : OpenFile} (len : Int)
    (hfd : F n = some k) (ho : O k = some f) :
    ∃ r I1 E1, sys_ftruncate (World.mk D N I O F X E [] T) (n : Int) len =
      (r, World.mk D N I1 O F X E1 [] (Sys.sFtruncate n len :: T)) := by
  have hneg : ¬ ((n : Int) < 0) := by omega
  by_cases hc : (!f.wr) = true ∨ len < 0
  · refine ⟨-1, I, EINVAL, ?_⟩
    simp [sys_ftruncate, World.enter, World.file, hfd, ho, hneg, World.fail]
    intro h1
    rcases hc with h | h
    · simp [h1] at h
    · exact h
  · have hc1 : f.wr = true := by
      cases hw : f.wr with
      | true => rfl
      | false => exact absurd (Or.inl (by simp [hw])) hc
    have hc2 : ¬ len < 0 := fun h => hc (Or.inr h)
    cases hi : I f.ino with
    | none =>
      refine ⟨0, I, E, ?_⟩
      simp [sys_ftruncate, World.enter, World.file, hfd, ho, hneg, hc1, hc2,
        World.setData, World.dataOf, hi]
    | some i =>
      refine ⟨0, upd I f.ino (some { i with data := resize i.data len.toNat }), E, ?_⟩
      simp [sys_ftruncate, World.enter, World.file, hfd, ho, hneg, hc1, hc2,
        World.setData, World.dataOf, hi]

theorem sys_fdopen_any_mk {n k : Nat} {f : OpenFile} (writing : Bool)
    (hfd : F n = some k) (ho : O k = some f) :
    ∃ r E1, sys_fdopen (World.mk D N I O F X E [] T) (n : Int) writing =
      (r, World.mk D N I O F X E1 [] (Sys.sFdopen n :: T)) ∧ (r = none ∨ r = some (n : Int)) := by
  have hneg : ¬ ((n : Int) < 0) := by omega
  by_cases hc : ((writing && !f.wr) || (!writing && !f.rd)) = true
  · refine ⟨none, EINVAL, ?_, Or.inl rfl⟩
    simp only [sys_fdopen, World.enter, World.file, Int.toNat_ofNat, hfd, ho, hneg, if_false,
      hc, if_true, World.fail]
  · refine ⟨some (n : Int), E, ?_, Or.inr rfl⟩
    simp only [sys_fdopen, World.enter, World.file, Int.toNat_ofNat, hfd, ho, hneg, if_false]
    rw [if_neg hc]

theorem sys_crypt_any_mk (g : Bytes → Bytes → Int × Bytes) {J K U V : Nat} {S G : OpenFile}
    (key : Bytes)
    (hs : F J = some K) (hso : O K = some S)
    (hd : F U = some V) (hdo : O V = some G) (hk : V ≠ K) :
    ∃ r I1 p q, sys_crypt (World.mk D N I O F X E [] T) g (J : Int) (U : Int) key =
      (r, World.mk D N I1
        (upd (upd O K (some { S with pos := p })) V (some { G with pos := q }))
        F X E [] (Sys.sCrypt J U :: T)) := by
  have hneg : ¬ ((J : Int) < 0) := by omega
  have hneg2 : ¬ ((U : Int) < 0) := by omega
  cases hq : I S.ino with
  | none =>
    cases hi : I G.ino with
    | none =>
      refine ⟨(g key (([] : Bytes).drop S.pos)).1, I, max S.pos 0,
        G.pos + (g key (([] : Bytes).drop S.pos)).2.length, ?_⟩
      simp [sys_crypt, World.file, hs, hso, hd, hdo, hneg, hneg2, upd, hk, World.setData,
        World.dataOf, hi, hq]
    | some i =>
      refine ⟨(g key (([] : Bytes).drop S.pos)).1,
        upd I G.ino (some { i with
          data := writeAt i.data G.pos (g key (([] : Bytes).drop S.pos)).2 }),
        max S.pos 0, G.pos + (g key (([] : Bytes).drop S.pos)).2.length, ?_⟩
      simp [sys_crypt, World.file, hs, hso, hd, hdo, hneg, hneg2, upd, hk, World.setData,
        World.dataOf, hi, hq]
  | some Q =>
    cases hi : I G.ino with
    | none =>
      refine ⟨(g key (Q.data.drop S.pos)).1, I, max S.pos Q.data.length,
        G.pos + (g key (Q.data.drop S.pos)).2.length, ?_⟩
      simp [sys_crypt, World.file, hs, hso, hd, hdo, hneg, hneg2, upd, hk, World.setData,
        World.dataOf, hi, hq]
    | some i =>
      refine ⟨(g key (Q.data.drop S.pos)).1,
        upd I G.ino (some { i with data := writeAt i.data G.pos (g key (Q.data.drop S.pos)).2 }),
        max S.pos Q.data.length, G.pos + (g key (Q.data.drop S.pos)).2.length, ?_⟩
      simp [sys_crypt, World.file, hs, hso, hd, hdo, hneg, hneg2, upd, hk, World.setData,
        World.dataOf, hi, hq]

theorem encryptFH_cleanup2_any {J K U V : Nat} {S G : OpenFile} (ret : Int)
    (ps pd1 : Nat)
    (hs : F J = some K) (hso : O K = some S)
    (hd : F U = some V) (hdo : O V = some G) (hk : V ≠ K) :
    ∃ r, encryptFH_cleanup2 (World.mk D N I O F X E [] T) ret (J : Int) (U : Int)
        (ps : Int) (pd1 : Int) =
      (r,
       World.mk D N I
         (upd (upd O V (some { G with pos := pd1 })) K (some { S with pos := ps }))
         F X E []
         (Sys.sLseek J ps SEEK_SET :: Sys.sLseek U pd1 SEEK_SET :: T)) := by
  unfold encryptFH_cleanup2
  rw [sys_lseek_set_mk (k := V) (f := G) hd hdo (by omega)]
  dsimp only
  unfold encryptFH_cleanup1
  rw [sys_lseek_set_mk (k := K) (f := S) hs ?_ (by omega)]
  rotate_left
  · simp [upd, hk.symm, hso]
  dsimp only
  simp only [Int.toNat_ofNat]
  split
  · exact ⟨_, rfl⟩
  · exact ⟨_, rfl⟩

theorem encryptFH_cleanup4_any {J K U V n k : Nat} {S G f : OpenFile} (ret : Int)
    (ps pd1 : Nat)
    (hs : F J = some K) (hso : O K = some S)
    (hd : F U = some V) (hdo : O V = some G) (hk : V ≠ K)
    (h1 : F n = some k) (ho1 : O k = some f) (hn1 : n ≠ J) (hn2 : n ≠ U) :
    ∃ r T1, encryptFH_cleanup4 (World.mk D N I O F X E [] T) ret (J : Int) (U : Int)
        (ps : Int) (pd1 : Int) (n : Int) =
      (r,
       World.mk D N I
         (upd (upd O V (some { G with pos := pd1 })) K (some { S with pos := ps }))
         (upd F n none) X E [] T1) := by
  unfold encryptFH_cleanup4
  rw [sys_close_mk (k := k) (f := f) h1 ho1]
  dsimp only
  obtain ⟨r, h⟩ := encryptFH_cleanup2_any (D := D) (N := N) (I := I) (O := O)
    (F := upd F n none) (X := X) (E := E) (T := Sys.sClose n :: T)
    (J := J) (U := U) (K := K) (V := V) (S := S) (G := G) ret ps pd1
    (by simp [upd, hn1.symm, hs]) hso (by simp [upd, hn2.symm, hd]) hdo hk
  simp only [Int.natCast_eq_zero, ne_eq]
  exact ⟨r, _, h⟩

theorem encryptFH_cleanup5_any {J K U V n k : Nat} {S G f : OpenFile} (ret : Int)
    (ps pd1 : Nat)
    (hs : F J = some K) (hso : O K = some S)
    (hd : F U = some V) (hdo : O V = some G) (hk : V ≠ K)
    (h1 : F n = some k) (ho1 : O k = some f) (hn1 : n ≠ J) (hn2 : n ≠ U) :
    ∃ r T1, encryptFH_cleanup5 (World.mk D N I O F X E [] T) ret (J : Int) (U : Int)
        (ps : Int) (pd1 : Int) (n : Int) =
      (r,
       World.mk D N I
         (upd (upd O V (some { G with pos := pd1 })) K (some { S with pos := ps }))
         (upd F n none) X E [] T1) := by
  unfold encryptFH_cleanup5
  rw [sys_fclose_mk (k := k) (f := f) h1 ho1]
  dsimp only
  obtain ⟨r, h⟩ := encryptFH_cleanup2_any (D := D) (N := N) (I := I) (O := O)
    (F := upd F n none) (X := X) (E := E) (T := Sys.sFclose n :: T)
    (J := J) (U := U) (K := K) (V := V) (S := S) (G := G) ret ps pd1
    (by simp [upd, hn1.symm, hs]) hso (by simp [upd, hn2.symm, hd]) hdo hk
  simp only [Int.natCast_eq_zero, ne_eq]
  exact ⟨r, _, h⟩

/-- The transform `encryptFH` on two open descriptors with distinct open file
descriptions, no call failing for an outside reason: whatever the cipher
returns and whatever the access modes, the table of open file descriptions,
and so both offsets, is afterwards what it was. -/
theorem encryptFH_offsets_mk (c : Cipher) {J K U V : Nat} {S G : OpenFile}
    (hs : F J = some K) (hso : O K = some S)
    (hd : F U = some V) (hdo : O V = some G) (hk : V ≠ K)
    (hns : J < X) (hnd : U < X) :
    ∃ r I1 F1 X1 E1 T1, encryptFH c (World.mk D N I O F X E [] T) (J : Int) (U : Int) =
        (r, World.mk D N I1 O F1 X1 E1 [] T1) ∧
      F1 J = some K ∧ F1 U = some V ∧ X ≤ X1 := by
  have p0 : ¬ ((S.pos : Int) < 0) := by omega
  have p1 : ¬ ((G.pos : Int) < 0) := by omega
  have z0 : int32 0 = 0 := by decide
  have hnx1 : X ≠ J := by omega
  have hnx2 : X ≠ U := by omega
  have hnx3 : X + 1 ≠ J := by omega
  have hnx4 : X + 1 ≠ U := by omega
  have hks : K ≠ V := fun h => hk h.symm
  have final : ∀ (O2 : Nat → Option OpenFile) (p q : Nat),
      O2 K = some { S with pos := p } → O2 V = some { G with pos := q } →
      (∀ k, k ≠ K → k ≠ V → O2 k = O k) →
      upd (upd O2 V (some { ino := G.ino, pos := G.pos, rd := G.rd, wr := G.wr })) K
        (some { ino := S.ino, pos := S.pos, rd := S.rd, wr := S.wr }) = O := by
    intro O2 p q h1 h2 h3
    funext k
    simp only [upd]
    split_ifs with a1 a2
    · rw [a1, hso]
    · rw [a2, hdo]
    · exact h3 k a1 a2
  unfold encryptFH
  rw [sys_lseek_cur_mk hs hso]
  dsimp only
  rw [sys_lseek_set_mk (k := K) (f := S) hs ?_ (le_refl 0)]
  rotate_left
  · simp [upd]
  dsimp only
  rw [sys_lseek_cur_mk (k := V) (f := G) hd ?_]
  rotate_left
  · simp [upd, hk, hdo]
  dsimp only
  rw [sys_lseek_set_mk (k := V) (f := G) hd ?_ (le_refl 0)]
  rotate_left
  · simp [upd]
  dsimp only
  simp only [p0, p1, z0, lt_self_iff_false, if_false]
  obtain ⟨r5, I5, E5, h5⟩ := sys_ftruncate_any_mk (D := D) (N := N) (I := I)
    (O := upd (upd (upd (upd O K (some S)) K (some { S with pos := (0 : Int).toNat })) V
      (some G)) V (some { G with pos := (0 : Int).toNat }))
    (F := F) (X := X) (E := E)
    (T := Sys.sLseek U 0 SEEK_SET :: Sys.sLseek U 0 SEEK_CUR :: Sys.sLseek J 0 SEEK_SET ::
      Sys.sLseek J 0 SEEK_CUR :: T)
    (n := U) (k := V) (f := { G with pos := (0 : Int).toNat }) 0 hd (by simp [upd])
  rw [h5]
  dsimp only
  by_cases hr5 : r5 < 0
  · simp only [hr5, if_true]
    obtain ⟨r, h⟩ := encryptFH_cleanup2_any (D := D) (N := N) (I := I5)
      (O := upd (upd (upd (upd O K (some S)) K (some { S with pos := (0 : Int).toNat })) V
        (some G)) V (some { G with pos := (0 : Int).toNat }))
      (F := F) (X := X) (E := E5)
      (T := Sys.sFtruncate U 0 :: Sys.sLseek U 0 SEEK_SET :: Sys.sLseek U 0 SEEK_CUR ::
        Sys.sLseek J 0 SEEK_SET :: Sys.sLseek J 0 SEEK_CUR :: T)
      (J := J) (U := U) (K := K) (V := V) (S := { S with pos := (0 : Int).toNat })
      (G := { G with pos := (0 : Int).toNat }) (-E5) S.pos G.pos
      hs (by simp [upd, hks]) hd (by simp [upd]) hk
    rw [h]
    rw [final _ 0 0 (by simp [upd, hks]) (by simp [upd])
      (by intro k a1 a2; simp [upd, a1, a2])]
    exact ⟨_, _, _, _, _, _, rfl, hs, hd, le_refl _⟩
  · simp only [hr5, if_false]
    rw [sys_dup_mk (k := K) (f := { S with pos := (0 : Int).toNat }) hs ?_]
    rotate_left
    · simp [upd, hks]
    dsimp only
    obtain ⟨r7, E7, h7, hr7⟩ := sys_fdopen_any_mk (D := D) (N := N) (I := I5)
      (O := upd (upd (upd (upd O K (some S)) K (some { S with pos := (0 : Int).toNat })) V
        (some G)) V (some { G with pos := (0 : Int).toNat }))
      (F := upd F X (some K)) (X := X + 1) (E := E5)
      (T := Sys.sDup J :: Sys.sFtruncate U 0 :: Sys.sLseek U 0 SEEK_SET ::
        Sys.sLseek U 0 SEEK_CUR :: Sys.sLseek J 0 SEEK_SET :: Sys.sLseek J 0 SEEK_CUR :: T)
      (n := X) (k := K) (f := { S with pos := (0 : Int).toNat }) false
      (by simp [upd]) (by simp [upd, hks])
    rw [h7]
    dsimp only
    rcases hr7 with hr7 | hr7
    · subst hr7
      dsimp only
      obtain ⟨r, T1, h⟩ := encryptFH_cleanup4_any (D := D) (N := N) (I := I5)
        (O := upd (upd (upd (upd O K (some S)) K (some { S with pos := (0 : Int).toNat })) V
          (some G)) V (some { G with pos := (0 : Int).toNat }))
        (F := upd F X (some K)) (X := X + 1) (E := E7)
        (T := Sys.sFdopen X :: Sys.sDup J :: Sys.sFtruncate U 0 :: Sys.sLseek U 0 SEEK_SET ::
          Sys.sLseek U 0 SEEK_CUR :: Sys.sLseek J 0 SEEK_SET :: Sys.sLseek J 0 SEEK_CUR :: T)
        (J := J) (U := U) (K := K) (V := V) (n := X) (k := K)
        (S := { S with pos := (0 : Int).toNat })
        (G := { G with pos := (0 : Int).toNat }) (f := { S with pos := (0 : Int).toNat })
        (-E7) S.pos G.pos
        (by simp [upd, hnx1.symm, hs]) (by simp [upd, hks])
        (by simp [upd, hnx2.symm, hd]) (by simp [upd]) hk
        (by simp [upd]) (by simp [upd, hks]) hnx1 hnx2
      rw [h]
      rw [final _ 0 0 (by simp [upd, hks]) (by simp [upd])
        (by intro k a1 a2; simp [upd, a1, a2])]
      exact ⟨_, _, _, _, _, _, rfl, by simp [upd, hnx1.symm, hs],
        by simp [upd, hnx2.symm, hd], by omega⟩
    · subst hr7
      dsimp only
      rw [sys_dup_mk (k := V) (f := { G with pos := (0 : Int).toNat }) ?_ ?_]
      rotate_left
      · simp [upd, hnx2.symm, hd]
      · simp [upd]
      dsimp only
      obtain ⟨r9, E9, h9, hr9⟩ := sys_fdopen_any_mk (D := D) (N := N) (I := I5)
        (O := upd (upd (upd (upd O K (some S)) K (some { S with pos := (0 : Int).toNat })) V
          (some G)) V (some { G with pos := (0 : Int).toNat }))
        (F := upd (upd F X (some K)) (X + 1) (some V)) (X := X + 1 + 1) (E := E7)
        (T := Sys.sDup U :: Sys.sFdopen X :: Sys.sDup J :: Sys.sFtruncate U 0 ::
          Sys.sLseek U 0 SEEK_SET :: Sys.sLseek U 0 SEEK_CUR :: Sys.sLseek J 0 SEEK_SET ::
          Sys.sLseek J 0 SEEK_CUR :: T)
        (n := X + 1) (k := V) (f := { G with pos := (0 : Int).toNat }) true
        (by simp [upd]) (by simp [upd])
      rw [h9]
      dsimp only
      rcases hr9 with hr9 | hr9
      · subst hr9
        dsimp only
        unfold encryptFH_cleanup6
        rw [sys_close_mk (k := V) (f := { G with pos := (0 : Int).toNat }) ?_ ?_]
        rotate_left
        · simp [upd]
        · simp [upd]
        dsimp only
        obtain ⟨r, T1, h⟩ := encryptFH_cleanup5_any (D := D) (N := N) (I := I5)
          (O := upd (upd (upd (upd O K (some S)) K (some { S with pos := (0 : Int).toNat }))
            V (some G)) V (some { G with pos := (0 : Int).toNat }))
          (F := upd (upd (upd F X (some K)) (X + 1) (some V)) (X + 1) none)
          (X := X + 1 + 1) (E := E9)
          (T := Sys.sClose (X + 1 : Nat) :: Sys.sFdopen (X + 1 : Nat) :: Sys.sDup U ::
            Sys.sFdopen X :: Sys.sDup J ::
            Sys.sFtruncate U 0 :: Sys.sLseek U 0 SEEK_SET :: Sys.sLseek U 0 SEEK_CUR ::
            Sys.sLseek J 0 SEEK_SET :: Sys.sLseek J 0 SEEK_CUR :: T)
          (J := J) (U := U) (K := K) (V := V) (n := X) (k := K)
          (S := { S with pos := (0 : Int).toNat })
          (G := { G with pos := (0 : Int).toNat }) (f := { S with pos := (0 : Int).toNat })
          (if (0 : Int) ≠ 0 then -E9 else -E9) S.pos G.pos
          (by simp [upd, hnx1.symm, hnx3.symm, hs]) (by simp [upd, hks])
          (by simp [upd, hnx2.symm, hnx4.symm, hd]) (by simp [upd]) hk
          (by simp [upd]) (by simp [upd, hks]) hnx1 hnx2
        simp only [ne_eq, not_true_eq_false, if_false] at h ⊢
        rw [h]
        rw [final _ 0 0 (by simp [upd, hks]) (by simp [upd])
          (by intro k a1 a2; simp [upd, a1, a2])]
        exact ⟨_, _, _, _, _, _, rfl, by simp [upd, hnx1.symm, hnx3.symm, hs],
          by simp [upd, hnx2.symm, hnx4.symm, hd], by omega⟩
      · subst hr9
        dsimp only
        obtain ⟨r10, I10, p10, q10, h10⟩ := sys_crypt_any_mk (D := D) (N := N) (I := I5)
          (O := upd (upd (upd (upd O K (some S)) K (some { S with pos := (0 : Int).toNat }))
            V (some G)) V (some { G with pos := (0 : Int).toNat }))
          (F := upd (upd F X (some K)) (X + 1) (some V)) (X := X + 1 + 1) (E := E9)
          (T := Sys.sFdopen (X + 1 : Nat) :: Sys.sDup U :: Sys.sFdopen X :: Sys.sDup J ::
            Sys.sFtruncate U 0 :: Sys.sLseek U 0 SEEK_SET :: Sys.sLseek U 0 SEEK_CUR ::
            Sys.sLseek J 0 SEEK_SET :: Sys.sLseek J 0 SEEK_CUR :: T)
          c.crypt_encrypt (J := X) (K := K) (U := X + 1) (V := V)
          (S := { S with pos := (0 : Int).toNat }) (G := { G with pos := (0 : Int).toNat })
          TESTKEY (by simp [upd]) (by simp [upd, hks]) (by simp [upd]) (by simp [upd]) hk
        rw [h10]
        dsimp only
        unfold encryptFH_cleanup7
        rw [sys_fclose_mk (k := V) (f := { G with pos := q10 }) ?_ ?_]
        rotate_left
        · simp [upd]
        · simp [upd]
        dsimp only
        obtain ⟨r, T1, h⟩ := encryptFH_cleanup5_any (D := D) (N := N) (I := I10)
          (O := upd (upd (upd (upd (upd (upd O K (some S)) K
            (some { S with pos := (0 : Int).toNat })) V (some G)) V
            (some { G with pos := (0 : Int).toNat })) K
            (some { ino := S.ino, pos := p10, rd := S.rd, wr := S.wr })) V
            (some { ino := G.ino, pos := q10, rd := G.rd, wr := G.wr }))
          (F := upd (upd (upd F X (some K)) (X + 1) (some V)) (X + 1) none)
          (X := X + 1 + 1) (E := E9)
          (T := Sys.sFclose (X + 1 : Nat) :: Sys.sCrypt X (X + 1 : Nat) ::
            Sys.sFdopen (X + 1 : Nat) :: Sys.sDup U :: Sys.sFdopen X :: Sys.sDup J ::
            Sys.sFtruncate U 0 :: Sys.sLseek U 0 SEEK_SET :: Sys.sLseek U 0 SEEK_CUR ::
            Sys.sLseek J 0 SEEK_SET :: Sys.sLseek J 0 SEEK_CUR :: T)
          (J := J) (U := U) (K := K) (V := V) (n := X) (k := K)
          (S := { ino := S.ino, pos := p10, rd := S.rd, wr := S.wr })
          (G := { ino := G.ino, pos := q10, rd := G.rd, wr := G.wr })
          (f := { ino := S.ino, pos := p10, rd := S.rd, wr := S.wr })
          (if (0 : Int) ≠ 0 then -E9 else r10) S.pos G.pos
          (by simp [upd, hnx1.symm, hnx3.symm, hs]) (by simp [upd, hks])
          (by simp [upd, hnx2.symm, hnx4.symm, hd]) (by simp [upd]) hk
          (by simp [upd]) (by simp [upd, hks]) hnx1 hnx2
        simp only [ne_eq, not_true_eq_false, if_false] at h ⊢
        rw [h]
        rw [final _ p10 q10 (by simp [upd, hks]) (by simp [upd])
          (by intro k a1 a2; simp [upd, a1, a2])]
        exact ⟨_, _, _, _, _, _, rfl, by simp [upd, hnx1.symm, hnx3.symm, hs],
          by simp [upd, hnx2.symm, hnx4.symm, hd], by omega⟩

end Run2

theorem file_eq_some (w : World) (a : Int) (k : Nat) (f : OpenFile) :
    w.file a = some (k, f) ↔ 0 ≤ a ∧ w.fds a.toNat = some k ∧ w.ofiles k = some f := by
  constructor
  · intro h
    unfold World.file at h
    by_cases ha : a < 0
    · rw [if_pos ha] at h
      exact absurd h (by simp)
    · rw [if_neg ha] at h
      split at h
      · exact absurd h (by simp)
      · rename_i k1 hk1
        split at h
        · exact absurd h (by simp)
        · rename_i f1 hf1
          simp only [Option.some.injEq, Prod.mk.injEq] at h
          obtain ⟨h1, h2⟩ := h
          subst h1
          subst h2
          exact ⟨by omega, hk1, hf1⟩
  · rintro ⟨h0, h1, h2⟩
    have ha : ¬ a < 0 := by omega
    simp only [World.file, if_neg ha, h1, h2]

section Run3
variable {D : Option fsState_t} {N : Path → Option Nat} {I : Nat → Option Inode}
  {O : Nat → Option OpenFile} {F : Nat → Option Nat} {X : Nat} {E : Int} {T : List Sys}

theorem sys_fsync_mk {n k : Nat} {f : OpenFile} (hfd : F n = some k) (ho : O k = some f) :
    sys_fsync (World.mk D N I O F X E [] T) (n : Int) =
      (0, World.mk D N I O F X E [] (Sys.sFsync n :: T)) := by
  have hneg : ¬ ((n : Int) < 0) := by omega
  simp [sys_fsync, World.enter, World.file, hfd, ho, hneg]

/-- The descriptor shuffle that ends `enc_flush`, on a world in which both handles are open. -/
theorem flush_tail_mk (fi : fuse_file_info) (fhs : enc_fhs_t) (ret : Int)
    {J K U V : Nat} {S G : OpenFile}
    (hJ : fhs.clearFH = (J : Int)) (hU : fhs.encFH = (U : Int))
    (hs : F J = some K) (hso : O K = some S)
    (hd : F U = some V) (hdo : O V = some G)
    (hns : J < X) (hnd : U < X) :
    (if ret < 0 then (ret, some { fi with fh := fhs }, World.mk D N I O F X E [] T)
       else
        match sys_dup (World.mk D N I O F X E [] T) fhs.clearFH with
        | (ret, w) =>
          if ret < 0 then (-w.errno, some { fi with fh := fhs }, w)
          else
            match sys_close w ret with
            | (ret, w) =>
              if ret < 0 then (-w.errno, some { fi with fh := fhs }, w)
              else
                match sys_dup w fhs.encFH with
                | (ret, w) =>
                  if ret < 0 then (-w.errno, some { fi with fh := fhs }, w)
                  else
                    match sys_close w ret with
                    | (ret, w) =>
                      if ret < 0 then (-w.errno, some { fi with fh := fhs }, w)
                      else (RETURN_SUCCESS, some { fi with fh := fhs }, w)).2.2.file fhs.clearFH = some (K, S) ∧
    (if ret < 0 then (ret, some { fi with fh := fhs }, World.mk D N I O F X E [] T)
       else
        match sys_dup (World.mk D N I O F X E [] T) fhs.clearFH with
        | (ret, w) =>
          if ret < 0 then (-w.errno, some { fi with fh := fhs }, w)
          else
            match sys_close w ret with
            | (ret, w) =>
              if ret < 0 then (-w.errno, some { fi with fh := fhs }, w)
              else
                match sys_dup w fhs.encFH with
                | (ret, w) =>
                  if ret < 0 then (-w.errno, some { fi with fh := fhs }, w)
                  else
                    match sys_close w ret with
                    | (ret, w) =>
                      if ret < 0 then (-w.errno, some { fi with fh := fhs }, w)
                      else (RETURN_SUCCESS, some { fi with fh := fhs }, w)).2.2.file fhs.encFH = some (V, G) := by
  have hx : ¬ ((X : Int) < 0) := by omega
  have hx1 : ¬ (((X + 1 : Nat) : Int) < 0) := by omega
  have hnx1 : X ≠ J := by omega
  have hnx2 : X ≠ U := by omega
  have hnx3 : X + 1 ≠ J := by omega
  have hnx4 : X + 1 ≠ U := by omega
  by_cases hneg : ret < 0
  · rw [if_pos hneg, hJ, hU]
    exact ⟨file_mk hs hso, file_mk hd hdo⟩
  · rw [if_neg hneg, hJ, hU]
    rw [sys_dup_mk (k := K) (f := S) hs hso]
    dsimp only
    rw [if_neg hx]
    rw [sys_close_mk (k := K) (f := S) ?_ hso]
    rotate_left
    · simp [upd]
    dsimp only
    rw [if_neg (by decide)]
    rw [sys_dup_mk (k := V) (f := G) ?_ hdo]
    rotate_left
    · simp [upd, hnx2.symm, hd]
    dsimp only
    rw [if_neg hx1]
    rw [sys_close_mk (k := V) (f := G) ?_ hdo]
    rotate_left
    · simp [upd]
    dsimp only
    rw [if_neg (by decide)]
    refine ⟨file_mk ?_ hso, file_mk ?_ hdo⟩
    · simp [upd, hnx1.symm, hnx3.symm, hs]
    · simp [upd, hnx2.symm, hnx4.symm, hd]

/-- The `fsync` that ends `enc_fsync`, on a world in which both handles are open. -/
theorem fsync_tail_mk (fi : fuse_file_info) (fhs : enc_fhs_t) (ret isdatasync : Int)
    {J K U V : Nat} {S G : OpenFile}
    (hJ : fhs.clearFH = (J : Int)) (hU : fhs.encFH = (U : Int))
    (hs : F J = some K) (hso : O K = some S)
    (hd : F U = some V) (hdo : O V = some G) :
    (if ret < 0 then (ret, some { fi with fh := fhs }, World.mk D N I O F X E [] T)
       else
        match (if isdatasync ≠ 0 then sys_fsync (World.mk D N I O F X E [] T) fhs.encFH
          else sys_fsync (World.mk D N I O F X E [] T) fhs.encFH) with
        | (ret, w) =>
          if ret < 0 then (-w.errno, some { fi with fh := fhs }, w)
          else (RETURN_SUCCESS, some { fi with fh := fhs }, w)).2.2.file fhs.clearFH = some (K, S) ∧
    (if ret < 0 then (ret, some { fi with fh := fhs }, World.mk D N I O F X E [] T)
       else
        match (if isdatasync ≠ 0 then sys_fsync (World.mk D N I O F X E [] T) fhs.encFH
          else sys_fsync (World.mk D N I O F X E [] T) fhs.encFH) with
        | (ret, w) =>
          if ret < 0 then (-w.errno, some { fi with fh := fhs }, w)
          else (RETURN_SUCCESS, some { fi with fh := fhs }, w)).2.2.file fhs.encFH = some (V, G) := by
  by_cases hneg : ret < 0
  · rw [if_pos hneg, hJ, hU]
    exact ⟨file_mk hs hso, file_mk hd hdo⟩
  · rw [if_neg hneg, ite_self, hJ, hU]
    rw [sys_fsync_mk (k := V) (f := G) hd hdo]
    dsimp only
    rw [if_neg (by decide)]
    exact ⟨file_mk hs hso, file_mk hd hdo⟩

end Run3

/-- Claim C12 (offset transparency): in a world where no call fails for an
outside reason, with the ciphertext handle open at offset `fe.pos` and the
plaintext handle open at offset `fc.pos` on two different open file
descriptions, `decryptFH` and `encryptFH` leave both handles exactly as they
were, offsets included, whatever the cipher returns and whatever the access
modes of the handles are; so do `enc_flush` and `enc_fsync` on a session
holding these handles. -/
theorem offset_transparency (c : Cipher) (w : World) (fi : fuse_file_info) (ke kc : Nat)
    (fe fc : OpenFile)
    (hf : w.faults = [])
    (he : w.file fi.fh.encFH = some (ke, fe)) (hc : w.file fi.fh.clearFH = some (kc, fc))
    (hk : ke ≠ kc)
    (hle : fi.fh.encFH < (w.next : Int)) (hlc : fi.fh.clearFH < (w.next : Int)) :
    ((decryptFH c w fi.fh.encFH fi.fh.clearFH).2.file fi.fh.encFH = some (ke, fe) ∧
      (decryptFH c w fi.fh.encFH fi.fh.clearFH).2.file fi.fh.clearFH = some (kc, fc)) ∧
    ((encryptFH c w fi.fh.clearFH fi.fh.encFH).2.file fi.fh.encFH = some (ke, fe) ∧
      (encryptFH c w fi.fh.clearFH fi.fh.encFH).2.file fi.fh.clearFH = some (kc, fc)) ∧
    ((enc_flush c w (some fi)).2.2.file fi.fh.encFH = some (ke, fe) ∧
      (enc_flush c w (some fi)).2.2.file fi.fh.clearFH = some (kc, fc)) ∧
    (∀ isdatasync,
      (enc_fsync c w isdatasync (some fi)).2.2.file fi.fh.encFH = some (ke, fe) ∧
      (enc_fsync c w isdatasync (some fi)).2.2.file fi.fh.clearFH = some (kc, fc)) := by
  rw [file_eq_some] at he hc
  obtain ⟨he0, hfe, hoe⟩ := he
  obtain ⟨hc0, hfc, hoc⟩ := hc
  obtain ⟨ne, hne⟩ := Int.eq_ofNat_of_zero_le he0
  obtain ⟨nc, hnc⟩ := Int.eq_ofNat_of_zero_le hc0
  obtain ⟨D, N, I, O, F, X, E, fl, T⟩ := w
  simp only at hf hfe hoe hfc hoc hle hlc
  subst hf
  rw [hne] at hfe hle
  rw [hnc] at hfc hlc
  simp only [Int.toNat_ofNat] at hfe hfc
  have hlt1 : ne < X := by omega
  have hlt2 : nc < X := by omega
  obtain ⟨r, I1, F1, X1, E1, T1, h1, h2, h3, h4⟩ := encryptFH_offsets_mk (D := D) (N := N)
    (I := I) (O := O) (F := F) (X := X) (E := E) (T := T)
    { crypt_encrypt := c.crypt_decrypt, crypt_decrypt := c.crypt_decrypt }
    (J := ne) (K := ke) (U := nc) (V := kc) (S := fe) (G := fc)
    hfe hoe hfc hoc (Ne.symm hk) hlt1 hlt2
  obtain ⟨q, I2, F2, X2, E2, T2, g1, g2, g3, g4⟩ := encryptFH_offsets_mk (D := D) (N := N)
    (I := I) (O := O) (F := F) (X := X) (E := E) (T := T) c
    (J := nc) (K := kc) (U := ne) (V := ke) (S := fc) (G := fe)
    hfc hoc hfe hoe hk hlt2 hlt1
  have d1 : (World.mk D N I1 O F1 X1 E1 [] T1).file fi.fh.encFH = some (ke, fe) := by
    rw [hne]; exact file_mk h2 hoe
  have d2 : (World.mk D N I1 O F1 X1 E1 [] T1).file fi.fh.clearFH = some (kc, fc) := by
    rw [hnc]; exact file_mk h3 hoc
  rw [← hne, ← hnc] at h1 g1
  refine ⟨?_, ?_, ?_, ?_⟩
  · rw [decryptFH_eq_encryptFH, h1]
    exact ⟨d1, d2⟩
  · rw [g1, hne, hnc]
    exact ⟨file_mk g3 hoe, file_mk g2 hoc⟩
  · unfold enc_flush
    dsimp only
    rw [g1]
    dsimp only
    by_cases hd : fi.fh.dirty = FHS_DIRTY
    · rw [if_pos hd]
      by_cases hneg : q < 0
      · rw [if_pos hneg]
        have t := flush_tail_mk (D := D) (N := N) (I := I2) (O := O) (F := F2) (X := X2)
          (E := E2) (T := T2) fi fi.fh q (J := nc) (K := kc) (U := ne) (V := ke)
          (S := fc) (G := fe) hnc hne g2 hoc g3 hoe (by omega) (by omega)
        exact ⟨t.2, t.1⟩
      · rw [if_neg hneg]
        have t := flush_tail_mk (D := D) (N := N) (I := I2) (O := O) (F := F2) (X := X2)
          (E := E2) (T := T2) fi { fi.fh with dirty := FHS_CLEAN } 0
          (J := nc) (K := kc) (U := ne) (V := ke)
          (S := fc) (G := fe) hnc hne g2 hoc g3 hoe (by omega) (by omega)
        exact ⟨t.2, t.1⟩
    · rw [if_neg hd]
      have t := flush_tail_mk (D := D) (N := N) (I := I) (O := O) (F := F) (X := X)
        (E := E) (T := T) fi fi.fh 0 (J := nc) (K := kc) (U := ne) (V := ke)
        (S := fc) (G := fe) hnc hne hfc hoc hfe hoe hlt2 hlt1
      exact ⟨t.2, t.1⟩
  · intro isdatasync
    unfold enc_fsync
    dsimp only
    rw [g1]
    dsimp only
    by_cases hd : fi.fh.dirty = FHS_DIRTY
    · rw [if_pos hd]
      by_cases hneg : q < 0
      · rw [if_pos hneg]
        have t := fsync_tail_mk (D := D) (N := N) (I := I2) (O := O) (F := F2) (X := X2)
          (E := E2) (T := T2) fi fi.fh q isdatasync (J := nc) (K := kc) (U := ne) (V := ke)
          (S := fc) (G := fe) hnc hne g2 hoc g3 hoe
        exact ⟨t.2, t.1⟩
      · rw [if_neg hneg]
        have t := fsync_tail_mk (D := D) (N := N) (I := I2) (O := O) (F := F2) (X := X2)
          (E := E2) (T := T2) fi { fi.fh with dirty := FHS_CLEAN } 0 isdatasync
          (J := nc) (K := kc) (U := ne) (V := ke)
          (S := fc) (G := fe) hnc hne g2 hoc g3 hoe
        exact ⟨t.2, t.1⟩
    · rw [if_neg hd]
      have t := fsync_tail_mk (D := D) (N := N) (I := I) (O := O) (F := F) (X := X)
        (E := E) (T := T) fi fi.fh 0 isdatasync (J := nc) (K := kc) (U := ne) (V := ke)
        (S := fc) (G := fe) hnc hne hfc hoc hfe hoe
      exact ⟨t.2, t.1⟩

/-- Witness of C12: with the ciphertext handle at offset 3 and the plaintext handle at offset 7. -/
theorem offset_transparency_witness :
    seekedSession.2.faults = [] ∧
    seekedSession.2.file seekedSession.1.fh.encFH =
      some (11, { ino := 3, pos := 3, rd := true, wr := true }) ∧
    seekedSession.2.file seekedSession.1.fh.clearFH =
      some (13, { ino := 12, pos := 7, rd := true, wr := true }) ∧
    (decryptFH demoCipher seekedSession.2 seekedSession.1.fh.encFH
      seekedSession.1.fh.clearFH).2.file seekedSession.1.fh.encFH =
      some (11, { ino := 3, pos := 3, rd := true, wr := true }) ∧
    (decryptFH demoCipher seekedSession.2 seekedSession.1.fh.encFH
      seekedSession.1.fh.clearFH).2.file seekedSession.1.fh.clearFH =
      some (13, { ino := 12, pos := 7, rd := true, wr := true }) :=
  ⟨by decide, by decide, by decide,
   (offset_transparency demoCipher seekedSession.2 seekedSession.1 11 13
     { ino := 3, pos := 3, rd := true, wr := true }
     { ino := 12, pos := 7, rd := true, wr := true }
     (by decide) (by decide) (by decide) (by decide) (by decide) (by decide)).1⟩

/-! ## What the callbacks keep of a live pair -/

theorem Ext.rfl_ (w : World) : Ext w w :=
  ⟨rfl, fun _ _ => rfl, le_refl _, fun _ h => h, fun _ h => h⟩

theorem Ext.trans {w w1 w2 : World} (h1 : Ext w w1) (h2 : Ext w1 w2) : Ext w w2 :=
  ⟨h2.names.trans h1.names,
   fun n hn => (h2.fds n (lt_of_lt_of_le hn h1.next)).trans (h1.fds n hn),
   le_trans h1.next h2.next,
   fun k h => h2.ofiles k (h1.ofiles k h),
   fun i h => h2.inodes i (h1.inodes i h)⟩

theorem ext_enter (w : World) (ev : Sys) : Ext w (w.enter ev).2 := by
  unfold World.enter
  split <;> exact ⟨rfl, fun _ _ => rfl, le_refl _, fun _ h => h, fun _ h => h⟩

theorem ext_fail (w : World) (e : Int) : Ext w (w.fail e).2 :=
  ⟨rfl, fun _ _ => rfl, le_refl _, fun _ h => h, fun _ h => h⟩

theorem ext_setData (w : World) (i : Nat) (d : Bytes) : Ext w (w.setData i d) := by
  unfold World.setData
  split
  · exact Ext.rfl_ w
  · refine ⟨rfl, fun _ _ => rfl, le_refl _, fun _ h => h, fun j h => ?_⟩
    dsimp only [upd]
    split
    · rfl
    · exact h

theorem ext_ofile (w : World) (k : Nat) (f : OpenFile) :
    Ext w { w with ofiles := upd w.ofiles k (some f) } := by
  refine ⟨rfl, fun _ _ => rfl, le_refl _, fun j h => ?_, fun _ h => h⟩
  dsimp only [upd]
  split
  · rfl
  · exact h

theorem ext_ite {α : Type} {w : World} {c : Prop} [Decidable c] {x y : α × World}
    (hx : Ext w x.2) (hy : Ext w y.2) : Ext w (if c then x else y).2 := by
  split
  · exact hx
  · exact hy

theorem ext_lseek (w : World) (fd off : Int) (whence : Nat) :
    Ext w (sys_lseek w fd off whence).2 := by
  have h := ext_enter w (Sys.sLseek fd off whence)
  unfold sys_lseek
  generalize w.enter (Sys.sLseek fd off whence) = r at h ⊢
  obtain ⟨f, w1⟩ := r
  cases f with
  | some e => exact h.trans (ext_fail _ _)
  | none =>
    dsimp only
    cases w1.file fd with
    | none => exact h.trans (ext_fail _ _)
    | some p =>
      obtain ⟨k, f⟩ := p
      dsimp only
      exact ext_ite (h.trans (ext_fail _ _)) (h.trans (ext_ofile _ _ _))

theorem ext_ftruncate (w : World) (fd len : Int) : Ext w (sys_ftruncate w fd len).2 := by
  have h := ext_enter w (Sys.sFtruncate fd len)
  unfold sys_ftruncate
  generalize w.enter (Sys.sFtruncate fd len) = r at h ⊢
  obtain ⟨f, w1⟩ := r
  cases f with
  | some e => exact h.trans (ext_fail _ _)
  | none =>
    dsimp only
    cases w1.file fd with
    | none => exact h.trans (ext_fail _ _)
    | some p =>
      obtain ⟨k, f⟩ := p
      dsimp only
      split
      · exact h.trans (ext_fail _ _)
      · exact h.trans (ext_setData _ _ _)

theorem ext_fstat (w : World) (fd : Int) (st : stat_t) : Ext w (sys_fstat w fd st).2.2 := by
  have h := ext_enter w (Sys.sFstat fd)
  unfold sys_fstat
  generalize w.enter (Sys.sFstat fd) = r at h ⊢
  obtain ⟨f, w1⟩ := r
  cases f with
  | some e => exact h.trans (ext_fail _ _)
  | none =>
    dsimp only
    cases w1.file fd with
    | none => exact h.trans (ext_fail _ _)
    | some p =>
      obtain ⟨k, f⟩ := p
      dsimp only
      cases w1.inodes f.ino with
      | none => exact h.trans (ext_fail _ _)
      | some i => exact h

theorem ext_fdopen (w : World) (fd : Int) (writing : Bool) :
    Ext w (sys_fdopen w fd writing).2 ∧
    ∀ fp, (sys_fdopen w fd writing).1 = some fp → fp = fd := by
  have h := ext_enter w (Sys.sFdopen fd)
  unfold sys_fdopen
  generalize w.enter (Sys.sFdopen fd) = r at h ⊢
  obtain ⟨f, w1⟩ := r
  cases f with
  | some e => exact ⟨h.trans (ext_fail _ _), fun _ hh => by simp at hh⟩
  | none =>
    dsimp only
    cases w1.file fd with
    | none => exact ⟨h.trans (ext_fail _ _), fun _ hh => by simp at hh⟩
    | some p =>
      obtain ⟨k, f⟩ := p
      dsimp only
      split
      · exact ⟨h.trans (ext_fail _ _), fun _ hh => by simp at hh⟩
      · exact ⟨h, fun _ hh => (Option.some.inj hh).symm⟩

theorem ext_dup (w : World) (fd : Int) :
    Ext w (sys_dup w fd).2 ∧
    ((sys_dup w fd).1 < 0 ∨ (sys_dup w fd).1 = (w.next : Int)) := by
  have h := ext_enter w (Sys.sDup fd)
  have hnx := (enter_fields w (Sys.sDup fd)).2.2.2.2.1
  unfold sys_dup
  generalize w.enter (Sys.sDup fd) = r at h hnx ⊢
  obtain ⟨f, w1⟩ := r
  dsimp only at hnx
  cases f with
  | some e => exact ⟨h.trans (ext_fail _ _), Or.inl (by dsimp only [World.fail]; decide)⟩
  | none =>
    dsimp only
    cases w1.file fd with
    | none => exact ⟨h.trans (ext_fail _ _), Or.inl (by dsimp only [World.fail]; decide)⟩
    | some p =>
      obtain ⟨k, f⟩ := p
      dsimp only
      refine ⟨h.trans ⟨rfl, fun n hn => ?_, Nat.le_succ _, fun _ hh => hh, fun _ hh => hh⟩,
        Or.inr (by rw [hnx])⟩
      have hn1 : n < w1.next := hn
      dsimp only [upd]
      rw [if_neg (by omega)]

theorem ext_crypt (w : World) (g : Bytes → Bytes → Int × Bytes) (src dst : Int) (key : Bytes) :
    Ext w (sys_crypt w g src dst key).2 := by
  have h1 : Ext w { w with trace := Sys.sCrypt src dst :: w.trace } :=
    ⟨rfl, fun _ _ => rfl, le_refl _, fun _ h => h, fun _ h => h⟩
  unfold sys_crypt
  dsimp only
  split
  · dsimp only
    split
    · exact h1
    · exact h1.trans (ext_ofile _ _ _)
  · dsimp only
    split
    · exact h1.trans ((ext_setData _ _ _).trans (ext_ofile _ _ _))
    · exact (h1.trans (ext_ofile _ _ _)).trans ((ext_setData _ _ _).trans (ext_ofile _ _ _))

theorem file_isSome (w : World) (a : Int) :
    (w.file a).isSome = true ↔
      0 ≤ a ∧ ∃ k, w.fds a.toNat = some k ∧ (w.ofiles k).isSome = true := by
  unfold World.file
  by_cases ha : a < 0
  · rw [if_pos ha]
    simp
    intro h
    omega
  · rw [if_neg ha]
    cases hk : w.fds a.toNat with
    | none => simp
    | some k =>
      cases ho : w.ofiles k with
      | none => simp [ho]
      | some f =>
        simp [ho]
        try omega

theorem bytesAt_isSome (w : World) (p : Path) :
    (w.bytesAt p).isSome = true ↔
      ∃ i, w.names p = some i ∧ (w.inodes i).isSome = true := by
  unfold World.bytesAt
  cases hn : w.names p with
  | none => simp
  | some i =>
    cases hi : w.inodes i with
    | none => simp [hi]
    | some f => simp [hi]

theorem Kept.ext {a b : Int} {p : Path} {w w1 : World} (h : Kept a b p w) (e : Ext w w1) :
    Kept a b p w1 := by
  obtain ⟨h1, h2, h3, h4, h5⟩ := h
  rw [file_isSome] at h1 h2
  rw [bytesAt_isSome] at h3
  obtain ⟨ha, ka, hka, hoa⟩ := h1
  obtain ⟨hb, kb, hkb, hob⟩ := h2
  obtain ⟨i, hn, hi⟩ := h3
  have hnx := e.next
  refine ⟨?_, ?_, ?_, by omega, by omega⟩
  · rw [file_isSome]
    exact ⟨ha, ka, by rw [e.fds _ (by omega)]; exact hka, e.ofiles _ hoa⟩
  · rw [file_isSome]
    exact ⟨hb, kb, by rw [e.fds _ (by omega)]; exact hkb, e.ofiles _ hob⟩
  · rw [bytesAt_isSome]
    exact ⟨i, by rw [e.names]; exact hn, e.inodes _ hi⟩

theorem Ext.weaken {w w1 : World} (e : Ext w w1) : Ext0 w w1 :=
  ⟨e.fds, e.next, e.ofiles, e.inodes⟩

theorem Ext0.refl0 (w : World) : Ext0 w w :=
  ⟨fun _ _ => rfl, le_refl _, fun _ h => h, fun _ h => h⟩

theorem Ext0.trans0 {w w1 w2 : World} (h1 : Ext0 w w1) (h2 : Ext0 w1 w2) : Ext0 w w2 :=
  ⟨fun n hn => (h2.fds n (lt_of_lt_of_le hn h1.next)).trans (h1.fds n hn),
   le_trans h1.next h2.next,
   fun k h => h2.ofiles k (h1.ofiles k h),
   fun i h => h2.inodes i (h1.inodes i h)⟩

theorem Open2.ext0 {a b : Int} {w w1 : World} (h : Open2 a b w) (e : Ext0 w w1) :
    Open2 a b w1 := by
  obtain ⟨h1, h2, h4, h5⟩ := h
  rw [file_isSome] at h1 h2
  obtain ⟨ha, ka, hka, hoa⟩ := h1
  obtain ⟨hb, kb, hkb, hob⟩ := h2
  have hnx := e.next
  refine ⟨?_, ?_, by omega, by omega⟩
  · rw [file_isSome]
    exact ⟨ha, ka, by rw [e.fds _ (by omega)]; exact hka, e.ofiles _ hoa⟩
  · rw [file_isSome]
    exact ⟨hb, kb, by rw [e.fds _ (by omega)]; exact hkb, e.ofiles _ hob⟩

theorem above_dup {a b : Int} {w : World} (ha : a < (w.next : Int)) (hb : b < (w.next : Int))
    (fd : Int) : Above a b (sys_dup w fd).1 := by
  rcases (ext_dup w fd).2 with h1 | h1
  · exact Or.inl h1
  · exact Or.inr ⟨by rw [h1]; exact ha, by rw [h1]; exact hb⟩

theorem open2_unfd {a b : Int} {w : World} (h : Open2 a b w) (fd : Int)
    (hab : Above a b fd) :
    Open2 a b { w with fds := upd w.fds fd.toNat none } ∨ fd < 0 := by
  rcases hab with hneg | ⟨h1, h2⟩
  · exact Or.inr hneg
  · left
    obtain ⟨k1, k2, k4, k5⟩ := h
    rw [file_isSome] at k1 k2
    obtain ⟨ha, ka, hka, hoa⟩ := k1
    obtain ⟨hb, kb, hkb, hob⟩ := k2
    refine ⟨?_, ?_, k4, k5⟩
    · rw [file_isSome]
      refine ⟨ha, ka, ?_, hoa⟩
      dsimp only [upd]
      rw [if_neg (by omega)]
      exact hka
    · rw [file_isSome]
      refine ⟨hb, kb, ?_, hob⟩
      dsimp only [upd]
      rw [if_neg (by omega)]
      exact hkb

theorem bytesAt_unfd (w : World) (p : Path) (F : Nat → Option Nat) :
    ({ w with fds := F } : World).bytesAt p = w.bytesAt p := rfl

theorem file_neg (w : World) (fd : Int) (h : fd < 0) : w.file fd = none := by
  unfold World.file
  rw [if_pos h]

theorem open2_close {a b : Int} {w : World} (h : Open2 a b w) (fd : Int)
    (hab : Above a b fd) : Open2 a b (sys_close w fd).2 := by
  have he := ext_enter w (Sys.sClose fd)
  unfold sys_close
  generalize w.enter (Sys.sClose fd) = r at he ⊢
  obtain ⟨f, w1⟩ := r
  dsimp only at he ⊢
  have h1 := h.ext0 he.weaken
  cases hfile : w1.file fd with
  | none => exact h1.ext0 (ext_fail _ _).weaken
  | some q =>
    dsimp only
    rcases open2_unfd h1 fd hab with hk | hneg
    · cases f with
      | some e => exact hk.ext0 (ext_fail _ _).weaken
      | none => exact hk
    · rw [file_neg w1 fd hneg] at hfile
      exact absurd hfile (by simp)

theorem open2_fclose {a b : Int} {w : World} (h : Open2 a b w) (fd : Int)
    (hab : Above a b fd) : Open2 a b (sys_fclose w fd).2 := by
  have he := ext_enter w (Sys.sFclose fd)
  unfold sys_fclose
  generalize w.enter (Sys.sFclose fd) = r at he ⊢
  obtain ⟨f, w1⟩ := r
  dsimp only at he ⊢
  have h1 := h.ext0 he.weaken
  cases hfile : w1.file fd with
  | none => exact h1.ext0 (ext_fail _ _).weaken
  | some q =>
    dsimp only
    rcases open2_unfd h1 fd hab with hk | hneg
    · cases f with
      | some e => exact hk.ext0 (ext_fail _ _).weaken
      | none => exact hk
    · rw [file_neg w1 fd hneg] at hfile
      exact absurd hfile (by simp)

theorem stable_open2 (a b : Int) : Stable a b (Open2 a b) :=
  ⟨fun _ _ h e => h.ext0 e.weaken, fun _ fd h hab => open2_close h fd hab,
   fun _ fd h hab => open2_fclose h fd hab, fun _ h => ⟨h.lt_a, h.lt_b⟩⟩

section StablePredicate
variable {a b : Int} {Q : World → Prop}

theorem stable_cleanup1 {w : World} (S : Stable a b Q) (h : Q w) (ret x off : Int) :
    Q (encryptFH_cleanup1 w ret x off).2 := by
  unfold encryptFH_cleanup1
  have e := ext_lseek w x off SEEK_SET
  generalize sys_lseek w x off SEEK_SET = r at e ⊢
  obtain ⟨r1, w1⟩ := r
  dsimp only at e ⊢
  split <;> exact S.ext _ _ h e

theorem stable_cleanup2 {w : World} (S : Stable a b Q) (h : Q w) (ret x y offx offy : Int) :
    Q (encryptFH_cleanup2 w ret x y offx offy).2 := by
  unfold encryptFH_cleanup2
  have e := ext_lseek w y offy SEEK_SET
  generalize sys_lseek w y offy SEEK_SET = r at e ⊢
  obtain ⟨r1, w1⟩ := r
  dsimp only at e ⊢
  exact stable_cleanup1 S (S.ext _ _ h e) _ _ _

theorem stable_cleanup4 {w : World} (S : Stable a b Q) (h : Q w) (ret x y offx offy fd : Int)
    (hfd : Above a b fd) :
    Q (encryptFH_cleanup4 w ret x y offx offy fd).2 := by
  unfold encryptFH_cleanup4
  have k := S.close w fd h hfd
  generalize sys_close w fd = r at k ⊢
  obtain ⟨r1, w1⟩ := r
  dsimp only at k ⊢
  exact stable_cleanup2 S k _ _ _ _ _

theorem stable_cleanup5 {w : World} (S : Stable a b Q) (h : Q w) (ret x y offx offy fp : Int)
    (hfp : Above a b fp) :
    Q (encryptFH_cleanup5 w ret x y offx offy fp).2 := by
  unfold encryptFH_cleanup5
  have k := S.fclose w fp h hfp
  generalize sys_fclose w fp = r at k ⊢
  obtain ⟨r1, w1⟩ := r
  dsimp only at k ⊢
  exact stable_cleanup2 S k _ _ _ _ _

theorem stable_cleanup6 {w : World} (S : Stable a b Q) (h : Q w) (ret x y offx offy fp fd : Int)
    (hfp : Above a b fp) (hfd : Above a b fd) :
    Q (encryptFH_cleanup6 w ret x y offx offy fp fd).2 := by
  unfold encryptFH_cleanup6
  have k := S.close w fd h hfd
  generalize sys_close w fd = r at k ⊢
  obtain ⟨r1, w1⟩ := r
  dsimp only at k ⊢
  exact stable_cleanup5 S k _ _ _ _ _ _ hfp

theorem stable_cleanup7 {w : World} (S : Stable a b Q) (h : Q w) (ret x y offx offy fp fq : Int)
    (hfp : Above a b fp) (hfq : Above a b fq) :
    Q (encryptFH_cleanup7 w ret x y offx offy fp fq).2 := by
  unfold encryptFH_cleanup7
  have k := S.fclose w fq h hfq
  generalize sys_fclose w fq = r at k ⊢
  obtain ⟨r1, w1⟩ := r
  dsimp only at k ⊢
  exact stable_cleanup5 S k _ _ _ _ _ _ hfp

/-- The transform `encryptFH`, on any two descriptors and under any schedule
of failing calls, keeps every stable predicate. -/
theorem stable_encryptFH (c : Cipher) {w : World} (S : Stable a b Q) (h : Q w) (x y : Int) :
    Q (encryptFH c w x y).2 := by
  unfold encryptFH
  dsimp only
  have e1 := ext_lseek w x 0 SEEK_CUR
  generalize sys_lseek w x 0 SEEK_CUR = r1 at e1 ⊢
  obtain ⟨o1, w1⟩ := r1
  dsimp only at e1 ⊢
  have k1 := S.ext _ _ h e1
  split
  · exact k1
  have e2 := ext_lseek w1 x 0 SEEK_SET
  generalize sys_lseek w1 x 0 SEEK_SET = r2 at e2 ⊢
  obtain ⟨o2, w2⟩ := r2
  dsimp only at e2 ⊢
  have k2 := S.ext _ _ k1 e2
  split
  · exact k2
  have e3 := ext_lseek w2 y 0 SEEK_CUR
  generalize sys_lseek w2 y 0 SEEK_CUR = r3 at e3 ⊢
  obtain ⟨o3, w3⟩ := r3
  dsimp only at e3 ⊢
  have k3 := S.ext _ _ k2 e3
  split
  · exact stable_cleanup1 S k3 _ _ _
  have e4 := ext_lseek w3 y 0 SEEK_SET
  generalize sys_lseek w3 y 0 SEEK_SET = r4 at e4 ⊢
  obtain ⟨o4, w4⟩ := r4
  dsimp only at e4 ⊢
  have k4 := S.ext _ _ k3 e4
  split
  · exact stable_cleanup1 S k4 _ _ _
  have e5 := ext_ftruncate w4 y 0
  generalize sys_ftruncate w4 y 0 = r5 at e5 ⊢
  obtain ⟨o5, w5⟩ := r5
  dsimp only at e5 ⊢
  have k5 := S.ext _ _ k4 e5
  split
  · exact stable_cleanup2 S k5 _ _ _ _ _
  have e6 := (ext_dup w5 x).1
  have a6 := above_dup (S.fresh _ k5).1 (S.fresh _ k5).2 x
  generalize sys_dup w5 x = r6 at e6 a6 ⊢
  obtain ⟨fd1, w6⟩ := r6
  dsimp only at e6 a6 ⊢
  have k6 := S.ext _ _ k5 e6
  have e7 := ext_fdopen w6 fd1 false
  generalize sys_fdopen w6 fd1 false = r7 at e7 ⊢
  obtain ⟨fp1, w7⟩ := r7
  dsimp only at e7 ⊢
  have k7 := S.ext _ _ k6 e7.1
  cases fp1 with
  | none => exact stable_cleanup4 S k7 _ _ _ _ _ _ a6
  | some fp1 =>
    dsimp only
    have hfp1 : fp1 = fd1 := e7.2 fp1 rfl
    subst hfp1
    have e8 := (ext_dup w7 y).1
    have a8 := above_dup (S.fresh _ k7).1 (S.fresh _ k7).2 y
    generalize sys_dup w7 y = r8 at e8 a8 ⊢
    obtain ⟨fd2, w8⟩ := r8
    dsimp only at e8 a8 ⊢
    have k8 := S.ext _ _ k7 e8
    have e9 := ext_fdopen w8 fd2 true
    generalize sys_fdopen w8 fd2 true = r9 at e9 ⊢
    obtain ⟨fp2, w9⟩ := r9
    dsimp only at e9 ⊢
    have k9 := S.ext _ _ k8 e9.1
    cases fp2 with
    | none => exact stable_cleanup6 S k9 _ _ _ _ _ _ _ a6 a8
    | some fp2 =>
      dsimp only
      have hfp2 : fp2 = fd2 := e9.2 fp2 rfl
      subst hfp2
      have e10 := ext_crypt w9 c.crypt_encrypt fp1 fp2 TESTKEY
      generalize sys_crypt w9 c.crypt_encrypt fp1 fp2 TESTKEY = r10 at e10 ⊢
      obtain ⟨o10, w10⟩ := r10
      dsimp only at e10 ⊢
      exact stable_cleanup7 S (S.ext _ _ k9 e10) _ _ _ _ _ _ _ a6 a8

end StablePredicate

theorem stable_decryptFH (c : Cipher) {a b : Int} {Q : World → Prop} {w : World}
    (S : Stable a b Q) (h : Q w) (x y : Int) : Q (decryptFH c w x y).2 := by
  rw [decryptFH_eq_encryptFH]
  exact stable_encryptFH _ S h x y

theorem ext_malloc (w : World) : Ext w (sys_malloc w).2 := by
  unfold sys_malloc
  split <;> exact ⟨rfl, fun _ _ => rfl, le_refl _, fun _ h => h, fun _ h => h⟩

theorem ext_lstat (w : World) (path : Path) (st : stat_t) :
    Ext w (sys_lstat w path st).2.2 := by
  have h := ext_enter w (Sys.sLstat path)
  unfold sys_lstat
  generalize w.enter (Sys.sLstat path) = r at h ⊢
  obtain ⟨f, w1⟩ := r
  cases f with
  | some e => exact h.trans (ext_fail _ _)
  | none =>
    dsimp only
    cases w1.names path with
    | none => exact h.trans (ext_fail _ _)
    | some i =>
      dsimp only
      cases w1.inodes i with
      | none => exact h.trans (ext_fail _ _)
      | some f => exact h

theorem ext0_install (w : World) (ino flags : Nat) :
    Ext0 w (w.install ino flags).2 ∧ (w.install ino flags).1 = (w.next : Int) := by
  refine ⟨⟨fun n hn => ?_, Nat.le_succ _, fun k h => ?_, fun _ h => h⟩, rfl⟩
  · dsimp only [World.install, upd]
    rw [if_neg (by omega)]
  · dsimp only [World.install, upd]
    split
    · rfl
    · exact h

theorem ext0_create (w : World) (path : Path) (f : Inode) : Ext0 w (w.create path f) := by
  refine ⟨fun _ _ => rfl, Nat.le_succ _, fun _ h => h, fun i h => ?_⟩
  dsimp only [World.create, upd]
  split
  · rfl
  · exact h

theorem ext0_open (w : World) (path : Path) (flags mode : Nat) :
    Ext0 w (sys_open w path flags mode).2 ∧
    ((sys_open w path flags mode).1 < 0 ∨ (w.next : Int) ≤ (sys_open w path flags mode).1) := by
  have h := (ext_enter w (Sys.sOpen path flags)).weaken
  unfold sys_open
  generalize w.enter (Sys.sOpen path flags) = r at h ⊢
  obtain ⟨f, w1⟩ := r
  have hnext : w.next ≤ w1.next := h.next
  have hfail : ∀ e : Int, Ext0 w (w1.fail e).2 ∧
      ((w1.fail e).1 < 0 ∨ (w.next : Int) ≤ (w1.fail e).1) :=
    fun e => ⟨h.trans0 (ext_fail _ _).weaken, Or.inl (by dsimp only [World.fail]; decide)⟩
  cases f with
  | some e => exact hfail _
  | none =>
    dsimp only
    cases w1.names path with
    | none =>
      dsimp only
      split
      · exact hfail _
      · have e1 := ext0_create w1 path (newInode (S_IFREG ||| (mode &&& 4095)) [])
        have e2 := ext0_install (w1.create path (newInode (S_IFREG ||| (mode &&& 4095)) []))
          w1.next flags
        refine ⟨h.trans0 (e1.trans0 e2.1), Or.inr ?_⟩
        rw [e2.2]
        have := e1.next
        omega
    | some ino =>
      dsimp only
      split
      · exact hfail _
      · cases w1.inodes ino with
        | none => exact hfail _
        | some f =>
          dsimp only
          split
          · exact hfail _
          · split
            · exact hfail _
            · split
              · have e1 := (ext_setData w1 ino []).weaken
                have e2 := ext0_install (w1.setData ino []) ino flags
                refine ⟨h.trans0 (e1.trans0 e2.1), Or.inr ?_⟩
                rw [e2.2]
                have := e1.next
                omega
              · have e2 := ext0_install w1 ino flags
                refine ⟨h.trans0 e2.1, Or.inr ?_⟩
                rw [e2.2]
                omega

theorem ext0_unlink (w : World) (path : Path) : Ext0 w (sys_unlink w path).2 := by
  have h := (ext_enter w (Sys.sUnlink path)).weaken
  unfold sys_unlink
  generalize w.enter (Sys.sUnlink path) = r at h ⊢
  obtain ⟨f, w1⟩ := r
  cases f with
  | some e => exact h.trans0 (ext_fail _ _).weaken
  | none =>
    dsimp only
    cases w1.names path with
    | none => exact h.trans0 (ext_fail _ _).weaken
    | some i =>
      dsimp only
      cases w1.inodes i with
      | none => exact h.trans0 (ext_fail _ _).weaken
      | some f =>
        dsimp only
        split
        · exact h.trans0 (ext_fail _ _).weaken
        · refine h.trans0 ⟨fun _ _ => rfl, le_refl _, fun _ hh => hh, fun j hh => ?_⟩
          dsimp only [upd]
          split
          · rfl
          · exact hh

theorem above_of_le {a b : Int} {w : World} (ha : a < (w.next : Int)) (hb : b < (w.next : Int))
    {fd : Int} (h : fd < 0 ∨ (w.next : Int) ≤ fd) : Above a b fd := by
  rcases h with h | h
  · exact Or.inl h
  · exact Or.inr ⟨by omega, by omega⟩

theorem open2_openFilePair {a b : Int} {w : World} (h : Open2 a b w)
    (encPath clearPath : Path) (flags : Nat) :
    Open2 a b (openFilePair w encPath clearPath flags).2 ∧
    ∀ fhs, (openFilePair w encPath clearPath flags).1 = some fhs →
      Above a b fhs.encFH ∧ Above a b fhs.clearFH := by
  unfold openFilePair
  dsimp only
  generalize (if flags &&& O_WRONLY = O_WRONLY then flags &&& compl32 O_WRONLY ||| O_RDWR
    else flags) = nf
  have e0 := (ext_malloc w).weaken
  generalize sys_malloc w = r0 at e0 ⊢
  obtain ⟨ok, w0⟩ := r0
  dsimp only at e0 ⊢
  have k0 := h.ext0 e0
  split
  · exact ⟨k0, fun _ hh => by simp at hh⟩
  have e1 := ext0_open w0 encPath nf 0
  generalize sys_open w0 encPath nf 0 = r1 at e1 ⊢
  obtain ⟨fd1, w1⟩ := r1
  dsimp only at e1 ⊢
  have k1 := k0.ext0 e1.1
  have a1 : Above a b fd1 := above_of_le k0.lt_a k0.lt_b e1.2
  split
  · exact ⟨k1, fun _ hh => by simp at hh⟩
  have e2 := ext0_open w1 clearPath (O_RDWR ||| O_CREAT ||| O_TRUNC) (S_IRUSR ||| S_IWUSR)
  generalize sys_open w1 clearPath (O_RDWR ||| O_CREAT ||| O_TRUNC) (S_IRUSR ||| S_IWUSR)
    = r2 at e2 ⊢
  obtain ⟨fd2, w2⟩ := r2
  dsimp only at e2 ⊢
  have k2 := k1.ext0 e2.1
  have a2 : Above a b fd2 := above_of_le k1.lt_a k1.lt_b e2.2
  split
  · exact ⟨k2, fun _ hh => by simp at hh⟩
  · refine ⟨k2, fun fhs hh => ?_⟩
    have := Option.some.inj hh
    subst this
    exact ⟨a1, a2⟩

theorem open2_closeFilePair {a b : Int} {w : World} (h : Open2 a b w) (fhs : enc_fhs_t)
    (h1 : Above a b fhs.encFH) (h2 : Above a b fhs.clearFH) :
    Open2 a b (closeFilePair w (some fhs)).2 := by
  unfold closeFilePair
  dsimp only
  have k1 := open2_close h fhs.encFH h1
  generalize sys_close w fhs.encFH = r1 at k1 ⊢
  obtain ⟨o1, w1⟩ := r1
  dsimp only at k1 ⊢
  split
  · exact k1
  have k2 := open2_close k1 fhs.clearFH h2
  generalize sys_close w1 fhs.clearFH = r2 at k2 ⊢
  obtain ⟨o2, w2⟩ := r2
  dsimp only at k2 ⊢
  split <;> exact k2

theorem open2_removeFile {a b : Int} {w : World} (h : Open2 a b w) (path : Path) :
    Open2 a b (removeFile w path).2 := by
  unfold removeFile
  dsimp only
  have e := ext0_unlink w path
  generalize sys_unlink w path = r at e ⊢
  obtain ⟨o, w1⟩ := r
  dsimp only at e ⊢
  split <;> exact h.ext0 e

/-- A path-based `enc_getattr`, on any path and under any schedule of failing
calls, leaves two open handles open. -/
theorem open2_enc_getattr (c : Cipher) {a b : Int} {w : World} (h : Open2 a b w)
    (path : Option Path) (st : stat_t) : Open2 a b (enc_getattr c w path st).2.2 := by
  unfold enc_getattr
  generalize buildPath w path (some []) PATHBUFSIZE = r0
  obtain ⟨ret0, fp⟩ := r0
  dsimp only
  split
  · exact h
  have e1 := (ext_lstat w (fp.getD []) st).weaken
  generalize sys_lstat w (fp.getD []) st = r1 at e1 ⊢
  obtain ⟨o1, st1, w1⟩ := r1
  dsimp only at e1 ⊢
  have k1 := h.ext0 e1
  split
  · exact k1
  split
  swap
  · exact k1
  generalize buildTempPath fp (some []) PATHBUFSIZE = r2
  obtain ⟨ret2, tp⟩ := r2
  dsimp only
  split
  · exact k1
  have e3 := open2_openFilePair k1 (fp.getD []) (tp.getD []) O_RDONLY
  generalize openFilePair w1 (fp.getD []) (tp.getD []) O_RDONLY = r3 at e3 ⊢
  obtain ⟨fhs, w3⟩ := r3
  dsimp only at e3 ⊢
  cases fhs with
  | none => exact e3.1
  | some fhs =>
    dsimp only
    obtain ⟨a1, a2⟩ := e3.2 fhs rfl
    have k4 := stable_decryptFH c (stable_open2 a b) e3.1 fhs.encFH fhs.clearFH
    generalize decryptFH c w3 fhs.encFH fhs.clearFH = r4 at k4 ⊢
    obtain ⟨o4, w4⟩ := r4
    dsimp only at k4 ⊢
    split
    · exact k4
    have e5 := (ext_fstat w4 fhs.clearFH st1).weaken
    generalize sys_fstat w4 fhs.clearFH st1 = r5 at e5 ⊢
    obtain ⟨o5, st5, w5⟩ := r5
    dsimp only at e5 ⊢
    have k5 := k4.ext0 e5
    split
    · exact k5
    have k6 := open2_closeFilePair k5 fhs a1 a2
    generalize closeFilePair w5 (some fhs) = r6 at k6 ⊢
    obtain ⟨o6, w6⟩ := r6
    dsimp only at k6 ⊢
    split
    · exact k6
    have k7 := open2_removeFile k6 (tp.getD [])
    generalize removeFile w6 (tp.getD []) = r7 at k7 ⊢
    obtain ⟨o7, w7⟩ := r7
    dsimp only at k7 ⊢
    split <;> exact k7

/-- A path-based `enc_truncate`, on any path and under any schedule of failing
calls, leaves two open handles open. -/
theorem open2_enc_truncate (c : Cipher) {a b : Int} {w : World} (h : Open2 a b w)
    (path : Option Path) (size : Int) : Open2 a b (enc_truncate c w path size).2 := by
  unfold enc_truncate
  generalize buildPath w path (some []) PATHBUFSIZE = r0
  obtain ⟨ret0, fp⟩ := r0
  dsimp only
  split
  · exact h
  generalize buildTempPath fp (some []) PATHBUFSIZE = r2
  obtain ⟨ret2, tp⟩ := r2
  dsimp only
  split
  · exact h
  have e3 := open2_openFilePair h (fp.getD []) (tp.getD []) O_RDWR
  generalize openFilePair w (fp.getD []) (tp.getD []) O_RDWR = r3 at e3 ⊢
  obtain ⟨fhs, w3⟩ := r3
  dsimp only at e3 ⊢
  cases fhs with
  | none => exact e3.1
  | some fhs =>
    dsimp only
    obtain ⟨a1, a2⟩ := e3.2 fhs rfl
    have e4 := (ext_ftruncate w3 fhs.clearFH size).weaken
    generalize sys_ftruncate w3 fhs.clearFH size = r4 at e4 ⊢
    obtain ⟨o4, w4⟩ := r4
    dsimp only at e4 ⊢
    have k4 := e3.1.ext0 e4
    split
    · exact k4
    have k5 := stable_encryptFH c (stable_open2 a b) k4 fhs.clearFH fhs.encFH
    generalize encryptFH c w4 fhs.clearFH fhs.encFH = r5 at k5 ⊢
    obtain ⟨o5, w5⟩ := r5
    dsimp only at k5 ⊢
    split
    · exact k5
    have k6 := open2_closeFilePair k5 fhs a1 a2
    generalize closeFilePair w5 (some fhs) = r6 at k6 ⊢
    obtain ⟨o6, w6⟩ := r6
    dsimp only at k6 ⊢
    split
    · exact k6
    have k7 := open2_removeFile k6 (tp.getD [])
    generalize removeFile w6 (tp.getD []) = r7 at k7 ⊢
    obtain ⟨o7, w7⟩ := r7
    dsimp only at k7 ⊢
    split <;> exact k7

section StableCallbacks
variable {a b : Int} {Q : World → Prop}

end StableCallbacks

/-- Claim C11, evaluated: a fault of the cipher, and a failing `ftruncate`,
are not reported. `enc_open` on a backing file that is not a ciphertext returns
0 although `crypt_decrypt` returned -1, and `decryptFH` itself returns 0; in a
session whose plaintext `X` the cipher refuses, `encryptFH`, `enc_flush` and
`enc_release` return 0 although `crypt_encrypt` returned -1, and the flush
marks the session clean; when the `ftruncate` of `encryptFH` fails with `EIO`,
`encryptFH` returns 0 as well. -/
theorem cipher_fault_not_reported :
    ((faultyCipher.crypt_decrypt TESTKEY helloWorld).1 = -1 ∧
      (enc_open faultyCipher plainWorld (some helloPath) (fi0 O_RDONLY)).1 = 0 ∧
      (let p := openFilePair plainWorld helloFull helloTemp O_RDONLY
       p.1.map (fun fhs => (decryptFH faultyCipher p.2 fhs.encFH fhs.clearFH).1)) = some 0) ∧
    (let s := faultySession bytesX
     (faultyCipher.crypt_encrypt TESTKEY bytesX).1 = -1 ∧
     s.1.fh.dirty = FHS_DIRTY ∧ s.2.bytesOf s.1.fh.clearFH = some bytesX ∧
     (encryptFH faultyCipher s.2 s.1.fh.clearFH s.1.fh.encFH).1 = 0 ∧
     (enc_flush faultyCipher s.2 (some s.1)).1 = 0 ∧
     (enc_flush faultyCipher s.2 (some s.1)).2.1.map (fun fi => fi.fh.dirty)
       = some FHS_CLEAN ∧
     (enc_release faultyCipher s.2 (some s.1)).1 = 0) ∧
    (let s := dirtySession bytesX
     let w := s.2.withFaults [none, none, none, none, some faultEIO]
     (encryptFH demoCipher w s.1.fh.clearFH s.1.fh.encFH).1 = 0 ∧
     (encryptFH demoCipher w s.1.fh.clearFH s.1.fh.encFH).2.errno = 5) := by
  decide

/-- Claim C18, evaluated: a session opened on the stored file `hello world`
satisfies "clean means identical"; after `enc_ftruncate(5)` returns 0 the
session is still clean, the scratch file holds `hello` and the ciphertext
still decrypts to `hello world`, so the predicate no longer holds. -/
theorem ftruncate_breaks_clean_identical :
    cleanIdentical demoCipher (openSession helloWorld).2 (openSession helloWorld).1 = true ∧
    (openSession helloWorld).1.fh.dirty = FHS_CLEAN ∧
    (enc_oper demoCipher (openSession helloWorld).2 (openSession helloWorld).1
      (.ftruncate 5)).1 = 0 ∧
    cleanIdentical demoCipher
      (enc_oper demoCipher (openSession helloWorld).2 (openSession helloWorld).1
        (.ftruncate 5)).2.2
      (enc_oper demoCipher (openSession helloWorld).2 (openSession helloWorld).1
        (.ftruncate 5)).2.1 = false := by
  decide

/-- Claim C20, evaluated: with the root `/b`, `enc_symlink("hello.txt", "/link")`
returns 0 and `enc_readlink("/link", buf, 64)` then returns 0 with
`/bhello.txt` and a NUL byte in `buf`, not `hello.txt` and a NUL byte: the
target went through `buildPath`. -/
theorem symlink_target_gets_root_prefix :
    (enc_symlink world0 (some linkTarget) (some linkPath)).1 = 0 ∧
    64 > linkTarget.length + 1 ∧
    (enc_readlink (enc_symlink world0 (some linkTarget) (some linkPath)).2
      (some linkPath) 64).1 = 0 ∧
    (enc_readlink (enc_symlink world0 (some linkTarget) (some linkPath)).2
      (some linkPath) 64).2.1 = ['/', 'b'] ++ linkTarget ++ [NULLTERM] ∧
    ['/', 'b'] ++ linkTarget ++ [NULLTERM] ≠ linkTarget ++ [NULLTERM] := by
  decide

/-- The calls that the live-pair invariant leaves out do end it, in the session
of scenario S1: `enc_unlink` and `enc_rename` of the scratch file under its
virtual name, the `enc_release` of a second session on the same path (which
shares no descriptor with the first), and, for the handles, the `enc_release`
of the session itself; `enc_getattr` on another path, or on the scratch file
under its virtual name, does not. -/
theorem scratch_removers_end_live_pair :
    livePair (enc_oper_any demoCipher (dirtySession bytesX).2 (.unlink (some helloShadow)))
      (dirtySession bytesX).1.fh = false ∧
    livePair (enc_oper_any demoCipher (dirtySession bytesX).2
      (.rename (some helloShadow) (some linkPath))) (dirtySession bytesX).1.fh = false ∧
    livePair secondSession.2 (dirtySession bytesX).1.fh = true ∧
    closesHandle (dirtySession bytesX).1.fh.encFH (dirtySession bytesX).1.fh.clearFH
      (.release (some secondSession.1)) = false ∧
    livePair (enc_oper_any demoCipher secondSession.2 (.release (some secondSession.1)))
      (dirtySession bytesX).1.fh = false ∧
    ((enc_oper_any demoCipher (dirtySession bytesX).2
      (.release (some (dirtySession bytesX).1))).file
        (dirtySession bytesX).1.fh.encFH).isSome = false ∧
    livePair (enc_oper_any demoCipher (dirtySession bytesX).2 (.getattr (some linkPath) st0))
      (dirtySession bytesX).1.fh = true ∧
    livePair (enc_oper_any demoCipher (dirtySession bytesX).2 (.getattr (some helloShadow) st0))
      (dirtySession bytesX).1.fh = true := by
  decide

/-! ## The command line -/

theorem main_loop_all (realpath : List Char → Option Path) (l : List (List Char)) :
    ∀ (i : Nat) (args : List (List Char)) (basePath : Option Path), 2 < i →
      main_loop realpath i l (args, basePath) = (args ++ l, basePath) := by
  induction l with
  | nil =>
    intro i args basePath _
    simp [main_loop]
  | cons a rest ih =>
    intro i args basePath hi
    have h2 : i ≠ 2 := by omega
    rw [main_loop, if_neg h2, ih (i + 1) (args ++ [a]) basePath (by omega)]
    simp

/-- Claim C21 (command line): with fewer than three arguments `main` writes
the usage text and calls `exit` with the non-zero status `EXIT_FAILURE`, and
`fuse_main` is not called; with three or more, `main` ends in `fuse_main`, the
backing root is `realpath(argv[2])`, and the arguments forwarded are `argv`
with exactly the element at index 2 removed, the others in their order. -/
theorem main_command_line (realpath : List Char → Option Path) (argv : List (List Char)) :
    (argv.length < 3 →
      ∃ text, main realpath argv = MainOutcome.exit EXIT_FAILURE text ∧
        ['U', 's', 'a', 'g', 'e', ':'] <+: text ∧ EXIT_FAILURE ≠ 0) ∧
    (3 ≤ argv.length →
      ∃ a, argv.get? 2 = some a ∧
        main realpath argv = MainOutcome.fuse_main (argv.eraseIdx 2) (realpath a)) := by
  constructor
  · intro h
    unfold main
    rw [if_pos h]
    exact ⟨_, rfl, ⟨_, rfl⟩, by decide⟩
  · intro h
    match argv, h with
    | a0 :: a1 :: a2 :: rest, _ =>
      refine ⟨a2, rfl, ?_⟩
      unfold main
      have hl : ¬ ((a0 :: a1 :: a2 :: rest).length < 3) := by
        simp only [List.length_cons]
        omega
      rw [if_neg hl]
      have h3 : main_loop realpath 0 (a0 :: a1 :: a2 :: rest) ([], none) =
          ([a0, a1] ++ rest, realpath a2) := by
        rw [main_loop, if_neg (by decide), main_loop, if_neg (by decide), main_loop,
          if_pos rfl, main_loop_all realpath rest 3 _ _ (by decide)]
        rfl
      rw [h3]
      rfl

/-- Witness of C21: `prog /mnt data -f` mounts with `prog /mnt -f` on `/srv/data`. -/
theorem main_command_line_witness :
    3 ≤ [['p'], ['/', 'm'], ['d'], ['-', 'f']].length ∧
    (∃ a, [['p'], ['/', 'm'], ['d'], ['-', 'f']].get? 2 = some a ∧
      main demoRealpath [['p'], ['/', 'm'], ['d'], ['-', 'f']] =
        MainOutcome.fuse_main (([['p'], ['/', 'm'], ['d'], ['-', 'f']] :
          List (List Char)).eraseIdx 2) (demoRealpath a)) :=
  ⟨by decide,
   (main_command_line demoRealpath [['p'], ['/', 'm'], ['d'], ['-', 'f']]).2 (by decide)⟩

/-! ## Scratch paths are distinct -/

theorem not_mem_of_strrchr_none {l : Path} {c : Char} (h : strrchr l c = none) : c ∉ l := by
  induction l with
  | nil => simp
  | cons x xs ih =>
    unfold strrchr at h
    cases hxs : strrchr xs c with
    | some j =>
      rw [hxs] at h
      exact absurd h (by simp)
    | none =>
      rw [hxs] at h
      dsimp only at h
      by_cases hx : x = c
      · rw [if_pos hx] at h
        exact absurd h (by simp)
      · intro hmem
        rcases List.mem_cons.mp hmem with e | e
        · exact hx e.symm
        · exact ih hxs e

theorem strrchr_some {l : Path} {c : Char} {i : Nat} (h : strrchr l c = some i) :
    l = l.take i ++ c :: l.drop (i + 1) ∧ c ∉ l.drop (i + 1) := by
  induction l generalizing i with
  | nil => simp [strrchr] at h
  | cons x xs ih =>
    unfold strrchr at h
    cases hxs : strrchr xs c with
    | some j =>
      rw [hxs] at h
      simp only [Option.some.injEq] at h
      subst h
      obtain ⟨h1, h2⟩ := ih hxs
      refine ⟨?_, ?_⟩
      · simp only [List.take_succ_cons, List.drop_succ_cons, List.cons_append]
        rw [← h1]
      · simpa using h2
    | none =>
      rw [hxs] at h
      dsimp only at h
      by_cases hx : x = c
      · rw [if_pos hx] at h
        simp only [Option.some.injEq] at h
        subst h
        subst hx
        refine ⟨by simp, ?_⟩
        simpa using not_mem_of_strrchr_none hxs
      · rw [if_neg hx] at h
        exact absurd h (by simp)

/-- The shape of a successful `buildTempPath`. -/
theorem buildTempPath_shape {p old t : Path} {bufSize : Nat}
    (h0 : 0 < bufSize) (hmax : bufSize < 18446744073709551616)
    (h : buildTempPath (some p) (some old) bufSize = (0, some t)) :
    ∃ d n, p = d ++ PATHDELIMINATOR :: n ∧ PATHDELIMINATOR ∉ n ∧
      t = d ++ ['/', '.', '_'] ++ n ++ ['.', 'd', 'e', 'c', 'r', 'y', 'p', 't'] := by
  have hs := sizePred_pos h0 hmax
  have hs2 : sizePred PATHBUFSIZE = 1023 := by decide
  have hne : bufSize ≠ 0 := by omega
  have hE1 : (-ENAMETOOLONG : Int) ≠ 0 := by decide
  have hE2 : (-EINVAL : Int) ≠ 0 := by decide
  unfold buildTempPath at h
  dsimp only at h
  rw [hs2] at h
  by_cases hlen : p.length > 1023
  · rw [if_pos hlen] at h
    exact absurd (congrArg Prod.fst h) hE1
  · rw [if_neg hlen] at h
    cases hstr : strrchr p PATHDELIMINATOR with
    | none =>
      rw [hstr] at h
      exact absurd (congrArg Prod.fst h) hE2
    | some i =>
      rw [hstr] at h
      dsimp only at h
      obtain ⟨h1, h2⟩ := strrchr_some hstr
      rw [hs] at h
      by_cases hfit : (List.take i p ++ [PATHDELIMINATOR] ++ TEMPNAME_PRE ++
          List.drop (i + 1) p ++ TEMPNAME_POST).length > bufSize - 1
      · rw [if_pos hfit] at h
        exact absurd (congrArg Prod.fst h) hE1
      · rw [if_neg hfit] at h
        refine ⟨p.take i, p.drop (i + 1), h1, h2, ?_⟩
        have ht := congrArg Prod.snd h
        simp only [Option.some.injEq, hne, if_false] at ht
        rw [← ht, List.take_of_length_le (by omega)]
        simp [PATHDELIMINATOR, TEMPNAME_PRE, TEMPNAME_POST]

theorem scratch_shape_inj {d1 n1 d2 n2 : Path}
    (h1 : PATHDELIMINATOR ∉ n1) (h2 : PATHDELIMINATOR ∉ n2)
    (h : d1 ++ ['/', '.', '_'] ++ n1 ++ ['.', 'd', 'e', 'c', 'r', 'y', 'p', 't'] =
      d2 ++ ['/', '.', '_'] ++ n2 ++ ['.', 'd', 'e', 'c', 'r', 'y', 'p', 't']) :
    d1 = d2 ∧ n1 = n2 := by
  have e : ∀ (d n : Path), PATHDELIMINATOR ∉ n →
      strrchr (d ++ ['/', '.', '_'] ++ n ++ ['.', 'd', 'e', 'c', 'r', 'y', 'p', 't'])
        PATHDELIMINATOR = some d.length := by
    intro d n hn
    have hm : PATHDELIMINATOR ∉ ['.', '_'] ++ n ++ ['.', 'd', 'e', 'c', 'r', 'y', 'p', 't'] := by
      simp only [List.mem_append, not_or]
      exact ⟨⟨by decide, hn⟩, by decide⟩
    have := strrchr_append (d := d) hm
    simpa [PATHDELIMINATOR] using this
  have e1 := e d1 n1 h1
  have e2 := e d2 n2 h2
  rw [h, e2] at e1
  have hlen : d2.length = d1.length := Option.some.inj e1
  have hd : d1 = d2 := by
    have := congrArg (List.take d1.length) h
    simp only [List.append_assoc] at this
    rw [List.take_left, ← hlen, List.take_left] at this
    exact this
  subst hd
  simp only [List.append_assoc, List.append_cancel_left_eq] at h
  exact ⟨rfl, List.append_cancel_right h⟩

/-- Claim C25 (`buildTempPath` is injective where it succeeds): for a buffer of
`bufSize` bytes (`0 < bufSize`, a `size_t`), when `buildTempPath` returns 0 on
the backing paths `p` and `q`, with the scratch paths `t1` and `t2`, and `p`
differs from `q`, then `t1` differs from `t2`. -/
theorem buildTempPath_injective (p q old1 old2 t1 t2 : Path) (bufSize : Nat)
    (h0 : 0 < bufSize) (hmax : bufSize < 18446744073709551616)
    (hp : buildTempPath (some p) (some old1) bufSize = (0, some t1))
    (hq : buildTempPath (some q) (some old2) bufSize = (0, some t2))
    (hne : p ≠ q) : t1 ≠ t2 := by
  obtain ⟨d1, n1, e1, m1, s1⟩ := buildTempPath_shape h0 hmax hp
  obtain ⟨d2, n2, e2, m2, s2⟩ := buildTempPath_shape h0 hmax hq
  intro ht
  rw [s1, s2] at ht
  obtain ⟨hd, hn⟩ := scratch_shape_inj m1 m2 ht
  exact hne (by rw [e1, e2, hd, hn])

/-- Witness of C25: the files `/b/hello.txt` and `/b/link` have different scratch paths. -/
theorem buildTempPath_injective_witness :
    buildTempPath (some helloFull) (some []) PATHBUFSIZE = (0, some helloTemp) ∧
    buildTempPath (some (['/', 'b'] ++ linkPath)) (some []) PATHBUFSIZE =
      (0, some ['/', 'b', '/', '.', '_', 'l', 'i', 'n', 'k', '.', 'd', 'e', 'c', 'r', 'y',
        'p', 't']) ∧
    helloFull ≠ ['/', 'b'] ++ linkPath ∧
    helloTemp ≠ ['/', 'b', '/', '.', '_', 'l', 'i', 'n', 'k', '.', 'd', 'e', 'c', 'r', 'y',
      'p', 't'] :=
  ⟨by decide, by decide, by decide,
   buildTempPath_injective helloFull (['/', 'b'] ++ linkPath) [] [] helloTemp _ PATHBUFSIZE
     (by decide) (by decide) (by decide) (by decide) (by decide)⟩

/-! ## Directory listing -/

theorem scanFills_spec (a : List Fill → Fill → Bool) :
    ∀ (l : List dirent) (buf : List Fill) (i : Nat),
      i ≤ (scanFills a buf l i).2 ∧ (scanFills a buf l i).2 ≤ i + l.length ∧
      (scanFills a buf l i).1 = buf ++ (fills l i).take ((scanFills a buf l i).2 - i) ∧
      (∀ e, l.get? ((scanFills a buf l i).2 - i) = some e →
        a (scanFills a buf l i).1 (fillOf e (scanFills a buf l i).2) = false) := by
  intro l
  induction l with
  | nil =>
    intro buf i
    simp [scanFills, fills]
  | cons e rest ih =>
    intro buf i
    unfold scanFills
    by_cases hacc : a buf (fillOf e i) = true
    · rw [if_pos hacc]
      obtain ⟨h1, h2, h3, h4⟩ := ih (buf ++ [fillOf e i]) (i + 1)
      generalize scanFills a (buf ++ [fillOf e i]) rest (i + 1) = r at h1 h2 h3 h4
      obtain ⟨b1, k1⟩ := r
      dsimp only at h1 h2 h3 h4 ⊢
      have hk : k1 - i = (k1 - (i + 1)) + 1 := by omega
      refine ⟨by omega, by simp only [List.length_cons]; omega, ?_, ?_⟩
      · rw [h3, hk]
        simp [fills]
      · intro e1 he1
        rw [hk] at he1
        exact h4 e1 (by simpa using he1)
    · rw [if_neg hacc]
      dsimp only
      refine ⟨le_refl _, by omega, by simp, ?_⟩
      intro e1 he1
      simp only [Nat.sub_self, List.get?_cons_zero, Option.some.injEq] at he1
      subst he1
      simpa using hacc

theorem fills_drop (E : List dirent) : ∀ (k i : Nat),
    fills (E.drop k) (i + k) = (fills E i).drop k := by
  induction E with
  | nil =>
    intro k i
    simp [fills]
  | cons e rest ih =>
    intro k i
    cases k with
    | zero => simp
    | succ k =>
      simp only [List.drop_succ_cons, fills]
      have := ih k (i + 1)
      rw [← this]
      congr 1
      omega

theorem fills_length (E : List dirent) : ∀ i, (fills E i).length = E.length := by
  induction E with
  | nil => intro i; rfl
  | cons e rest ih => intro i; simp [fills, ih]

/-- The loop of `enc_readdir` from a handle with nothing cached. -/
theorem enc_readdir_loop_none (a : List Fill → Fill → Bool) (E : List dirent) :
    ∀ (m k fuel : Nat) (buf : List Fill), E.length - k ≤ m → m + 1 ≤ fuel →
      enc_readdir_loop (listFiller a) fuel buf
          { dp := { entries := E, loc := k }, entry := none, offset := (k : Int) } =
        ((scanFills a buf (E.drop k) k).1,
         { dp := { entries := E,
                   loc := if (scanFills a buf (E.drop k) k).2 < E.length
                     then (scanFills a buf (E.drop k) k).2 + 1
                     else (scanFills a buf (E.drop k) k).2 },
           entry := E.get? (scanFills a buf (E.drop k) k).2,
           offset := ((scanFills a buf (E.drop k) k).2 : Int) }) := by
  intro m
  induction m with
  | zero =>
    intro k fuel buf hm hf
    have hk : E.length ≤ k := by omega
    obtain ⟨f, rfl⟩ : ∃ f, fuel = f + 1 := ⟨fuel - 1, by omega⟩
    have hget : E.get? k = none := List.get?_eq_none.mpr hk
    have hdrop : E.drop k = [] := List.drop_eq_nil_of_le hk
    have hlt : ¬ k < E.length := by omega
    simp only [enc_readdir_loop, readdir, hget, hdrop, scanFills, hlt, if_false]
  | succ m ih =>
    intro k fuel buf hm hf
    obtain ⟨f, rfl⟩ : ∃ f, fuel = f + 1 := ⟨fuel - 1, by omega⟩
    cases hget : E.get? k with
    | none =>
      have hk : E.length ≤ k := List.get?_eq_none.mp hget
      have hdrop : E.drop k = [] := List.drop_eq_nil_of_le hk
      have hlt : ¬ k < E.length := by omega
      simp only [enc_readdir_loop, readdir, hget, hdrop, scanFills, hlt, if_false]
    | some e =>
      have hk : k < E.length := by
        by_contra hc
        rw [List.get?_eq_none.mpr (by omega)] at hget
        exact absurd hget (by simp)
      have hdrop : E.drop k = e :: E.drop (k + 1) := by
        rw [List.drop_eq_getElem_cons hk]
        congr 1
        have := List.get?_eq_getElem?  E k
        rw [List.get?_eq_getElem?, List.getElem?_eq_getElem hk] at hget
        exact Option.some.inj hget
      rw [hdrop]
      unfold enc_readdir_loop scanFills
      simp only [readdir, hget, telldir]
      have hfill : Fill.mk e.d_name
          { stat_zero with st_ino := e.d_ino, st_mode := e.d_type <<< 12 }
          ((k + 1 : Nat) : Int) = fillOf e k := rfl
      by_cases hacc : a buf (fillOf e k) = true
      · simp only [listFiller, hfill, hacc, if_true, ne_eq, not_true_eq_false, if_false]
        rw [ih (k + 1) f (buf ++ [fillOf e k]) (by omega) (by omega)]
      · have hrej : a buf (fillOf e k) = false := by simpa using hacc
        simp only [listFiller, hfill, hrej, Bool.false_eq_true, if_false, ne_eq, one_ne_zero,
          not_false_eq_true, if_true, hk, hget]

/-- The loop of `enc_readdir` from a handle whose state is in step with the
stream at location `k`: a cached entry is offered first, then the stream is
read on. -/
theorem enc_readdir_loop_instep (a : List Fill → Fill → Bool) (d : enc_dirp_t) (k fuel : Nat)
    (buf : List Fill) (hd : InStep d k) (hf : d.dp.entries.length - k + 2 ≤ fuel) :
    enc_readdir_loop (listFiller a) fuel buf d =
      ((scanFills a buf (d.dp.entries.drop k) k).1,
       { dp := { entries := d.dp.entries,
                 loc := if (scanFills a buf (d.dp.entries.drop k) k).2 < d.dp.entries.length
                   then (scanFills a buf (d.dp.entries.drop k) k).2 + 1
                   else (scanFills a buf (d.dp.entries.drop k) k).2 },
         entry := d.dp.entries.get? (scanFills a buf (d.dp.entries.drop k) k).2,
         offset := ((scanFills a buf (d.dp.entries.drop k) k).2 : Int) }) := by
  obtain ⟨⟨E, loc⟩, entry, offset⟩ := d
  obtain ⟨hoff, hcase⟩ := hd
  dsimp only at hoff hcase hf ⊢
  subst hoff
  rcases hcase with ⟨hnone, hloc⟩ | ⟨hsome, hne, hloc⟩
  · subst hnone
    subst hloc
    exact enc_readdir_loop_none a E (E.length - loc) loc fuel buf (le_refl _) (by omega)
  · subst hloc
    cases hget : E.get? k with
    | none => rw [hget] at hsome; exact absurd hsome hne
    | some e =>
      rw [hget] at hsome
      subst hsome
      have hk : k < E.length := by
        by_contra hc
        rw [List.get?_eq_none.mpr (by omega)] at hget
        exact absurd hget (by simp)
      have hdrop : E.drop k = e :: E.drop (k + 1) := by
        rw [List.drop_eq_getElem_cons hk]
        congr 1
        rw [List.get?_eq_getElem?, List.getElem?_eq_getElem hk] at hget
        exact Option.some.inj hget
      obtain ⟨f, rfl⟩ : ∃ f, fuel = f + 1 := ⟨fuel - 1, by omega⟩
      rw [hdrop]
      unfold enc_readdir_loop scanFills
      simp only [telldir]
      have hfill : Fill.mk e.d_name
          { stat_zero with st_ino := e.d_ino, st_mode := e.d_type <<< 12 }
          ((k + 1 : Nat) : Int) = fillOf e k := rfl
      by_cases hacc : a buf (fillOf e k) = true
      · simp only [listFiller, hfill, hacc, if_true, ne_eq, not_true_eq_false, if_false]
        rw [enc_readdir_loop_none a E (E.length - (k + 1)) (k + 1) f (buf ++ [fillOf e k])
          (le_refl _) (by omega)]
      · have hrej : a buf (fillOf e k) = false := by simpa using hacc
        simp only [listFiller, hfill, hrej, Bool.false_eq_true, if_false, ne_eq, one_ne_zero,
          not_false_eq_true, if_true, hk, hget]

/-- What the loop's closed form says in words: the entries from `k` up to some
`j` went into the buffer, the handle is in step at `j`, and the entry at `j`,
when there is one, was refused and is cached. -/
theorem scan_result (a : List Fill → Fill → Bool) (E : List dirent) (k : Nat) (buf : List Fill) :
    ∃ j, k ≤ j ∧ j = (scanFills a buf (E.drop k) k).2 ∧
      (scanFills a buf (E.drop k) k).1 = buf ++ (fills (E.drop k) k).take (j - k) ∧
      (∀ e, E.get? j = some e →
        a (buf ++ (fills (E.drop k) k).take (j - k)) (fillOf e j) = false) := by
  obtain ⟨h1, _, h3, h4⟩ := scanFills_spec a (E.drop k) buf k
  refine ⟨_, h1, rfl, h3, ?_⟩
  intro e he
  rw [← h3]
  apply h4
  rw [List.get?_eq_getElem?, List.getElem?_drop]
  rw [List.get?_eq_getElem?] at he
  rw [← he]
  congr 1
  omega

theorem instep_result (E : List dirent) (j : Nat) :
    InStep { dp := { entries := E, loc := if j < E.length then j + 1 else j },
             entry := E.get? j, offset := (j : Int) } j := by
  refine ⟨rfl, ?_⟩
  by_cases hj : j < E.length
  · right
    refine ⟨rfl, ?_, by simp [hj]⟩
    dsimp only
    rw [List.get?_eq_getElem?, List.getElem?_eq_getElem hj]
    simp
  · left
    refine ⟨List.get?_eq_none.mpr (by omega), by simp [hj]⟩

/-- One call of `enc_readdir` at the offset the handle stores. -/
theorem enc_readdir_continue (a : List Fill → Fill → Bool) (d : enc_dirp_t) (k : Nat)
    (buf : List Fill) (hd : InStep d k) :
    ∃ j, k ≤ j ∧
      enc_readdir (listFiller a) buf d.offset d =
        (RETURN_SUCCESS, buf ++ (fills (d.dp.entries.drop k) k).take (j - k),
          { dp := { entries := d.dp.entries,
                    loc := if j < d.dp.entries.length then j + 1 else j },
            entry := d.dp.entries.get? j, offset := (j : Int) }) ∧
      (∀ e, d.dp.entries.get? j = some e →
        a (buf ++ (fills (d.dp.entries.drop k) k).take (j - k)) (fillOf e j) = false) := by
  obtain ⟨j, hkj, hj, hbuf, hrej⟩ := scan_result a d.dp.entries k buf
  refine ⟨j, hkj, ?_, hrej⟩
  unfold enc_readdir
  simp only [ne_eq, not_true_eq_false, if_false]
  rw [enc_readdir_loop_instep a d k _ buf hd (by omega), hbuf, ← hj]

/-- One call of `enc_readdir` at another offset than the one stored. -/
theorem enc_readdir_reseek (a : List Fill → Fill → Bool) (d : enc_dirp_t)
    (buf : List Fill) (offset : Int) (ho : 0 ≤ offset) (hne : offset ≠ d.offset) :
    ∃ j, offset.toNat ≤ j ∧
      enc_readdir (listFiller a) buf offset d =
        (RETURN_SUCCESS,
          buf ++ (fills (d.dp.entries.drop offset.toNat) offset.toNat).take (j - offset.toNat),
          { dp := { entries := d.dp.entries,
                    loc := if j < d.dp.entries.length then j + 1 else j },
            entry := d.dp.entries.get? j, offset := (j : Int) }) ∧
      (∀ e, d.dp.entries.get? j = some e →
        a (buf ++ (fills (d.dp.entries.drop offset.toNat) offset.toNat).take (j - offset.toNat))
          (fillOf e j) = false) := by
  obtain ⟨j, hkj, hj, hbuf, hrej⟩ := scan_result a d.dp.entries offset.toNat buf
  refine ⟨j, hkj, ?_, hrej⟩
  unfold enc_readdir
  simp only [ne_eq, hne, not_false_eq_true, if_true]
  have hstep : InStep { dp := seekdir d.dp offset, entry := none, offset := offset }
      offset.toNat := by
    refine ⟨?_, Or.inl ⟨rfl, rfl⟩⟩
    dsimp only
    omega
  have := enc_readdir_loop_instep a
    { dp := seekdir d.dp offset, entry := none, offset := offset } offset.toNat
    (d.dp.entries.length + 2) buf hstep (by dsimp only [seekdir]; omega)
  dsimp only [seekdir] at this ⊢
  rw [this, hbuf, ← hj]

/-- Consecutive calls of `enc_readdir`, each at the offset the handle stores. -/
theorem readdirCalls_spec : ∀ (accepts : List (List Fill → Fill → Bool)) (d : enc_dirp_t) (k : Nat),
    InStep d k →
    ∃ j, k ≤ j ∧ InStep (readdirCalls accepts d).2 j ∧
      (readdirCalls accepts d).2.dp.entries = d.dp.entries ∧
      (readdirCalls accepts d).1.flatten = (fills (d.dp.entries.drop k) k).take (j - k) ∧
      (accepts ≠ [] → (readdirCalls accepts d).2.entry = d.dp.entries.get? j) := by
  intro accepts
  induction accepts with
  | nil =>
    intro d k hd
    exact ⟨k, le_refl _, hd, rfl, by simp [readdirCalls], fun h => absurd rfl h⟩
  | cons a rest ih =>
    intro d k hd
    obtain ⟨j1, hkj1, hcall, _⟩ := enc_readdir_continue a d k [] hd
    unfold readdirCalls
    rw [hcall]
    dsimp only
    have hstep := instep_result d.dp.entries j1
    by_cases hrest : rest = []
    · subst hrest
      refine ⟨j1, hkj1, hstep, rfl, ?_, fun _ => rfl⟩
      simp [readdirCalls]
    · obtain ⟨j, hj1j, hfin, hent, hjoin, hlast⟩ := ih _ j1 hstep
      dsimp only at hent hjoin hlast
      refine ⟨j, by omega, hfin, hent, ?_, fun _ => hlast hrest⟩
      rw [List.flatten_cons, hjoin, List.nil_append]
      have e1 := fills_drop d.dp.entries k 0
      have e2 := fills_drop d.dp.entries j1 0
      rw [Nat.zero_add] at e1 e2
      rw [e1, e2]
      have hj : j - k = (j1 - k) + (j - j1) := by omega
      have hd2 : List.drop j1 (fills d.dp.entries 0) =
          List.drop (j1 - k) (List.drop k (fills d.dp.entries 0)) := by
        rw [List.drop_drop]
        congr 1
        omega
      rw [hj, hd2, List.take_add]

/-- A stream from `opendir` stands at its first entry. -/
theorem sys_opendir_loc (w : World) (path : Path) (dp : DIR)
    (h : (sys_opendir w path).1 = some dp) : dp.loc = 0 := by
  unfold sys_opendir at h
  generalize w.enter (.sOpendir path) = en at h
  obtain ⟨f, w1⟩ := en
  cases f with
  | some e => simp at h
  | none =>
    dsimp only at h
    cases hn : w1.names path with
    | none => rw [hn] at h; simp at h
    | some ino =>
      rw [hn] at h
      dsimp only at h
      cases hi : w1.inodes ino with
      | none => rw [hi] at h; simp at h
      | some f =>
        rw [hi] at h
        dsimp only at h
        split at h
        · simp at h
        · simp only [Option.some.injEq] at h
          subst h
          rfl

/-- A handle from `enc_opendir` is in step with its stream at location 0,
with nothing cached. -/
theorem enc_opendir_instep (w w1 : World) (path : Option Path) (r : Int) (d : enc_dirp_t)
    (h : enc_opendir w path = (r, some d, w1)) :
    InStep d 0 ∧ d.entry = none := by
  unfold enc_opendir at h
  generalize sys_malloc w = m at h
  obtain ⟨ok, w2⟩ := m
  dsimp only at h
  split at h
  · simp at h
  · generalize buildPath w2 path (some []) PATHBUFSIZE = b at h
    obtain ⟨ret, fullPath⟩ := b
    dsimp only at h
    split at h
    · simp at h
    · have hloc := sys_opendir_loc w2 (fullPath.getD [])
      generalize sys_opendir w2 (fullPath.getD []) = o at h hloc
      obtain ⟨dp, w3⟩ := o
      dsimp only at h
      cases dp with
      | none => simp at h
      | some dp =>
        dsimp only at h
        simp only [Prod.mk.injEq, Option.some.injEq] at h
        obtain ⟨_, hd, _⟩ := h
        subst hd
        exact ⟨⟨rfl, Or.inl ⟨rfl, hloc dp rfl⟩⟩, rfl⟩

/-- Claim C22 (`enc_readdir` resumes without loss): for a directory handle in
step with its stream at location `k` (nothing cached and the stream at `k`, or
the entry at `k` cached and the stream one past it; `enc_opendir` gives such a
handle at 0), and a filler that keeps what it accepts: (1) a call with the
stored offset returns 0, offers the entries from `k` on in order, each once,
with its name, `st_ino = d_ino`, `st_mode = d_type << 12` and the offset after
it, starting with the cached entry when there is one, up to some `j`; the entry
at `j`, if any, was refused, is cached, and the stored offset is `j`, the
offset before it, with the stream one past it; (2) a call with another offset
(not negative) does the same from that offset on, whatever was cached; (3) any
run of calls each passing the stored offset hands over the entries from `k` up
to some `j` once each in order, all of them when the last call ended with
nothing cached; (4) the loop ends by itself: more rounds change nothing. -/
theorem readdir_resumes (accept : List Fill → Fill → Bool) (d : enc_dirp_t) (k : Nat)
    (buf : List Fill) (hd : InStep d k) :
    (∃ j, k ≤ j ∧
      enc_readdir (listFiller accept) buf d.offset d =
        (RETURN_SUCCESS, buf ++ (fills (d.dp.entries.drop k) k).take (j - k),
          { dp := { entries := d.dp.entries,
                    loc := if j < d.dp.entries.length then j + 1 else j },
            entry := d.dp.entries.get? j, offset := (j : Int) }) ∧
      InStep (enc_readdir (listFiller accept) buf d.offset d).2.2 j ∧
      (∀ e, d.dp.entries.get? j = some e →
        accept (buf ++ (fills (d.dp.entries.drop k) k).take (j - k)) (fillOf e j) = false)) ∧
    (∀ offset : Int, 0 ≤ offset → offset ≠ d.offset →
      ∃ j, offset.toNat ≤ j ∧
        enc_readdir (listFiller accept) buf offset d =
          (RETURN_SUCCESS,
            buf ++ (fills (d.dp.entries.drop offset.toNat) offset.toNat).take (j - offset.toNat),
            { dp := { entries := d.dp.entries,
                      loc := if j < d.dp.entries.length then j + 1 else j },
              entry := d.dp.entries.get? j, offset := (j : Int) }) ∧
        InStep (enc_readdir (listFiller accept) buf offset d).2.2 j ∧
        (∀ e, d.dp.entries.get? j = some e →
          accept
            (buf ++ (fills (d.dp.entries.drop offset.toNat) offset.toNat).take (j - offset.toNat))
            (fillOf e j) = false)) ∧
    (∀ accepts : List (List Fill → Fill → Bool),
      ∃ j, k ≤ j ∧ InStep (readdirCalls accepts d).2 j ∧
        (readdirCalls accepts d).1.flatten = (fills (d.dp.entries.drop k) k).take (j - k) ∧
        (accepts ≠ [] → (readdirCalls accepts d).2.entry = none →
          (readdirCalls accepts d).1.flatten = fills (d.dp.entries.drop k) k)) ∧
    (∀ (e : dirent) (i : Nat) (l : List dirent),
      fills (e :: l) i =
        { name := e.d_name,
          st := { stat_zero with st_ino := e.d_ino, st_mode := e.d_type <<< 12 },
          off := ((i + 1 : Nat) : Int) } :: fills l (i + 1)) ∧
    (∀ fuel, d.dp.entries.length + 2 ≤ fuel →
      enc_readdir_loop (listFiller accept) fuel buf d =
        enc_readdir_loop (listFiller accept) (d.dp.entries.length + 2) buf d) := by
  refine ⟨?_, ?_, ?_, ?_, ?_⟩
  · obtain ⟨j, hkj, hcall, hrej⟩ := enc_readdir_continue accept d k buf hd
    refine ⟨j, hkj, hcall, ?_, hrej⟩
    rw [hcall]
    exact instep_result d.dp.entries j
  · intro offset ho hne
    obtain ⟨j, hkj, hcall, hrej⟩ := enc_readdir_reseek accept d buf offset ho hne
    refine ⟨j, hkj, hcall, ?_, hrej⟩
    rw [hcall]
    exact instep_result d.dp.entries j
  · intro accepts
    obtain ⟨j, hkj, hfin, _, hjoin, hlast⟩ := readdirCalls_spec accepts d k hd
    refine ⟨j, hkj, hfin, hjoin, ?_⟩
    intro hne hnone
    rw [hjoin]
    apply List.take_of_length_le
    rw [fills_length, List.length_drop]
    have hj := hlast hne
    rw [hnone] at hj
    have := List.get?_eq_none.mp hj.symm
    omega
  · intro e i l
    rfl
  · intro fuel hf
    rw [enc_readdir_loop_instep accept d k fuel buf hd (by omega),
      enc_readdir_loop_instep accept d k _ buf hd (by omega)]

/-- Witness of C22: a directory of three entries listed by two calls whose
filler takes two entries per call. -/
theorem readdir_resumes_witness :
    InStep dirABC 0 ∧
    (readdirCalls [twoSlots, twoSlots] dirABC).1 =
      [[fillOf dirABC.dp.entries[0] 0, fillOf dirABC.dp.entries[1] 1],
       [fillOf dirABC.dp.entries[2] 2]] ∧
    ∃ j, 0 ≤ j ∧ InStep (readdirCalls [twoSlots, twoSlots] dirABC).2 j ∧
      (readdirCalls [twoSlots, twoSlots] dirABC).1.flatten =
        (fills (dirABC.dp.entries.drop 0) 0).take (j - 0) ∧
      ([twoSlots, twoSlots] ≠ [] → (readdirCalls [twoSlots, twoSlots] dirABC).2.entry = none →
        (readdirCalls [twoSlots, twoSlots] dirABC).1.flatten =
          fills (dirABC.dp.entries.drop 0) 0) :=
  ⟨⟨rfl, Or.inl ⟨rfl, rfl⟩⟩, by decide,
    (readdir_resumes twoSlots dirABC 0 [] ⟨rfl, Or.inl ⟨rfl, rfl⟩⟩).2.2.1 [twoSlots, twoSlots]⟩

/-! ## Scratch names in the virtual namespace -/

theorem buildPath_fits (w : World) (R p old : Path)
    (hR : w.private_data = some { basePath := R })
    (hfit : R.length + p.length ≤ 1023) :
    buildPath w (some p) (some old) PATHBUFSIZE = (0, some (R ++ p)) := by
  have hs2 : sizePred PATHBUFSIZE = 1023 := by decide
  have h1 : ¬ ((R ++ p).length > 1023) := by
    rw [List.length_append]; omega
  have h2 : (R ++ p).take (PATHBUFSIZE - 1) = R ++ p := by
    apply List.take_of_length_le
    rw [List.length_append]
    have : PATHBUFSIZE = 1024 := rfl
    omega
  have h3 : PATHBUFSIZE ≠ 0 := by decide
  simp only [buildPath, hR, hs2, h3, if_false, h1, h2, RETURN_SUCCESS]

theorem buildTempPath_fits (d n old : Path) (hn : PATHDELIMINATOR ∉ n)
    (hfit : d.length + n.length + 11 ≤ 1023) :
    buildTempPath (some (d ++ PATHDELIMINATOR :: n)) (some old) PATHBUFSIZE =
      (0, some (d ++ ['/', '.', '_'] ++ n ++ ['.', 'd', 'e', 'c', 'r', 'y', 'p', 't'])) := by
  have hs2 : sizePred PATHBUFSIZE = 1023 := by decide
  have hne : PATHBUFSIZE ≠ 0 := by decide
  have hlen : ¬ ((d ++ PATHDELIMINATOR :: n).length > 1023) := by
    simp only [List.length_append, List.length_cons]; omega
  have hstr := strrchr_append (d := d) hn
  have htake : (d ++ PATHDELIMINATOR :: n).take d.length = d := by simp
  have hdrop : (d ++ PATHDELIMINATOR :: n).drop (d.length + 1) = n := by
    rw [List.drop_append_eq_append_drop]
    simp
  have hshape : d ++ [PATHDELIMINATOR] ++ TEMPNAME_PRE ++ n ++ TEMPNAME_POST =
      d ++ ['/', '.', '_'] ++ n ++ ['.', 'd', 'e', 'c', 'r', 'y', 'p', 't'] := by
    simp [PATHDELIMINATOR, TEMPNAME_PRE, TEMPNAME_POST]
  have hl : (d ++ ['/', '.', '_'] ++ n ++ ['.', 'd', 'e', 'c', 'r', 'y', 'p', 't']).length =
      d.length + n.length + 11 := by
    simp only [List.length_append, List.length_cons, List.length_nil]
    omega
  have h1 : ¬ ((d ++ ['/', '.', '_'] ++ n ++
      ['.', 'd', 'e', 'c', 'r', 'y', 'p', 't']).length > 1023) := by
    rw [hl]; omega
  have h2 : (d ++ ['/', '.', '_'] ++ n ++
      ['.', 'd', 'e', 'c', 'r', 'y', 'p', 't']).take (PATHBUFSIZE - 1) =
      d ++ ['/', '.', '_'] ++ n ++ ['.', 'd', 'e', 'c', 'r', 'y', 'p', 't'] := by
    apply List.take_of_length_le
    rw [hl]
    have : PATHBUFSIZE = 1024 := rfl
    omega
  simp only [buildTempPath, hs2, hlen, if_false, hstr, htake, hdrop, hshape, hne, h1, h2,
    RETURN_SUCCESS]

/-- The callback `enc_getattr` on a regular file whose scratch path names
another regular file, no call failing: that file is overwritten and unlinked. -/
theorem enc_getattr_occupied (c : Cipher) (w : World) (P full tmp : Path) (st : stat_t)
    {ie ic : Nat} {fe fc : Inode}
    (hf : w.faults = [])
    (hfull : buildPath w (some P) (some []) PATHBUFSIZE = (0, some full))
    (htmp : buildTempPath (some full) (some []) PATHBUFSIZE = (0, some tmp))
    (hn1 : w.names full = some ie) (hie : w.inodes ie = some fe)
    (hreg : S_ISREG fe.mode = true)
    (hn2 : w.names tmp = some ic) (hic : w.inodes ic = some fc)
    (hregc : S_ISREG fc.mode = true) (hnino : ie ≠ ic) :
    ∃ w1 st1,
      enc_getattr c w (some P) st = (0, st1, w1) ∧
      w1.names = upd w.names tmp none ∧
      w1.inodes ic =
        some { fc with data := (c.crypt_decrypt TESTKEY fe.data).2, nlink := fc.nlink - 1 } := by
  obtain ⟨hne, hlen⟩ := buildTempPath_ok htmp
  obtain ⟨pd, nm, ino, ofl, fds, nx, er, fl, tr⟩ := w
  simp only at hf hie hic hn1 hn2 ⊢
  subst hf
  unfold enc_getattr
  rw [hfull]
  dsimp only
  simp only [lt_self_iff_false, if_false, Option.getD_some]
  rw [sys_lstat_mk st hn1 hie]
  dsimp only
  have hm : (fe.stat ie).st_mode = fe.mode := rfl
  simp only [lt_self_iff_false, if_false, hm, hreg, if_true]
  rw [htmp]
  dsimp only
  obtain ⟨tr1, h1⟩ := openFilePair_old_mk (D := pd) (O := ofl) (F := fds)
    (X := nx) (E := er) (T := Sys.sLstat full :: tr) (L := O_RDONLY)
    hn1 hie hreg hn2 hic hregc hlen (Or.inl rfl)
  simp only [lt_self_iff_false, if_false, Option.getD_some]
  rw [h1]
  dsimp only
  obtain ⟨tr2, h2⟩ := decryptFH_mk c (D := pd) (N := nm)
    (I := upd ino ic (some { fc with data := [] }))
    (O := upd (upd ofl nx
      (some { ino := ie, pos := 0, rd := true, wr := (O_RDONLY != O_RDONLY) }))
        (nx + 1) (some { ino := ic, pos := 0, rd := true, wr := true }))
    (F := upd (upd fds nx (some nx)) (nx + 1) (some (nx + 1)))
    (X := nx + 2) (E := er) (T := tr1)
    (J := nx) (K := nx) (U := nx + 1) (V := nx + 1)
    (S := { ino := ie, pos := 0, rd := true, wr := (O_RDONLY != O_RDONLY) })
    (G := { ino := ic, pos := 0, rd := true, wr := true })
    (Q := fe) (R := { fc with data := [] })
    (by simp [upd]) (by simp [upd]) rfl (by simp [upd]) (by simp [upd]) rfl (by omega)
    hnino (by simp [upd, hnino, hie]) (by simp [upd]) (by omega) (by omega) (by simp) (by simp)
  rw [h2]
  dsimp only
  simp only [Nat.cast_ofNat, Int.Nat.cast_ofNat_Int, lt_self_iff_false, if_false,
    CharP.cast_eq_zero]
  rw [sys_fstat_mk (k := nx + 1) (f := { ino := ic, pos := 0, rd := true, wr := true })
    (i := { fc with data := (c.crypt_decrypt TESTKEY fe.data).2 }) _ ?_ ?_ ?_]
  rotate_left
  · simp only [upd]
    split_ifs <;> first | rfl | omega
  · simp [upd]
  · simp [upd]
  dsimp only
  simp only [lt_self_iff_false, if_false]
  rw [closeFilePair_mk (K := nx) (V := nx + 1)
    (S := { ino := ie, pos := 0, rd := true, wr := (O_RDONLY != O_RDONLY) })
    (G := { ino := ic, pos := 0, rd := true, wr := true }) _ _ ?_ ?_ ?_ ?_ (by omega)]
  rotate_left
  · simp only [upd]
    split_ifs <;> first | rfl | omega
  · simp [upd]
  · simp only [upd]
    split_ifs <;> first | rfl | omega
  · simp [upd]
  dsimp only
  simp only [lt_self_iff_false, if_false]
  rw [removeFile_mk (i := ic)
    (f := { fc with data := (c.crypt_decrypt TESTKEY fe.data).2 }) hn2 ?_ hregc]
  rotate_left
  · simp [upd]
  dsimp only
  simp only [lt_self_iff_false, if_false]
  refine ⟨_, _, rfl, rfl, ?_⟩
  simp [upd]

/-- The callback `enc_open` on a regular file whose scratch path names another
regular file, no call failing: that file is overwritten and becomes the
plaintext side of the session. -/
theorem enc_open_occupied (c : Cipher) (w : World) (P full tmp : Path) (fi : fuse_file_info)
    {ie ic : Nat} {fe fc : Inode}
    (hf : w.faults = [])
    (hfull : buildPath w (some P) (some []) PATHBUFSIZE = (0, some full))
    (htmp : buildTempPath (some full) (some []) PATHBUFSIZE = (0, some tmp))
    (hn1 : w.names full = some ie) (hie : w.inodes ie = some fe)
    (hreg : S_ISREG fe.mode = true)
    (hn2 : w.names tmp = some ic) (hic : w.inodes ic = some fc)
    (hregc : S_ISREG fc.mode = true) (hnino : ie ≠ ic)
    (hlie : ie < w.next) (hlic : ic < w.next)
    (hfl : fi.flags = O_RDONLY ∨ fi.flags = O_WRONLY ∨ fi.flags = O_RDWR) :
    ∃ w1,
      enc_open c w (some P) fi =
        (0, { fi with fh := { encFH := (w.next : Int), clearFH := ((w.next + 1 : Nat) : Int),
                              clearPath := tmp, dirty := FHS_CLEAN } }, w1) ∧
      Live w1 w.next (w.next + 1) ie ic true (fi.flags != O_RDONLY) fe
        { fc with data := (c.crypt_decrypt TESTKEY fe.data).2 } ∧
      w1.names = w.names := by
  obtain ⟨hne, hlen⟩ := buildTempPath_ok htmp
  obtain ⟨pd, nm, ino, ofl, fds, nx, er, fl, tr⟩ := w
  simp only at hf hie hic hn1 hn2 hlie hlic ⊢
  subst hf
  unfold enc_open
  rw [hfull]
  dsimp only
  rw [htmp]
  dsimp only
  obtain ⟨tr1, h1⟩ := openFilePair_old_mk (D := pd) (O := ofl) (F := fds)
    (X := nx) (E := er) (T := tr) (L := fi.flags)
    hn1 hie hreg hn2 hic hregc hlen hfl
  simp only [lt_self_iff_false, if_false, Option.getD_some]
  rw [h1]
  dsimp only
  obtain ⟨tr2, h2⟩ := decryptFH_mk c (D := pd) (N := nm)
    (I := upd ino ic (some { fc with data := [] }))
    (O := upd (upd ofl nx
      (some { ino := ie, pos := 0, rd := true, wr := (fi.flags != O_RDONLY) }))
        (nx + 1) (some { ino := ic, pos := 0, rd := true, wr := true }))
    (F := upd (upd fds nx (some nx)) (nx + 1) (some (nx + 1)))
    (X := nx + 2) (E := er) (T := tr1)
    (J := nx) (K := nx) (U := nx + 1) (V := nx + 1)
    (S := { ino := ie, pos := 0, rd := true, wr := (fi.flags != O_RDONLY) })
    (G := { ino := ic, pos := 0, rd := true, wr := true })
    (Q := fe) (R := { fc with data := [] })
    (by simp [upd]) (by simp [upd]) rfl (by simp [upd]) (by simp [upd]) rfl (by omega)
    hnino (by simp [upd, hnino, hie]) (by simp [upd]) (by omega) (by omega) (by simp) (by simp)
  rw [h2]
  dsimp only
  simp only [Nat.cast_ofNat, Int.Nat.cast_ofNat_Int, lt_self_iff_false, if_false,
    CharP.cast_eq_zero]
  refine ⟨_, rfl, ?_, rfl⟩
  constructor
  all_goals try dsimp only
  all_goals first
    | omega
    | (simp [upd, *]; done)
    | (simp [upd, *]; omega)

/-- The callback `enc_truncate` on a regular file whose scratch path names
another regular file, no call failing: that file is overwritten and unlinked. -/
theorem enc_truncate_occupied (c : Cipher) (w : World) (P full tmp : Path) (size : Int)
    {ie ic : Nat} {fe fc : Inode}
    (hf : w.faults = [])
    (hfull : buildPath w (some P) (some []) PATHBUFSIZE = (0, some full))
    (htmp : buildTempPath (some full) (some []) PATHBUFSIZE = (0, some tmp))
    (hn1 : w.names full = some ie) (hie : w.inodes ie = some fe)
    (hreg : S_ISREG fe.mode = true)
    (hn2 : w.names tmp = some ic) (hic : w.inodes ic = some fc)
    (hregc : S_ISREG fc.mode = true) (hnino : ie ≠ ic) (hsize : 0 ≤ size) :
    ∃ w1,
      enc_truncate c w (some P) size = (0, w1) ∧
      w1.names = upd w.names tmp none ∧
      w1.inodes ic =
        some { fc with data := resize [] size.toNat, nlink := fc.nlink - 1 } := by
  obtain ⟨hne, hlen⟩ := buildTempPath_ok htmp
  obtain ⟨pd, nm, ino, ofl, fds, nx, er, fl, tr⟩ := w
  simp only at hf hie hic hn1 hn2 ⊢
  subst hf
  have hnino2 : ic ≠ ie := fun h => hnino h.symm
  unfold enc_truncate
  rw [hfull]
  dsimp only
  rw [htmp]
  dsimp only
  obtain ⟨tr1, h1⟩ := openFilePair_old_mk (D := pd) (O := ofl) (F := fds)
    (X := nx) (E := er) (T := tr) (L := O_RDWR)
    hn1 hie hreg hn2 hic hregc hlen (Or.inr (Or.inr rfl))
  simp only [lt_self_iff_false, if_false, Option.getD_some]
  rw [h1]
  dsimp only
  rw [sys_ftruncate_mk (k := nx + 1) (f := { ino := ic, pos := 0, rd := true, wr := true })
    (i := { fc with data := [] }) ?_ ?_ rfl ?_ hsize]
  rotate_left
  · simp [upd]
  · simp [upd]
  · simp [upd]
  dsimp only
  simp only [lt_self_iff_false, if_false]
  obtain ⟨tr2, h2⟩ := encryptFH_mk c (D := pd) (N := nm)
    (I := upd (upd ino ic (some { fc with data := [] })) ic
      (some { fc with data := resize [] size.toNat }))
    (O := upd (upd ofl nx
      (some { ino := ie, pos := 0, rd := true, wr := (O_RDWR != O_RDONLY) }))
        (nx + 1) (some { ino := ic, pos := 0, rd := true, wr := true }))
    (F := upd (upd fds nx (some nx)) (nx + 1) (some (nx + 1)))
    (X := nx + 2) (E := er) (T := Sys.sFtruncate (nx + 1 : Nat) size :: tr1)
    (J := nx + 1) (K := nx + 1) (U := nx) (V := nx)
    (S := { ino := ic, pos := 0, rd := true, wr := true })
    (G := { ino := ie, pos := 0, rd := true, wr := (O_RDWR != O_RDONLY) })
    (Q := { fc with data := resize [] size.toNat }) (R := fe)
    (by simp [upd]) (by simp [upd]) rfl (by simp [upd]) (by simp [upd]) rfl (by omega)
    hnino2 (by simp [upd]) (by simp [upd, hnino, hie]) (by omega) (by omega) (by simp) (by simp)
  rw [h2]
  dsimp only
  simp only [Nat.cast_ofNat, Int.Nat.cast_ofNat_Int, lt_self_iff_false, if_false,
    CharP.cast_eq_zero]
  rw [closeFilePair_mk (K := nx) (V := nx + 1)
    (S := { ino := ie, pos := 0, rd := true, wr := (O_RDWR != O_RDONLY) })
    (G := { ino := ic, pos := 0, rd := true, wr := true }) _ _ ?_ ?_ ?_ ?_ (by omega)]
  rotate_left
  · simp only [upd]
    split_ifs <;> first | rfl | omega
  · simp [upd]
  · simp only [upd]
    split_ifs <;> first | rfl | omega
  · simp [upd]
  dsimp only
  simp only [lt_self_iff_false, if_false]
  rw [removeFile_mk (i := ic)
    (f := { fc with data := resize [] size.toNat }) hn2 ?_ hregc]
  rotate_left
  · simp [upd, hnino2]
  dsimp only
  simp only [lt_self_iff_false, if_false]
  refine ⟨_, rfl, rfl, ?_⟩
  simp [upd]

/-- Claim C23 (scratch names live in the virtual namespace): with backing root
`R`, a directory `d` and a name `n` without `/` such that
`|R| + |d| + |n| + 11 ≤ 1023`, the scratch path that `buildTempPath` derives from
the backing path of the virtual file `d/n` is the backing path of the virtual
file `d/._n.decrypt`, namely `R ++ d ++ "/._" ++ n ++ ".decrypt"`. Hence, when
both virtual files exist as regular files on two inodes and no call fails:
`openFilePair` on `d/n` empties the other file; `enc_getattr` on `d/n` returns 0
having overwritten the other file with the decryption of `d/n` and unlinked
it; `enc_open` on `d/n` overwrites it the same way and the following
`enc_release` unlinks it; `enc_truncate` on `d/n` leaves it resized from empty
and unlinked. -/
theorem scratch_names_are_virtual (c : Cipher) (w : World) (R d n : Path) (st : stat_t)
    (fi : fuse_file_info) (size : Int) (ie ic : Nat) (fe fc : Inode)
    (hR : w.private_data = some { basePath := R })
    (hn : PATHDELIMINATOR ∉ n)
    (hfit : R.length + d.length + n.length + 11 ≤ 1023)
    (hf : w.faults = [])
    (hn1 : w.names (R ++ (d ++ PATHDELIMINATOR :: n)) = some ie)
    (hie : w.inodes ie = some fe) (hreg : S_ISREG fe.mode = true)
    (hn2 : w.names
      (R ++ (d ++ ['/', '.', '_'] ++ n ++ ['.', 'd', 'e', 'c', 'r', 'y', 'p', 't'])) = some ic)
    (hic : w.inodes ic = some fc) (hregc : S_ISREG fc.mode = true)
    (hnino : ie ≠ ic) (hlie : ie < w.next) (hlic : ic < w.next)
    (hfl : fi.flags = O_RDONLY ∨ fi.flags = O_WRONLY ∨ fi.flags = O_RDWR)
    (hsize : 0 ≤ size) :
    (∀ old1 old2 old3 : Path,
      buildTempPath (buildPath w (some (d ++ PATHDELIMINATOR :: n)) (some old1) PATHBUFSIZE).2
          (some old2) PATHBUFSIZE =
        buildPath w (some (d ++ ['/', '.', '_'] ++ n ++ ['.', 'd', 'e', 'c', 'r', 'y', 'p', 't']))
          (some old3) PATHBUFSIZE ∧
      buildPath w (some (d ++ ['/', '.', '_'] ++ n ++ ['.', 'd', 'e', 'c', 'r', 'y', 'p', 't']))
          (some old3) PATHBUFSIZE =
        (0, some (R ++ (d ++ ['/', '.', '_'] ++ n ++
          ['.', 'd', 'e', 'c', 'r', 'y', 'p', 't'])))) ∧
    (∃ fhs w1,
      openFilePair w (R ++ (d ++ PATHDELIMINATOR :: n))
          (R ++ (d ++ ['/', '.', '_'] ++ n ++ ['.', 'd', 'e', 'c', 'r', 'y', 'p', 't']))
          fi.flags = (some fhs, w1) ∧
      w1.inodes ic = some { fc with data := [] }) ∧
    (∃ st1 w1,
      enc_getattr c w (some (d ++ PATHDELIMINATOR :: n)) st = (0, st1, w1) ∧
      w1.names
        (R ++ (d ++ ['/', '.', '_'] ++ n ++ ['.', 'd', 'e', 'c', 'r', 'y', 'p', 't'])) = none ∧
      w1.inodes ic =
        some { fc with data := (c.crypt_decrypt TESTKEY fe.data).2, nlink := fc.nlink - 1 }) ∧
    (∃ fi1 w1 w2,
      enc_open c w (some (d ++ PATHDELIMINATOR :: n)) fi = (0, fi1, w1) ∧
      w1.inodes ic = some { fc with data := (c.crypt_decrypt TESTKEY fe.data).2 } ∧
      enc_release c w1 (some fi1) = (0, w2) ∧
      w2.names
        (R ++ (d ++ ['/', '.', '_'] ++ n ++ ['.', 'd', 'e', 'c', 'r', 'y', 'p', 't'])) = none) ∧
    (∃ w1,
      enc_truncate c w (some (d ++ PATHDELIMINATOR :: n)) size = (0, w1) ∧
      w1.names
        (R ++ (d ++ ['/', '.', '_'] ++ n ++ ['.', 'd', 'e', 'c', 'r', 'y', 'p', 't'])) = none ∧
      w1.inodes ic =
        some { fc with data := resize [] size.toNat, nlink := fc.nlink - 1 }) := by
  have hP : ∀ old, buildPath w (some (d ++ PATHDELIMINATOR :: n)) (some old) PATHBUFSIZE =
      (0, some (R ++ (d ++ PATHDELIMINATOR :: n))) := fun old =>
    buildPath_fits w R _ old hR (by
      simp only [List.length_append, List.length_cons]; omega)
  have hQ : ∀ old, buildPath w
      (some (d ++ ['/', '.', '_'] ++ n ++ ['.', 'd', 'e', 'c', 'r', 'y', 'p', 't']))
      (some old) PATHBUFSIZE =
      (0, some (R ++ (d ++ ['/', '.', '_'] ++ n ++
        ['.', 'd', 'e', 'c', 'r', 'y', 'p', 't']))) := fun old =>
    buildPath_fits w R _ old hR (by
      simp only [List.length_append, List.length_cons, List.length_nil]; omega)
  have hT : ∀ old, buildTempPath (some (R ++ (d ++ PATHDELIMINATOR :: n))) (some old)
      PATHBUFSIZE =
      (0, some (R ++ (d ++ ['/', '.', '_'] ++ n ++
        ['.', 'd', 'e', 'c', 'r', 'y', 'p', 't']))) := by
    intro old
    have := buildTempPath_fits (R ++ d) n old hn (by
      simp only [List.length_append]; omega)
    simpa only [List.append_assoc] using this
  obtain ⟨_, hlen⟩ := buildTempPath_ok (hT [])
  have hclean : FHS_CLEAN ≠ FHS_DIRTY := by decide
  refine ⟨?_, ?_, ?_, ?_, ?_⟩
  · intro old1 old2 old3
    rw [hP old1, hQ old3]
    exact ⟨hT old2, rfl⟩
  · obtain ⟨pd, nm, ino, ofl, fds, nx, er, fl, tr⟩ := w
    simp only at hf hie hic hn1 hn2
    subst hf
    obtain ⟨tr1, h1⟩ := openFilePair_old_mk (D := pd) (O := ofl) (F := fds)
      (X := nx) (E := er) (T := tr) (L := fi.flags)
      hn1 hie hreg hn2 hic hregc hlen hfl
    exact ⟨_, _, h1, by simp [upd]⟩
  · obtain ⟨w1, st1, h1, h2, h3⟩ := enc_getattr_occupied c w _ _ _ st hf (hP [])
      (hT []) hn1 hie hreg hn2 hic hregc hnino
    exact ⟨st1, w1, h1, by simp [h2, upd], h3⟩
  · obtain ⟨w1, h1, hL, h2⟩ := enc_open_occupied c w _ _ _ fi hf (hP [])
      (hT []) hn1 hie hreg hn2 hic hregc hnino hlie hlic hfl
    obtain ⟨w2, h3, _, h4, _⟩ := enc_release_ok c w1
      { fi with fh := { encFH := (w.next : Int), clearFH := ((w.next + 1 : Nat) : Int),
                        clearPath := R ++ (d ++ ['/', '.', '_'] ++ n ++
                          ['.', 'd', 'e', 'c', 'r', 'y', 'p', 't']),
                        dirty := FHS_CLEAN } }
      hL rfl rfl (by rw [h2]; exact hn2) hregc (fun h => absurd h hclean)
    exact ⟨_, w1, w2, h1, hL.ino_c, h3, by simp [h4, upd]⟩
  · obtain ⟨w1, h1, h2, h3⟩ := enc_truncate_occupied c w _ _ _ size hf (hP [])
      (hT []) hn1 hie hreg hn2 hic hregc hnino hsize
    exact ⟨w1, h1, by simp [h2, upd], h3⟩

/-- Witness of C23: `getattr("/hello.txt")` unlinks the virtual file
`/._hello.txt.decrypt` and leaves the decryption of `/hello.txt` in its inode. -/
theorem scratch_names_are_virtual_witness :
    shadowWorld.private_data = some { basePath := ['/', 'b'] } ∧
    PATHDELIMINATOR ∉ linkTarget ∧
    shadowWorld.names helloFull = some 3 ∧ shadowWorld.names helloTemp = some 4 ∧
    shadowWorld.inodes 4 = some (newInode (S_IFREG ||| 420) bytesX) ∧
    ∃ st1 w1,
      enc_getattr demoCipher shadowWorld (some ([] ++ PATHDELIMINATOR :: linkTarget)) st0 =
        (0, st1, w1) ∧
      w1.names (['/', 'b'] ++ ([] ++ ['/', '.', '_'] ++ linkTarget ++
        ['.', 'd', 'e', 'c', 'r', 'y', 'p', 't'])) = none ∧
      w1.inodes 4 =
        some { newInode (S_IFREG ||| 420) bytesX with
          data := (demoCipher.crypt_decrypt TESTKEY
            (newInode (S_IFREG ||| 420) helloWorld).data).2,
          nlink := (newInode (S_IFREG ||| 420) bytesX).nlink - 1 } :=
  ⟨rfl, by decide, by decide, by decide, by decide,
    (scratch_names_are_virtual demoCipher shadowWorld ['/', 'b'] [] linkTarget st0 (fi0 O_RDWR) 0
      3 4 (newInode (S_IFREG ||| 420) helloWorld) (newInode (S_IFREG ||| 420) bytesX)
      rfl (by decide) (by decide) rfl (by decide) (by decide) (by decide) (by decide)
      (by decide) (by decide) (by decide) (by decide) (by decide)
      (Or.inr (Or.inr rfl)) (by decide)).2.2.1⟩

/-! ## A path-based getattr during a session -/

theorem removeFile_absent_mk {D : Option fsState_t} {N : Path → Option Nat}
    {I : Nat → Option Inode} {O : Nat → Option OpenFile} {F : Nat → Option Nat}
    {X : Nat} {E : Int} {T : List Sys} {path : Path} (hn : N path = none) :
    removeFile (World.mk D N I O F X E [] T) path =
      (-ENOENT, World.mk D N I O F X ENOENT [] (Sys.sUnlink path :: T)) := by
  simp [removeFile, sys_unlink, World.enter, World.fail, hn, ENOENT]

/-- Both handles of a live pair are open. -/
theorem live_handles {w : World} {ne nc ie ic : Nat} {rd wr : Bool} {fe fc : Inode}
    (hL : Live w ne nc ie ic rd wr fe fc) :
    w.file (ne : Int) = some (ne, { ino := ie, pos := 0, rd := rd, wr := wr }) ∧
    w.file (nc : Int) = some (nc, { ino := ic, pos := 0, rd := true, wr := true }) := by
  have hneg1 : ¬ ((ne : Int) < 0) := by omega
  have hneg2 : ¬ ((nc : Int) < 0) := by omega
  constructor
  · simp [World.file, hneg1, hL.fd_e, hL.of_e]
  · simp [World.file, hneg2, hL.fd_c, hL.of_c]

/-- The callback `enc_release` on a live pair whose scratch path names nothing,
no call failing: `removeFile` fails with `ENOENT`, and the pair stays open. -/
theorem enc_release_enoent (c : Cipher) (w : World) (fi : fuse_file_info)
    {ne nc ie ic : Nat} {rd wr : Bool} {fe fc : Inode}
    (hL : Live w ne nc ie ic rd wr fe fc)
    (he : fi.fh.encFH = (ne : Int)) (hc : fi.fh.clearFH = (nc : Int))
    (hn : w.names fi.fh.clearPath = none)
    (hwr : fi.fh.dirty = FHS_DIRTY → wr = true) :
    ∃ w1,
      enc_release c w (some fi) = (-ENOENT, w1) ∧
      Live w1 ne nc ie ic rd wr
        (if fi.fh.dirty = FHS_DIRTY then
           { fe with data := (c.crypt_encrypt TESTKEY fc.data).2 }
         else fe) fc ∧
      w1.names = w.names := by
  obtain ⟨hf, hfe, hfc, hoe, hoc, hie, hic, hnfd, hnino, hle, hlc, hlie, hlic⟩ := hL
  obtain ⟨pd, nm, ino, ofl, fds, nx, er, fl, tr⟩ := w
  obtain ⟨flags, ⟨efh, cfh, cpath, dirty⟩⟩ := fi
  simp only at hf hfe hfc hoe hoc hie hic hle hlc hlie hlic hn he hc hwr ⊢
  subst hf he hc
  have hnino2 : ic ≠ ie := fun h => hnino h.symm
  have hE : ((-ENOENT : Int) < 0) := by decide
  unfold enc_release
  dsimp only
  by_cases hd : dirty = FHS_DIRTY
  · have hw := hwr hd
    subst hw
    obtain ⟨tr1, h1⟩ := encryptFH_mk c (D := pd) (N := nm) (I := ino) (O := ofl)
      (F := fds) (X := nx) (E := er) (T := tr) (J := nc) (K := nc) (U := ne) (V := ne)
      (S := { ino := ic, pos := 0, rd := true, wr := true })
      (G := { ino := ie, pos := 0, rd := rd, wr := true }) (Q := fc) (R := fe)
      hfc hoc rfl hfe hoe rfl hnfd (fun h => hnino h.symm) hic hie hlc hle (by simp) (by simp)
    simp only [hd, if_true]
    rw [h1]
    dsimp only
    simp only [Nat.cast_ofNat, Int.Nat.cast_ofNat_Int, lt_self_iff_false, if_false,
      CharP.cast_eq_zero]
    rw [removeFile_absent_mk hn]
    dsimp only
    simp only [hE, if_true]
    refine ⟨_, rfl, ?_, rfl⟩
    constructor
    all_goals try dsimp only
    all_goals first
      | omega
      | (simp [upd, *]; done)
      | (simp [upd, *]; omega)
  · simp only [hd, if_false, lt_self_iff_false]
    rw [removeFile_absent_mk hn]
    dsimp only
    simp only [hE, if_true]
    exact ⟨_, rfl, ⟨rfl, hfe, hfc, hoe, hoc, hie, hic, hnfd, hnino, hle, hlc, hlie, hlic⟩, rfl⟩

/-- Claim C24 (a path-based getattr breaks the session's release): while a
session is open on the regular file `P` (a live pair: both handles open, the
scratch path `tmp` naming the plaintext file, a dirty session holding a writable
ciphertext handle) and no call fails, (1) `enc_getattr(P)` returns 0 and `tmp`
then names nothing; the session's `enc_release` then returns `-ENOENT`, and both
handles of the pair are still open; (2) so it goes for a session begun by
`enc_open`; and (3) for one begun by `enc_create` followed by a write. -/
theorem getattr_breaks_release (c : Cipher) (w : World) (P full tmp : Path) (st : stat_t)
    (fi : fuse_file_info)
    (hf : w.faults = [])
    (hfull : buildPath w (some P) (some []) PATHBUFSIZE = (0, some full))
    (htmp : buildTempPath (some full) (some []) PATHBUFSIZE = (0, some tmp)) :
    (∀ (ne nc ie ic : Nat) (rd wr : Bool) (fe fc : Inode),
      Live w ne nc ie ic rd wr fe fc →
      fi.fh.encFH = (ne : Int) → fi.fh.clearFH = (nc : Int) → fi.fh.clearPath = tmp →
      w.names full = some ie → w.names tmp = some ic →
      S_ISREG fe.mode = true → S_ISREG fc.mode = true →
      (fi.fh.dirty = FHS_DIRTY → wr = true) →
      ∃ st1 w1 w2,
        enc_getattr c w (some P) st = (0, st1, w1) ∧ w1.names tmp = none ∧
        enc_release c w1 (some fi) = (-ENOENT, w2) ∧
        w2.file fi.fh.encFH = some (ne, { ino := ie, pos := 0, rd := rd, wr := wr }) ∧
        w2.file fi.fh.clearFH = some (nc, { ino := ic, pos := 0, rd := true, wr := true })) ∧
    (∀ (ie : Nat) (fe : Inode),
      w.names full = some ie → w.inodes ie = some fe → S_ISREG fe.mode = true →
      ie < w.next → w.names tmp = none →
      (fi.flags = O_RDONLY ∨ fi.flags = O_WRONLY ∨ fi.flags = O_RDWR) →
      ∃ fi1 w1 st1 w2 w3,
        enc_open c w (some P) fi = (0, fi1, w1) ∧
        enc_getattr c w1 (some P) st = (0, st1, w2) ∧ w2.names tmp = none ∧
        enc_release c w2 (some fi1) = (-ENOENT, w3) ∧
        (w3.file fi1.fh.encFH).isSome = true ∧ (w3.file fi1.fh.clearFH).isSome = true) ∧
    (∀ (mode : Nat) (B : Bytes),
      w.names full = none → w.names tmp = none → fi.flags &&& O_CREAT ≠ 0 →
      (fi.flags &&& O_ACCMODE = O_WRONLY ∨ fi.flags &&& O_ACCMODE = O_RDWR) →
      B.length < 2147483648 →
      ∃ fi1 w1 fi2 w2 st1 w3 w4,
        enc_create c w (some P) mode fi = (0, fi1, w1) ∧
        enc_write w1 B B.length 0 fi1 = ((B.length : Int), fi2, w2) ∧
        enc_getattr c w2 (some P) st = (0, st1, w3) ∧ w3.names tmp = none ∧
        enc_release c w3 (some fi2) = (-ENOENT, w4) ∧
        (w4.file fi2.fh.encFH).isSome = true ∧ (w4.file fi2.fh.clearFH).isSome = true) := by
  have hgen : ∀ (w : World) (fi : fuse_file_info) (ne nc ie ic : Nat) (rd wr : Bool)
      (fe fc : Inode),
      buildPath w (some P) (some []) PATHBUFSIZE = (0, some full) →
      Live w ne nc ie ic rd wr fe fc →
      fi.fh.encFH = (ne : Int) → fi.fh.clearFH = (nc : Int) → fi.fh.clearPath = tmp →
      w.names full = some ie → w.names tmp = some ic →
      S_ISREG fe.mode = true → S_ISREG fc.mode = true →
      (fi.fh.dirty = FHS_DIRTY → wr = true) →
      ∃ st1 w1 w2,
        enc_getattr c w (some P) st = (0, st1, w1) ∧ w1.names tmp = none ∧
        enc_release c w1 (some fi) = (-ENOENT, w2) ∧
        w2.file fi.fh.encFH = some (ne, { ino := ie, pos := 0, rd := rd, wr := wr }) ∧
        w2.file fi.fh.clearFH = some (nc, { ino := ic, pos := 0, rd := true, wr := true }) := by
    intro w fi ne nc ie ic rd wr fe fc hfull hL he hc hcp hn1 hn2 hreg hregc hwr
    obtain ⟨w1, st1, e1, _, _, L1, hnm1, _⟩ :=
      enc_getattr_live_ok c w P full tmp st hL hfull htmp hn1 hn2 hreg hregc
    have hnone : w1.names tmp = none := by
      rw [hnm1]
      simp [upd]
    obtain ⟨w2, e2, L2, _⟩ := enc_release_enoent c w1 fi L1 he hc (by rw [hcp]; exact hnone) hwr
    obtain ⟨h1, h2⟩ := live_handles L2
    exact ⟨st1, w1, w2, e1, hnone, e2, by rw [he]; exact h1, by rw [hc]; exact h2⟩
  obtain ⟨hne, hlen⟩ := buildTempPath_ok htmp
  have hclean : FHS_CLEAN ≠ FHS_DIRTY := by decide
  refine ⟨?_, ?_, ?_⟩
  · intro ne nc ie ic rd wr fe fc hL he hc hcp hn1 hn2 hreg hregc hwr
    exact hgen w fi ne nc ie ic rd wr fe fc hfull hL he hc hcp hn1 hn2 hreg hregc hwr
  · intro ie fe hn1 hi hreg hlt hn2 hfl
    obtain ⟨w1, e1, L1, hnm1, hnm2, hpd1⟩ :=
      enc_open_ok c w P full tmp fi hf hfull htmp hn1 hi hreg hlt hn2 hfl
    have hfull1 : buildPath w1 (some P) (some []) PATHBUFSIZE = (0, some full) := by
      rw [buildPath_congr (w := w) hpd1]
      exact hfull
    obtain ⟨st1, w2, w3, e2, hnone, e3, h1, h2⟩ := hgen w1
      { fi with fh := { encFH := (w.next : Int), clearFH := ((w.next + 2 : Nat) : Int),
                        clearPath := tmp, dirty := FHS_CLEAN } }
      _ _ _ _ _ _ _ _ hfull1 L1 rfl rfl rfl hnm1 hnm2 hreg (S_ISREG_create _)
      (fun h => absurd h hclean)
    exact ⟨_, w1, st1, w2, w3, e1, e2, hnone, e3, by rw [h1]; rfl, by rw [h2]; rfl⟩
  · intro mode B hn1 hn2 hc hwr hB
    have hwr2 : (fi.flags &&& O_ACCMODE == O_WRONLY || fi.flags &&& O_ACCMODE == O_RDWR)
        = true := by
      rcases hwr with h | h <;> simp [h]
    obtain ⟨w1, rd, fe, e1, L1, hfe, hreg1, hnm1, hnm2, hpd1⟩ :=
      enc_create_ok c w P full tmp mode fi hf hfull htmp hn1 hn2 hc hwr2
    obtain ⟨w2, e2, L2, hnm, hpd2⟩ := enc_write_ok w1 B
      { fi with fh := { encFH := ((w.next + 1 : Nat) : Int),
                        clearFH := ((w.next + 3 : Nat) : Int),
                        clearPath := tmp, dirty := FHS_CLEAN } } L1 rfl hB
    have hfull2 : buildPath w2 (some P) (some []) PATHBUFSIZE = (0, some full) := by
      rw [buildPath_congr (w := w) (by rw [hpd2, hpd1])]
      exact hfull
    obtain ⟨st1, w3, w4, e3, hnone, e4, h1, h2⟩ := hgen w2
      { fi with fh := { encFH := ((w.next + 1 : Nat) : Int),
                        clearFH := ((w.next + 3 : Nat) : Int),
                        clearPath := tmp, dirty := FHS_DIRTY } }
      _ _ _ _ _ _ _ _ hfull2 L2 rfl rfl rfl (by rw [hnm]; exact hnm1) (by rw [hnm]; exact hnm2)
      hreg1 (S_ISREG_create _) (fun _ => rfl)
    exact ⟨_, w1, _, w2, st1, w3, w4, e1, e2, e3, hnone, e4, by rw [h1]; rfl, by rw [h2]; rfl⟩

/-- Witness of C24: `open`, `getattr`, `release` on `/hello.txt`. -/
theorem getattr_breaks_release_witness :
    plainWorld.names helloFull = some 3 ∧ plainWorld.names helloTemp = none ∧
    ∃ fi1 w1 st1 w2 w3,
      enc_open demoCipher plainWorld (some helloPath) (fi0 O_RDWR) = (0, fi1, w1) ∧
      enc_getattr demoCipher w1 (some helloPath) st0 = (0, st1, w2) ∧
      w2.names helloTemp = none ∧
      enc_release demoCipher w2 (some fi1) = (-ENOENT, w3) ∧
      (w3.file fi1.fh.encFH).isSome = true ∧ (w3.file fi1.fh.clearFH).isSome = true :=
  ⟨by decide, by decide,
    (getattr_breaks_release demoCipher plainWorld helloPath helloFull helloTemp st0 (fi0 O_RDWR)
      rfl (by decide) (by decide)).2.1 3 (newInode (S_IFREG ||| 420) helloWorld)
      (by decide) (by decide) (by decide) (by decide) (by decide) (Or.inr (Or.inr rfl))⟩

end FuseEnc
